import Mathlib

/-!
# FManager: ledger integrity

A shallow embedding of the record, account, category and member operations of
`finance.c` and `settings.c`, over an explicit model of the four SQLite tables.

* A table is the list of its rows; `ORDER BY id` is a sort on the `id` column.
* `REAL` amounts and balances are rationals. `add_record`, `edit_record`,
  `delete_record` and `apply_balance_delta` take them as exact numbers;
  `apply_balance_delta_double` and the `_double` operations are the same code with
  every balance sum rounded to the nearest IEEE 754 double, as SQLite makes it.
* The `type` column, constrained by `CHECK(type IN ('income','expense'))`, is
  the two-valued `Kind`.
* Every operation takes the answers typed at its prompts as an input record and
  an `Sql` value saying which of its write statements complete; reads complete.
* `BEGIN … ROLLBACK` returns the store the operation started from.
* `PRAGMA foreign_keys = ON` is issued on the connection of `init_finance_database`
  only; every operation opens its own connection, so `FOREIGN KEY` clauses are not
  enforced and the checks between tables are the ones the code makes. `UNIQUE`
  columns and `AUTOINCREMENT` keys are enforced.

The functions on C strings (`print_record_row`, `csv_escape` of `utils.c`,
`is_valid_date`), the login of `auth.c` and the paging loop of `list_records` are
embedded next to it.

* A C string is the list of its bytes before the terminator; the bytes of a text
  value are its UTF-8 encoding (`c_str`).
* A function that writes into a caller's buffer is the list of its stores
  `output[index] = byte`; `size_t` arithmetic is modulo 2^64, `int` arithmetic wraps
  at 32 bits.
* `hash_password` is a parameter of the login: `sha256` is not among the sources.
-/

namespace FManager

/-! ## Data model (`init_finance_database`, finance.c 11-72) -/

/-- Column `type TEXT CHECK(type IN ('income','expense'))`. -/
inductive Kind where
  | income
  | expense
deriving DecidableEq, Repr

/-- Row of `accounts`. -/
structure Account where
  id : Int
  name : String
  balance : ℚ
deriving DecidableEq, Repr

/-- Row of `categories`; `parent_id = none` is SQL `NULL`. -/
structure Category where
  id : Int
  name : String
  parent_id : Option Int
  type : Kind
deriving DecidableEq, Repr

/-- Row of `members`. -/
structure Member where
  id : Int
  name : String
deriving DecidableEq, Repr

/-- Row of `records`; `remark = none` is SQL `NULL`. -/
structure Record where
  id : Int
  amount : ℚ
  type : Kind
  category_id : Int
  account_id : Int
  member_id : Int
  remark : Option String
  date : String
  created_at : String
  updated_at : String
deriving DecidableEq, Repr

/-- The database file: the four tables and, for each, the `sqlite_sequence`
counter kept for its `AUTOINCREMENT` key. -/
structure Store where
  categories : List Category
  accounts : List Account
  members : List Member
  records : List Record
  seq_categories : Int
  seq_accounts : Int
  seq_members : Int
  seq_records : Int
deriving DecidableEq, Repr

/-- A freshly created database: every table empty. -/
def Store.empty : Store :=
  { categories := [], accounts := [], members := [], records := [],
    seq_categories := 0, seq_accounts := 0, seq_members := 0, seq_records := 0 }

/-- Key given by `INTEGER PRIMARY KEY AUTOINCREMENT`: one more than the largest
key the table has ever held (`seq`) and than every key it holds now. -/
def next_rowid (seq : Int) (ids : List Int) : Int :=
  ids.foldl max (max seq 0) + 1

/-- What SQLite does during one operation: which write statements prepare and step to
`SQLITE_DONE`, and what is read through a text pointer after its statement is
finalized. -/
structure Sql where
  /-- The `INSERT` / `UPDATE` / `DELETE` on the row the operation is about. -/
  row_ok : Bool
  /-- The `UPDATE accounts` of the first `apply_balance_delta` call. -/
  delta1_ok : Bool
  /-- The `UPDATE accounts` of the second `apply_balance_delta` call. -/
  delta2_ok : Bool
  /-- Text read through `old_name` in `edit_category` and `edit_account`. The pointer
  comes from `sqlite3_column_text` and is read by `strcpy(new_name, old_name)`
  (settings.c 723, 398) after `sqlite3_finalize(check)` (711, 388) has released what it
  points into: `none` when the old name is still there, `some g` when the text `g`,
  short enough for the 50 bytes of `new_name`, is found in its place. -/
  released_name : Option String := none
deriving DecidableEq, Repr

/-- Every statement completes. -/
def Sql.ok : Sql := { row_ok := true, delta1_ok := true, delta2_ok := true }

/-- Lines the operations print that tell the user how the operation ended. -/
inductive Msg where
  /-- Line `❌ 分类选择失败。` -/
  | category_select_failed
  /-- Line `❌ 账户选择失败。` -/
  | account_select_failed
  /-- Line `❌ 金额必须是大于 0 的数字！` -/
  | amount_rejected
  /-- Line `❌ 插入失败: …` or `❌ SQL 准备失败: …` -/
  | insert_failed
  /-- Line `⚠️  警告：账户余额更新失败，但记录已保存。` (add_record),
  `⚠️  警告：账户余额回滚失败，但将继续删除记录。` (delete_record) -/
  | balance_warning
  /-- Line `✅ 记录添加成功！` -/
  | add_success
  /-- Line `❌ 已取消编辑。`, `❌ 已取消删除。`, `取消删除。`, `⚠️ 操作已取消。` -/
  | cancelled
  /-- Line `❌ 记录 ID %d 不存在！` and the like for members, accounts, categories -/
  | not_found
  /-- Line `❌ 更新失败: …` or `❌ 准备更新语句失败: …` -/
  | update_failed
  /-- Line `⚠️  警告：无法撤销原账户余额变更。` -/
  | undo_old_warning
  /-- Line `⚠️  警告：无法应用新账户余额变更。` -/
  | apply_new_warning
  /-- Line `✅ 记录及账户余额已同步更新！` -/
  | edit_synced
  /-- Line `⚠️  记录已更新，但账户余额可能不一致，请检查。` -/
  | edit_inconsistent
  /-- Line `❌ 无法获取记录详情，删除中止。` -/
  | details_unavailable
  /-- Line `❌ SQL 执行失败: …` or `❌ 准备删除语句失败: …` -/
  | delete_failed
  /-- Line `✅ 记录 ID=%d 已成功删除，账户余额已同步更新！` -/
  | delete_success
  /-- Line `❌ 无法删除：…已被…引用` and the like -/
  | in_use
  /-- Line `❌ 无效 ID` -/
  | invalid_id
  /-- Line `❌ 无法删除：该一级分类下还有子分类！请先删除子分类。` -/
  | has_children
  /-- Line `❌ …不能为空。` -/
  | name_empty
  /-- Line `❌ 名称过长（最多30字符）` -/
  | name_too_long
  /-- Line `❌ 账户名称 "%s" 已存在。`, `❌ 同级分类中已存在同名项` -/
  | duplicate_name
  /-- Line `❌ 无可用父分类，请先添加一级分类。` -/
  | no_parent_available
  /-- Line `✅ …添加成功！`, `✅ …更新成功！`, `✅ …删除成功！`, `✅ 分类修改成功！` -/
  | settings_success
  /-- Line `❌ 添加失败: …`, `❌ 更新失败…`, `❌ 删除失败…`, `❌ 修改失败: …` -/
  | settings_failed
deriving DecidableEq, Repr

/-- The line says that the account balance is in step with the record change:
`✅ 记录及账户余额已同步更新！` of `edit_record` (record and account balance updated
together) and `✅ 记录 ID=%d 已成功删除，账户余额已同步更新！` of `delete_record` (record
deleted, account balance updated with it). -/
def Msg.reports_balance_synced : Msg → Bool
  | Msg.edit_synced => true
  | Msg.delete_success => true
  | _ => false

/-- The line announces success of the operation: the two lines above, and
`✅ 记录添加成功！` of `add_record` (record added). -/
def Msg.reports_success : Msg → Bool
  | Msg.add_success => true
  | Msg.edit_synced => true
  | Msg.delete_success => true
  | _ => false

/-- What an operation leaves behind. -/
structure Result where
  /-- The database after the operation. -/
  store : Store
  /-- The row mutation was made durable (for the record operations: `COMMIT` ran). -/
  committed : Bool
  /-- No `apply_balance_delta` call of the operation returned 0. -/
  balance_ok : Bool
  /-- The outcome lines printed, in order. -/
  msgs : List Msg
deriving DecidableEq, Repr

/-- The operation ends without touching the database. -/
def Result.untouched (s : Store) (m : List Msg) : Result :=
  { store := s, committed := false, balance_ok := true, msgs := m }

/-! ## Balance ledger (finance.c 186-200) -/

/-- Contribution of a record to its account: `+amount` for income, `-amount`
for expense (finance.c 338, 552, 559, 680). -/
def signed (type : Kind) (amount : ℚ) : ℚ :=
  if type = Kind.income then amount else -amount

/-- Embedding of `apply_balance_delta`:
`UPDATE accounts SET balance = balance + ? WHERE id = ?`, amounts treated as exact
numbers: the sum is the exact one. `apply_balance_delta_double` is the same statement
with the sum as SQLite makes it on the `REAL` column. -/
def apply_balance_delta (step_ok : Bool) (s : Store) (account_id : Int) (delta : ℚ) :
    Store × Bool :=
  if account_id ≤ 0 then (s, false)
  else if step_ok = false then (s, false)
  else
    ({ s with accounts := s.accounts.map fun a =>
        if a.id = account_id then { a with balance := a.balance + delta } else a },
     true)

/-! ## Selection menus (finance.c 1267-1460) -/

/-- Rows of `accounts` in `ORDER BY id` order. -/
def accounts_by_id (s : Store) : List Account :=
  s.accounts.insertionSort fun a b => a.id ≤ b.id

/-- Rows of `categories` in `ORDER BY id` order. -/
def categories_by_id (s : Store) : List Category :=
  s.categories.insertionSort fun a b => a.id ≤ b.id

/-- Embedding of `select_account`: `choice` is the number read by `scanf`
(`-1` when the read fails); the result is the chosen id, or `-1`. -/
def select_account (s : Store) (choice : Int) : Int :=
  let account_ids := (accounts_by_id s).map fun a => a.id
  if account_ids.length = 0 then -1
  else if choice < 1 ∨ choice > account_ids.length then -1
  else account_ids.getD (choice - 1).toNat (-1)

/-- Capacity of the menu arrays of `select_category`. -/
def MAX_CATEGORIES : Nat := 200

/-- Ids listed by
`SELECT id, name FROM categories WHERE type = ? AND parent_id IS NULL ORDER BY id`,
read while `total < MAX_CATEGORIES`. -/
def top_level_ids (s : Store) (type : Kind) : List Int :=
  (((categories_by_id s).filter fun c => c.type = type ∧ c.parent_id = none).map
    fun c => c.id).take MAX_CATEGORIES

/-- Ids listed by `SELECT id, name FROM categories WHERE parent_id = ? ORDER BY id`. -/
def sub_ids (s : Store) (parent : Int) : List Int :=
  ((categories_by_id s).filter fun c => c.parent_id = some parent).map fun c => c.id

/-- One pass of the loop `for (i = 0; i < total && total < MAX_CATEGORIES; i++)`
of `select_category`: the sub-categories of entry `i` are appended while there is
room. When the loop condition is false the pass changes nothing, and it stays
false for every later `i`. -/
def add_subs_step (s : Store) (all_ids : List Int) (i : Nat) : List Int :=
  if i < all_ids.length ∧ all_ids.length < MAX_CATEGORIES then
    all_ids ++ (sub_ids s (all_ids.getD i (-1))).take (MAX_CATEGORIES - all_ids.length)
  else all_ids

/-- Embedding of `select_category`: `choice` is the number read by `scanf`
(`-1` when the read fails); the result is the chosen id, or `-1`. The loop index
stays below `MAX_CATEGORIES`, so the loop is the fold over `0 … 199`. -/
def select_category (s : Store) (type : Kind) (choice : Int) : Int :=
  let tops := top_level_ids s type
  if tops.length = 0 then -1
  else
    let all_ids := (List.range MAX_CATEGORIES).foldl (add_subs_step s) tops
    if choice < 1 ∨ choice > all_ids.length then -1
    else all_ids.getD (choice - 1).toNat (-1)

/-- Embedding of `select_member`: any positive number typed is returned as it is. -/
def select_member (choice : Int) : Int :=
  if choice > 0 then choice else -1

/-! ## Record transaction protocol (finance.c 203-716) -/

/-- Answers given to the prompts of `add_record`. The three re-prompting loops
(date, type, amount) end with the values recorded here. -/
structure AddInput where
  /-- Date left by the loop of lines 217-236: today, or an entry `is_valid_date` accepts. -/
  date : String
  /-- Menu answer `1` (income) or `2` (expense). -/
  type_str : Kind
  /-- Number typed in `select_category`. -/
  cat_choice : Int
  /-- Number typed in `select_account`. -/
  acc_choice : Int
  /-- Number typed in `select_member`. -/
  mem_choice : Int
  /-- Value `strtod` returns for the entry at the amount prompt. -/
  amount : ℚ
  /-- What `endptr` points at after `strtod`: the part of the entry it did not parse. -/
  amount_rest : String := ""
  /-- Line typed at the remark prompt. -/
  remark : String
  /-- Value of `datetime('now','localtime')`. -/
  now : String
deriving DecidableEq, Repr

/-- Text bound for the `remark` column: `NULL` when the buffer is empty. -/
def remark_column (remark : String) : Option String :=
  if remark = "" then none else some remark

/-- The row `add_record` binds to its `INSERT`: the key is the next `AUTOINCREMENT`
value, a skipped member selection falls back to member 1. -/
def added_row (s : Store) (inp : AddInput) : Record :=
  { id := next_rowid s.seq_records (s.records.map fun r => r.id),
    amount := inp.amount, type := inp.type_str,
    category_id := select_category s inp.type_str inp.cat_choice,
    account_id := select_account s inp.acc_choice,
    member_id := if select_member inp.mem_choice = -1 then 1 else select_member inp.mem_choice,
    remark := remark_column inp.remark, date := inp.date,
    created_at := inp.now, updated_at := inp.now }

/-- Exit condition of the amount loop, `*endptr == '\0' && amount > 0`, also the
test `edit_record` makes before it takes a new amount. -/
def amount_accepted (rest : String) (amount : ℚ) : Prop :=
  rest = "" ∧ 0 < amount

instance (rest : String) (amount : ℚ) : Decidable (amount_accepted rest amount) :=
  inferInstanceAs (Decidable (rest = "" ∧ 0 < amount))

/-- Embedding of `add_record`, amounts treated as exact numbers. An entry at the
amount prompt that is not accepted is asked for again, so nothing is written for it. -/
def add_record (q : Sql) (s : Store) (inp : AddInput) : Result :=
  let category_id := select_category s inp.type_str inp.cat_choice
  if category_id = -1 then Result.untouched s [Msg.category_select_failed]
  else
    let account_id := select_account s inp.acc_choice
    if account_id = -1 then Result.untouched s [Msg.account_select_failed]
    else if ¬ amount_accepted inp.amount_rest inp.amount then
      Result.untouched s [Msg.amount_rejected]
    else if q.row_ok = false then Result.untouched s [Msg.insert_failed]
    else
      let row := added_row s inp
      let s1 := { s with records := s.records ++ [row], seq_records := row.id }
      let delta := if inp.type_str = Kind.income then inp.amount else -inp.amount
      let r := apply_balance_delta q.delta1_ok s1 account_id delta
      { store := r.1, committed := true, balance_ok := r.2,
        msgs := (if r.2 then [] else [Msg.balance_warning]) ++ [Msg.add_success] }

/-- Answers given to the prompts of `edit_record`. -/
structure EditInput where
  /-- Record id typed. -/
  id : Int
  /-- Entry at the date prompt when it is not blank and `is_valid_date` accepts it. -/
  date : Option String
  /-- Line typed at the type prompt. -/
  type_input : String
  /-- Number typed in `select_category`. -/
  cat_choice : Int
  /-- Number typed in `select_account`, when the account prompt was not left blank. -/
  acc_choice : Option Int
  /-- Number typed in `select_member`, when the member prompt was not left blank. -/
  mem_choice : Option Int
  /-- Value `strtod` returns for the entry at the amount prompt; `none` for a blank line. -/
  amount : Option ℚ
  /-- What `endptr` points at after `strtod`: the part of the entry it did not parse. -/
  amount_rest : String := ""
  /-- Line typed at the remark prompt. -/
  remark : String
  /-- Value of `datetime('now','localtime')`. -/
  now : String
  /-- Text read through `orig_remark`. The pointer comes from `sqlite3_column_text`
  (line 403) and is read at lines 422 and 507-509, after `sqlite3_finalize(load_stmt)`
  (line 408) has released what it points into: `none` when the remark is still there,
  `some g` when `g` is found in its place. -/
  released_remark : Option String := none
deriving DecidableEq, Repr

/-- Row returned by `SELECT … FROM records WHERE id = ?`. -/
def find_record (s : Store) (id : Int) : Option Record :=
  s.records.find? fun r => r.id = id

/-- The values `edit_record` binds to its `UPDATE`, computed from the row `orig`
it loaded: a blank or rejected entry keeps the loaded value. For a blank remark
entry the old remark is copied through `orig_remark`; a stored remark fits the 99
bytes of `new_remark`, the buffers that wrote it being no larger. -/
def edited_row (s : Store) (inp : EditInput) (orig : Record) : Record :=
  let new_type :=
    if inp.type_input = "income" then Kind.income
    else if inp.type_input = "expense" then Kind.expense
    else orig.type
  let temp_cat_id := select_category s new_type inp.cat_choice
  { orig with
    date := match inp.date with
      | some d => d
      | none => orig.date,
    type := new_type,
    category_id := if temp_cat_id ≠ -1 then temp_cat_id else orig.category_id,
    account_id := match inp.acc_choice with
      | some c => if select_account s c ≠ -1 then select_account s c else orig.account_id
      | none => orig.account_id,
    member_id := match inp.mem_choice with
      | some c => if select_member c ≠ -1 then select_member c else 1
      | none => orig.member_id,
    amount := match inp.amount with
      | some val => if amount_accepted inp.amount_rest val then val else orig.amount
      | none => orig.amount,
    remark :=
      if inp.remark ≠ "" then remark_column (inp.remark.take 99)
      else match orig.remark, inp.released_remark with
        | none, _ => none
        | some t, none => some t
        | some _, some g => remark_column (g.take 99),
    updated_at := inp.now }

/-- Effect of `UPDATE records SET date = ?, type = ?, category_id = ?, account_id = ?,
member_id = ?, amount = ?, remark = ?, updated_at = … WHERE id = ?` on one matching
row `r`: every column but `id` and `created_at` takes the bound value. -/
def overwrite (n r : Record) : Record :=
  { r with date := n.date, type := n.type, category_id := n.category_id,
           account_id := n.account_id, member_id := n.member_id, amount := n.amount,
           remark := n.remark, updated_at := n.updated_at }

/-- Embedding of `edit_record`, amounts treated as exact numbers. -/
def edit_record (q : Sql) (s : Store) (inp : EditInput) : Result :=
  if inp.id = 0 then Result.untouched s [Msg.cancelled]
  else
    match find_record s inp.id with
    | none => Result.untouched s [Msg.not_found]
    | some orig =>
      let n := edited_row s inp orig
      if q.row_ok = false then Result.untouched s [Msg.update_failed]
      else
        let s1 := { s with records := s.records.map fun r =>
          if r.id = inp.id then overwrite n r else r }
        let old_delta := if orig.type = Kind.income then -orig.amount else orig.amount
        let r1 := apply_balance_delta q.delta1_ok s1 orig.account_id old_delta
        let new_delta := if n.type = Kind.income then n.amount else -n.amount
        let r2 := apply_balance_delta q.delta2_ok r1.1 n.account_id new_delta
        { store := r2.1, committed := true, balance_ok := r1.2 && r2.2,
          msgs := (if r1.2 then [] else [Msg.undo_old_warning]) ++
                  (if r2.2 then [] else [Msg.apply_new_warning]) ++
                  [if r1.2 && r2.2 then Msg.edit_synced else Msg.edit_inconsistent] }

/-- The confirmation line starts with `y` or `Y`. -/
def confirmed (line : String) : Bool :=
  line.get 0 = 'y' || line.get 0 = 'Y'

/-- Embedding of `delete_record`, amounts treated as exact numbers; `confirm` is the
line typed at the confirmation prompt. -/
def delete_record (q : Sql) (s : Store) (id : Int) (confirm : String) : Result :=
  if id = 0 then Result.untouched s [Msg.cancelled]
  else
    match find_record s id with
    | none => Result.untouched s [Msg.not_found]
    | some row =>
      if confirmed confirm = false then Result.untouched s [Msg.cancelled]
      else if row.account_id ≤ 0 then Result.untouched s [Msg.details_unavailable]
      else
        let delta := if row.type = Kind.income then -row.amount else row.amount
        let r := apply_balance_delta q.delta1_ok s row.account_id delta
        if q.row_ok = false then
          { store := s, committed := false, balance_ok := r.2,
            msgs := (if r.2 then [] else [Msg.balance_warning]) ++ [Msg.delete_failed] }
        else
          { store := { r.1 with records := r.1.records.filter fun x => x.id ≠ id },
            committed := true, balance_ok := r.2,
            msgs := (if r.2 then [] else [Msg.balance_warning]) ++ [Msg.delete_success] }

/-! ## Reference guard (settings.c 107-143) -/

/-- Embedding of `is_member_referenced`: `SELECT 1 FROM records WHERE member_id = ?`. -/
def is_member_referenced (s : Store) (member_id : Int) : Bool :=
  s.records.any fun r => r.member_id = member_id

/-- Embedding of `is_account_referenced_or_nonzero`:
`SELECT 1 FROM records WHERE account_id = ? UNION
 SELECT 1 FROM accounts WHERE id = ? AND balance != 0`. -/
def is_account_referenced_or_nonzero (s : Store) (account_id : Int) : Bool :=
  (s.records.any fun r => r.account_id = account_id) ||
  (s.accounts.any fun a => a.id = account_id ∧ a.balance ≠ 0)

/-- Embedding of `is_category_referenced`: `SELECT 1 FROM records WHERE category_id = ?`. -/
def is_category_referenced (s : Store) (category_id : Int) : Bool :=
  s.records.any fun r => r.category_id = category_id

/-! ## Members (settings.c 146-272) -/

/-- Embedding of `add_member`; `name` is the line typed. The column is `UNIQUE`. -/
def add_member (q : Sql) (s : Store) (name : String) : Result :=
  if name = "" then Result.untouched s [Msg.name_empty]
  else if q.row_ok = false ∨ (s.members.any fun m => m.name = name) then
    Result.untouched s [Msg.settings_failed]
  else
    let id := next_rowid s.seq_members (s.members.map fun m => m.id)
    { store := { s with members := s.members ++ [{ id := id, name := name }], seq_members := id },
      committed := true, balance_ok := true, msgs := [Msg.settings_success] }

/-- Embedding of `edit_member`. -/
def edit_member (q : Sql) (s : Store) (id : Int) (new_name : String) : Result :=
  if id = 0 then Result.untouched s []
  else
    match s.members.find? fun m => m.id = id with
    | none => Result.untouched s [Msg.not_found]
    | some _ =>
      if new_name = "" then Result.untouched s [Msg.name_empty]
      else if q.row_ok = false ∨ (s.members.any fun m => m.name = new_name ∧ m.id ≠ id) then
        Result.untouched s [Msg.settings_failed]
      else
        { store := { s with members := s.members.map fun m =>
            if m.id = id then { m with name := new_name } else m },
          committed := true, balance_ok := true, msgs := [Msg.settings_success] }

/-- Embedding of `delete_member`. -/
def delete_member (q : Sql) (s : Store) (id : Int) : Result :=
  if id = 0 then Result.untouched s []
  else if is_member_referenced s id then Result.untouched s [Msg.in_use]
  else if q.row_ok = false ∨ ¬ (s.members.any fun m => m.id = id) then
    Result.untouched s [Msg.settings_failed]
  else
    { store := { s with members := s.members.filter fun m => m.id ≠ id },
      committed := true, balance_ok := true, msgs := [Msg.settings_success] }

/-! ## Accounts (settings.c 299-519) -/

/-- Embedding of `add_account`; `balance` is the opening balance read by `atof`
(0 when the line is blank). The `name` column is `UNIQUE`. -/
def add_account (q : Sql) (s : Store) (name : String) (balance : ℚ) : Result :=
  if name = "" then Result.untouched s [Msg.name_empty]
  else if q.row_ok = false ∨ (s.accounts.any fun a => a.name = name) then
    Result.untouched s [Msg.settings_failed]
  else
    let id := next_rowid s.seq_accounts (s.accounts.map fun a => a.id)
    { store := { s with accounts := s.accounts ++ [{ id := id, name := name, balance := balance }],
                        seq_accounts := id },
      committed := true, balance_ok := true, msgs := [Msg.settings_success] }

/-- Embedding of `edit_account`; `new_balance` is the value read by `atof` when the
balance prompt is not left blank. For a blank name entry the name is copied through
`old_name`, after the statement that owns it is finalized. -/
def edit_account (q : Sql) (s : Store) (id : Int) (new_name : String)
    (new_balance : Option ℚ) : Result :=
  if id = 0 then Result.untouched s []
  else
    match s.accounts.find? fun a => a.id = id with
    | none => Result.untouched s [Msg.not_found]
    | some old =>
      let name := if new_name = "" then q.released_name.getD old.name else new_name
      let balance := match new_balance with
        | some b => b
        | none => old.balance
      if (s.accounts.filter fun a => a.name = name ∧ a.id ≠ id).length > 0 then
        Result.untouched s [Msg.duplicate_name]
      else if q.row_ok = false then Result.untouched s [Msg.settings_failed]
      else
        { store := { s with accounts := s.accounts.map fun a =>
            if a.id = id then { a with name := name, balance := balance } else a },
          committed := true, balance_ok := true, msgs := [Msg.settings_success] }

/-- Embedding of `delete_account`; `confirm` is the line typed at the confirmation prompt. -/
def delete_account (q : Sql) (s : Store) (id : Int) (confirm : String) : Result :=
  if id = 0 then Result.untouched s []
  else if is_account_referenced_or_nonzero s id then Result.untouched s [Msg.in_use]
  else
    match s.accounts.find? fun a => a.id = id with
    | none => Result.untouched s [Msg.not_found]
    | some _ =>
      if confirmed confirm = false then Result.untouched s [Msg.cancelled]
      else if q.row_ok = false then Result.untouched s [Msg.settings_failed]
      else
        { store := { s with accounts := s.accounts.filter fun a => a.id ≠ id },
          committed := true, balance_ok := true, msgs := [Msg.settings_success] }

/-! ## Categories (settings.c 564-886) -/

/-- Answers given to the prompts of `add_category`. -/
structure CategoryInput where
  /-- Menu answer: `none` for `0` (cancel), else `1` (income) or `2` (expense). -/
  type_str : Option Kind
  /-- Line typed at the name prompt. -/
  name : String
  /-- Line typed at the sub-category question. -/
  yn : String
  /-- Number typed at the parent menu (`-1` when the read fails). -/
  choice : Int
deriving DecidableEq, Repr

/-- Parent menu of `add_category`:
`SELECT id, name FROM categories WHERE type = ? AND parent_id IS NULL`, rows in key
order; the array `ids[100]` is taken to hold them all. -/
def parent_menu (s : Store) (type : Kind) : List Int :=
  ((categories_by_id s).filter fun c => c.type = type ∧ c.parent_id = none).map fun c => c.id

/-- The `INSERT INTO categories` of `add_category`, with `parent_id` 0 standing for
no parent; the `name` column is `UNIQUE`. -/
def insert_category (q : Sql) (s : Store) (name : String) (parent_id : Int) (type : Kind) :
    Result :=
  if q.row_ok = false ∨ (s.categories.any fun c => c.name = name) then
    Result.untouched s [Msg.settings_failed]
  else
    let id := next_rowid s.seq_categories (s.categories.map fun c => c.id)
    let row : Category :=
      { id := id, name := name, type := type,
        parent_id := if parent_id ≠ 0 then some parent_id else none }
    { store := { s with categories := s.categories ++ [row], seq_categories := id },
      committed := true, balance_ok := true, msgs := [Msg.settings_success] }

/-- Embedding of `add_category`. -/
def add_category (q : Sql) (s : Store) (inp : CategoryInput) : Result :=
  match inp.type_str with
  | none => Result.untouched s [Msg.cancelled]
  | some type_str =>
    if inp.name = "" then Result.untouched s [Msg.name_empty]
    else if inp.yn.get 0 = 'y' ∨ inp.yn.get 0 = 'Y' then
      let ids := parent_menu s type_str
      if ids.length = 0 then Result.untouched s [Msg.no_parent_available]
      else if inp.choice < 1 ∨ inp.choice > ids.length then Result.untouched s []
      else insert_category q s inp.name (ids.getD (inp.choice - 1).toNat 0) type_str
    else insert_category q s inp.name 0 type_str

/-- Value `sqlite3_column_int` reads from the `parent_id` column: 0 for `NULL`. -/
def parent_column_int (c : Category) : Int :=
  c.parent_id.getD 0

/-- Embedding of `edit_category`. For a blank line the name is copied through
`old_name`, after the statement that owns it is finalized. -/
def edit_category (q : Sql) (s : Store) (id : Int) (line : String) : Result :=
  if id ≤ 0 then Result.untouched s [Msg.invalid_id]
  else
    match s.categories.find? fun c => c.id = id with
    | none => Result.untouched s [Msg.not_found]
    | some old =>
      let parent_id := parent_column_int old
      let new_name := if line = "" then q.released_name.getD old.name else line
      if new_name.utf8ByteSize > 30 then Result.untouched s [Msg.name_too_long]
      else if (s.categories.filter fun c =>
          c.name = new_name ∧ c.parent_id = some parent_id ∧ c.id ≠ id).length > 0 then
        Result.untouched s [Msg.duplicate_name]
      else if q.row_ok = false ∨ (s.categories.any fun c => c.name = new_name ∧ c.id ≠ id) then
        Result.untouched s [Msg.settings_failed]
      else
        { store := { s with categories := s.categories.map fun c =>
            if c.id = id then { c with name := new_name } else c },
          committed := true, balance_ok := true, msgs := [Msg.settings_success] }

/-- Embedding of `delete_category`; `confirm` is the line typed at the confirmation prompt. -/
def delete_category (q : Sql) (s : Store) (id : Int) (confirm : String) : Result :=
  if id ≤ 0 then Result.untouched s [Msg.invalid_id]
  else
    match s.categories.find? fun c => c.id = id with
    | none => Result.untouched s [Msg.not_found]
    | some row =>
      let parent_id := parent_column_int row
      let is_top_level := parent_id = 0 ∨ parent_id = -1 ∨ row.parent_id = none
      let has_ref := (s.records.filter fun r => r.category_id = id).length > 0
      if has_ref then Result.untouched s [Msg.in_use]
      else if is_top_level ∧ (s.categories.filter fun c => c.parent_id = some id).length > 0 then
        Result.untouched s [Msg.has_children]
      else if confirmed confirm = false then Result.untouched s [Msg.cancelled]
      else if q.row_ok = false then Result.untouched s [Msg.settings_failed]
      else
        { store := { s with categories := s.categories.filter fun c => c.id ≠ id },
          committed := true, balance_ok := true, msgs := [Msg.settings_success] }

/-! ## The whole system -/

/-- One run of a menu action, with the answers typed and the fate of its writes. -/
inductive Op where
  | addRecord (q : Sql) (inp : AddInput)
  | editRecord (q : Sql) (inp : EditInput)
  | deleteRecord (q : Sql) (id : Int) (confirm : String)
  | addMember (q : Sql) (name : String)
  | editMember (q : Sql) (id : Int) (new_name : String)
  | deleteMember (q : Sql) (id : Int)
  | addAccount (q : Sql) (name : String) (balance : ℚ)
  | editAccount (q : Sql) (id : Int) (new_name : String) (new_balance : Option ℚ)
  | deleteAccount (q : Sql) (id : Int) (confirm : String)
  | addCategory (q : Sql) (inp : CategoryInput)
  | editCategory (q : Sql) (id : Int) (line : String)
  | deleteCategory (q : Sql) (id : Int) (confirm : String)
deriving DecidableEq, Repr

/-- Run one menu action. -/
def run (s : Store) : Op → Result
  | Op.addRecord q inp => add_record q s inp
  | Op.editRecord q inp => edit_record q s inp
  | Op.deleteRecord q id confirm => delete_record q s id confirm
  | Op.addMember q name => add_member q s name
  | Op.editMember q id new_name => edit_member q s id new_name
  | Op.deleteMember q id => delete_member q s id
  | Op.addAccount q name balance => add_account q s name balance
  | Op.editAccount q id new_name new_balance => edit_account q s id new_name new_balance
  | Op.deleteAccount q id confirm => delete_account q s id confirm
  | Op.addCategory q inp => add_category q s inp
  | Op.editCategory q id line => edit_category q s id line
  | Op.deleteCategory q id confirm => delete_category q s id confirm

/-- Run a session: the menu actions one after the other. -/
def run_all (s : Store) (ops : List Op) : Store :=
  ops.foldl (fun st op => (run st op).store) s

/-! ## Observations used by the properties -/

/-- Stored balance of the account with key `id`. -/
def balance_of (s : Store) (id : Int) : Option ℚ :=
  (s.accounts.find? fun a => a.id = id).map fun a => a.balance

/-- Signed sum, over a list of rows, of the records that reference account `id`. -/
def sum_for (rs : List Record) (id : Int) : ℚ :=
  ((rs.filter fun r => r.account_id = id).map fun r => signed r.type r.amount).sum

/-- Signed sum of the records that reference account `id`. -/
def record_sum (s : Store) (id : Int) : ℚ :=
  sum_for s.records id

/-- Contribution of one record to the signed sum of account `id`. -/
def contrib (r : Record) (id : Int) : ℚ :=
  if r.account_id = id then signed r.type r.amount else 0

/-- Sum of all stored balances. -/
def total_balance (s : Store) : ℚ :=
  (s.accounts.map fun a => a.balance).sum

/-- Balance invariant: every stored balance is the signed sum of the records of
its account. -/
def BalanceInv (s : Store) : Prop :=
  ∀ a ∈ s.accounts, a.balance = record_sum s a.id

/-- A small ledger used to exercise the operations: two accounts, a root income
category with one child, a root expense category, one member, no record. -/
def demo : Store :=
  { categories := [{ id := 1, name := "Salary", parent_id := none, type := Kind.income },
                   { id := 2, name := "Bonus", parent_id := some 1, type := Kind.income },
                   { id := 3, name := "Food", parent_id := none, type := Kind.expense }],
    accounts := [{ id := 1, name := "Cash", balance := 0 },
                 { id := 2, name := "Bank", balance := 0 }],
    members := [{ id := 1, name := "Me" }],
    records := [],
    seq_categories := 3, seq_accounts := 2, seq_members := 1, seq_records := 0 }

/-- The row update of `apply_balance_delta`. -/
def bump (account_id : Int) (delta : ℚ) (a : Account) : Account :=
  if a.id = account_id then { a with balance := a.balance + delta } else a

/-- Store and success flag after the two `apply_balance_delta` calls of `edit_record`,
when its `UPDATE` went through on the loaded row `orig`. -/
def edit_commit_store (q : Sql) (s : Store) (inp : EditInput) (orig : Record) : Store × Bool :=
  apply_balance_delta q.delta2_ok
    (apply_balance_delta q.delta1_ok
      { s with records := s.records.map fun r =>
          if r.id = inp.id then overwrite (edited_row s inp orig) r else r }
      orig.account_id (if orig.type = Kind.income then -orig.amount else orig.amount)).1
    (edited_row s inp orig).account_id
    (signed (edited_row s inp orig).type (edited_row s inp orig).amount)

/-- Key constraints of the schema that the ledger relies on: record ids are
distinct (`PRIMARY KEY`) and account ids are positive (`AUTOINCREMENT`). -/
def LedgerKeys (s : Store) : Prop :=
  (s.records.map fun r => r.id).Nodup ∧ ∀ a ∈ s.accounts, 0 < a.id

/-- The menu action is one of `add_record`, `edit_record`, `delete_record`. -/
def Op.isRecordOp : Op → Bool
  | Op.addRecord _ _ => true
  | Op.editRecord _ _ => true
  | Op.deleteRecord _ _ _ => true
  | _ => false

/-- The `Sql` outcome the menu action runs under. -/
def Op.sql : Op → Sql
  | Op.addRecord q _ => q
  | Op.editRecord q _ => q
  | Op.deleteRecord q _ _ => q
  | Op.addMember q _ => q
  | Op.editMember q _ _ => q
  | Op.deleteMember q _ => q
  | Op.addAccount q _ _ => q
  | Op.editAccount q _ _ _ => q
  | Op.deleteAccount q _ _ => q
  | Op.addCategory q _ => q
  | Op.editCategory q _ _ => q
  | Op.deleteCategory q _ _ => q

/-- An income record of 1000 on the first account, first income category. -/
def demo_add : AddInput :=
  { date := "2025-01-01", type_str := Kind.income, cat_choice := 1, acc_choice := 1,
    mem_choice := 0, amount := 1000, remark := "", now := "2025-01-01 09:00:00" }

/-- Edit of record 1 that only enters a new amount, 800. -/
def demo_edit_amount : EditInput :=
  { id := 1, date := none, type_input := "", cat_choice := -1, acc_choice := none,
    mem_choice := none, amount := some 800, remark := "", now := "2025-01-02 09:00:00" }

/-- Edit of record 1 that only selects the second account. -/
def demo_edit_account : EditInput :=
  { id := 1, date := none, type_input := "", cat_choice := -1, acc_choice := some 2,
    mem_choice := none, amount := none, remark := "", now := "2025-01-02 09:00:00" }

/-- An expense record of 25 on the first account, under the first expense category. -/
def demo_add_food : AddInput :=
  { date := "2025-01-03", type_str := Kind.expense, cat_choice := 1, acc_choice := 1,
    mem_choice := 0, amount := 25, remark := "lunch", now := "2025-01-03 13:00:00" }

/-- A session on `demo`: add an income record, change its amount, add an expense
record, move the first record to the second account, add and delete a third record. -/
def demo_session : List Op :=
  [Op.addRecord Sql.ok demo_add, Op.editRecord Sql.ok demo_edit_amount,
   Op.addRecord Sql.ok demo_add_food, Op.editRecord Sql.ok demo_edit_account,
   Op.addRecord Sql.ok demo_add, Op.deleteRecord Sql.ok 3 "y"]

/-- The ledger `demo` after `add_record` of `demo_add`. -/
def demo_ledger : Store :=
  (add_record Sql.ok demo demo_add).store

/-- The ledger `demo_ledger` after the amount of record 1 is edited to 800. -/
def demo_edited : Store :=
  (edit_record Sql.ok demo_ledger demo_edit_amount).store

/-- The ledger `demo_edited` after record 1 is deleted. -/
def demo_deleted : Store :=
  (delete_record Sql.ok demo_edited 1 "y").store

/-- Referential integrity: every record names an existing account and an existing
category. -/
def RefInv (s : Store) : Prop :=
  ∀ r ∈ s.records,
    (∃ a ∈ s.accounts, a.id = r.account_id) ∧ (∃ c ∈ s.categories, c.id = r.category_id)

/-- Two-level hierarchy: the parent of a category exists and has no parent itself. -/
def DepthInv (s : Store) : Prop :=
  ∀ c ∈ s.categories, ∀ p, c.parent_id = some p →
    ∃ k ∈ s.categories, k.id = p ∧ k.parent_id = none

/-- A session from the empty store: an account, a root category, a child of it,
a record under the child, then an attempt to delete the root. -/
def demo_setup : List Op :=
  [Op.addAccount Sql.ok "Cash" 0,
   Op.addCategory Sql.ok { type_str := some Kind.income, name := "Salary", yn := "n", choice := 0 },
   Op.addCategory Sql.ok { type_str := some Kind.income, name := "Bonus", yn := "y", choice := 1 },
   Op.addRecord Sql.ok { demo_add with cat_choice := 2 },
   Op.deleteCategory Sql.ok 1 "y"]

/-- Every stored amount is strictly positive. -/
def AmountInv (s : Store) : Prop :=
  ∀ r ∈ s.records, 0 < r.amount

/-- Outcome in which the row statement fails and the balance statements would complete. -/
def Sql.row_fails : Sql := { row_ok := false, delta1_ok := true, delta2_ok := true }

/-- Outcome in which only the balance statement of `delete_record` (or the first one of
`edit_record`) fails. -/
def Sql.reversal_fails : Sql := { row_ok := true, delta1_ok := false, delta2_ok := true }

/-- The ledger `demo` after `add_record` of `demo_add_food`: record 1 is an expense of
25 with remark `lunch`. -/
def demo_food_ledger : Store :=
  (add_record Sql.ok demo demo_add_food).store

/-- Edit of record 1 with every prompt left blank and an invalid number typed in the
category menu; what `orig_remark` points at after `sqlite3_finalize` starts with a zero
byte. -/
def demo_edit_blank : EditInput :=
  { id := 1, date := none, type_input := "", cat_choice := -1, acc_choice := none,
    mem_choice := none, amount := none, remark := "", now := "2025-01-04 10:00:00",
    released_remark := some "" }

/-- Edit of record 1 that types `expense` at the type prompt and a number outside the
category menu. -/
def demo_edit_kind : EditInput :=
  { id := 1, date := none, type_input := "expense", cat_choice := 0, acc_choice := none,
    mem_choice := none, amount := none, remark := "", now := "2025-01-02 09:00:00" }

/-- A session from the empty store: an account, an income category, an income record
under it, then an edit of the record that changes its type to expense and selects no
category. -/
def demo_kind_session : List Op :=
  [Op.addAccount Sql.ok "Cash" 0,
   Op.addCategory Sql.ok { type_str := some Kind.income, name := "Salary", yn := "n", choice := 0 },
   Op.addRecord Sql.ok demo_add,
   Op.editRecord Sql.ok demo_edit_kind]

/-- A session from the empty store, in which no member is ever added: an account, a
category, a record with the member selection skipped (0), a record with member 7
typed. -/
def demo_member_session : List Op :=
  [Op.addAccount Sql.ok "Cash" 0,
   Op.addCategory Sql.ok { type_str := some Kind.income, name := "Salary", yn := "n", choice := 0 },
   Op.addRecord Sql.ok demo_add,
   Op.addRecord Sql.ok { demo_add with mem_choice := 7 }]

/-- The menu action can change the stored balance of an existing account: the three
record operations, through `apply_balance_delta`, and `edit_account` when a balance is
entered at its prompt, through `UPDATE accounts SET name = ?, balance = ?`. -/
def Op.writesBalance : Op → Bool
  | Op.addRecord _ _ => true
  | Op.editRecord _ _ => true
  | Op.deleteRecord _ _ _ => true
  | Op.editAccount _ _ _ (some _) => true
  | _ => false

/-- Kind along the hierarchy: a category has the type of the category its `parent_id`
names. -/
def KindInv (s : Store) : Prop :=
  ∀ c ∈ s.categories, ∀ p, c.parent_id = some p →
    ∀ k ∈ s.categories, k.id = p → k.type = c.type

/-- The menu action is one of `add_category`, `edit_category`, `delete_category`. -/
def Op.isCategoryOp : Op → Bool
  | Op.addCategory _ _ => true
  | Op.editCategory _ _ _ => true
  | Op.deleteCategory _ _ _ => true
  | _ => false

/-- A session from the empty store: two roots of different kinds, a child under each,
a rename of the first child, the deletion of the second child. -/
def demo_kinds : List Op :=
  [Op.addCategory Sql.ok { type_str := some Kind.income, name := "Salary", yn := "n", choice := 0 },
   Op.addCategory Sql.ok { type_str := some Kind.expense, name := "Food", yn := "n", choice := 0 },
   Op.addCategory Sql.ok { type_str := some Kind.income, name := "Bonus", yn := "y", choice := 1 },
   Op.addCategory Sql.ok { type_str := some Kind.expense, name := "Lunch", yn := "y", choice := 1 },
   Op.editCategory Sql.ok 3 "Premium",
   Op.deleteCategory Sql.ok 4 "y"]

/-! ## Category path (finance.c 121-183, 752-771, 1218-1230) -/

/-- Bytes of a text value as the C code reads them: its UTF-8 encoding. -/
def c_str (s : String) : List Nat :=
  s.toUTF8.data.toList.map UInt8.toNat

/-- Columns `c_parent.name` and `c_child.name` that
`JOIN categories c_child ON r.category_id = c_child.id
 LEFT JOIN categories c_parent ON c_child.parent_id = c_parent.id`
gives for record `r`: `none` when no category has the key `r.category_id`; the first
component is `none` (SQL `NULL`) when the child has no parent row. -/
def category_names (s : Store) (r : Record) : Option (Option String × String) :=
  (s.categories.find? fun c => c.id = r.category_id).map fun child =>
    ((child.parent_id.bind fun p => s.categories.find? fun c => c.id = p).map (fun k => k.name),
     child.name)

/-- Embedding of the path built by `print_record_row` (finance.c 155-163): the content
of `char category_path[60]` read as a C string. `snprintf` writes at most 59 bytes of
`"%s > %s"` and a zero byte; `strncpy` copies at most 59 bytes of `child_name` into the
buffer, whose last byte is zero from its initialiser. -/
def category_path (parent_name : Option String) (child_name : String) : List Nat :=
  match parent_name with
  | some p =>
    if (c_str p).length > 0 then (c_str p ++ c_str " > " ++ c_str child_name).take 59
    else (c_str child_name).take 59
  | none => (c_str child_name).take 59

/-- Category path that `list_records` shows for record `r`: the query also has
`JOIN accounts a ON r.account_id = a.id`, so a record is listed when its category and
its account exist. -/
def listed_path (s : Store) (r : Record) : Option (List Nat) :=
  if s.accounts.any fun a => a.id = r.account_id then
    (category_names s r).map fun n => category_path n.1 n.2
  else none

/-- Column `category_path` of the query of `show_category_report` for record `r`:
`CASE WHEN c_parent.name IS NOT NULL THEN c_parent.name || ' > ' || c_child.name
 ELSE c_child.name END`, printed with `%-20s`. -/
def report_path (s : Store) (r : Record) : Option String :=
  (category_names s r).map fun n =>
    match n.1 with
    | some p => p ++ " > " ++ n.2
    | none => n.2

/-- No category has an empty name. -/
def NameInv (s : Store) : Prop :=
  ∀ c ∈ s.categories, c.name ≠ ""

/-- A session from the empty store: an account, an expense root with a name of 26
bytes, a child of it with a name of 34 bytes, an expense record under the child. -/
def demo_long_names : List Op :=
  [Op.addAccount Sql.ok "Cash" 0,
   Op.addCategory Sql.ok
     { type_str := some Kind.expense, name := "Household and daily living", yn := "n",
       choice := 0 },
   Op.addCategory Sql.ok
     { type_str := some Kind.expense, name := "Groceries and supermarket shopping", yn := "y",
       choice := 1 },
   Op.addRecord Sql.ok { demo_add_food with cat_choice := 2 }]

/-- The row `add_record` stores for `demo_add` under the child category 2 in the
session `demo_setup`. -/
def demo_child_record : Record :=
  { id := 1, amount := 1000, type := Kind.income, category_id := 2, account_id := 1,
    member_id := 1, remark := none, date := "2025-01-01",
    created_at := "2025-01-01 09:00:00", updated_at := "2025-01-01 09:00:00" }

/-- The menu action is no `edit_category` that, its line left blank, copies an empty
string through the released `old_name`. -/
def Op.storesName : Op → Bool
  | Op.editCategory q _ line => decide (line = "" → q.released_name ≠ some "")
  | _ => true

/-- The session `demo_setup` without its last action, then `edit_category` on the root
1 with the line left blank, what `old_name` points at after `sqlite3_finalize`
starting with a zero byte. -/
def demo_blank_rename : List Op :=
  demo_setup.take 4 ++ [Op.editCategory { Sql.ok with released_name := some "" } 1 ""]

/-! ## CSV field escaping (utils.c 49-83) -/

/-- Number of values of the 64-bit `size_t`, 2^64: arithmetic on sizes is modulo this. -/
def SIZE_RANGE : Nat := 18446744073709551616

/-- Sum of two `size_t` values. -/
def size_add (a b : Nat) : Nat := (a + b) % SIZE_RANGE

/-- Difference of two `size_t` values. -/
def size_sub (a b : Nat) : Nat := (a + SIZE_RANGE - b % SIZE_RANGE) % SIZE_RANGE

/-- The test of line 61: the byte is a double-quote (34), a comma (44), a line feed
(10) or a carriage return (13). -/
def csv_special (b : Nat) : Bool :=
  b = 34 || b = 44 || b = 10 || b = 13

/-- The scan `for (i = 0; i < len && j + 2 < out_size - 1; i++)` of `csv_escape`, run
with `j = 0` on what is left of the input: the value `needs_quotes` ends with. -/
def needs_quotes (out_size : Nat) : List Nat → Bool
  | [] => false
  | b :: rest =>
    if size_add 0 2 < size_sub out_size 1 then
      if csv_special b then true else needs_quotes out_size rest
    else false

/-- The loop `for (i = 0; i < len && j < out_size - 2; i++)` of `csv_escape`, run from
index `j` on what is left of the input: the value `j` ends with and the stores
`output[index] = byte` made, in order. -/
def quote_loop (out_size : Nat) : List Nat → Nat → Nat × List (Nat × Nat)
  | [], j => (j, [])
  | b :: rest, j =>
    if j < size_sub out_size 2 then
      if b = 34 then
        if size_add j 2 ≥ out_size then (j, [])
        else
          let r := quote_loop out_size rest (size_add (size_add j 1) 1)
          (r.1, (j, 34) :: (size_add j 1, 34) :: r.2)
      else
        let r := quote_loop out_size rest (size_add j 1)
        (r.1, (j, b) :: r.2)
    else (j, [])

/-- Bytes `strncpy(dst, src, n)` stores at `dst[0] … dst[n-1]`: the first `n` bytes of
`src`, and zero bytes up to `n` when `src` is shorter. -/
def strncpy_bytes (src : List Nat) (n : Nat) : List Nat :=
  src.take n ++ List.replicate (n - src.length) 0

/-- Embedding of `csv_escape`: the stores `output[index] = byte` it makes, in order.
The input is `none` for `NULL`, else the bytes of the string before its terminator. -/
def csv_escape (input : Option (List Nat)) (out_size : Nat) : List (Nat × Nat) :=
  match input with
  | none => [(0, 0)]
  | some [] => [(0, 0)]
  | some (b :: rest) =>
    if needs_quotes out_size (b :: rest) then
      let r := quote_loop out_size (b :: rest) 1
      (0, 34) :: r.2 ++ (if r.1 < size_sub out_size 1 then [(r.1, 34)] else [])
    else
      (strncpy_bytes (b :: rest) (size_sub out_size 1)).enum ++ [(size_sub out_size 1, 0)]

/-- The output buffer after the stores `w`, from the content `buf` it had before. -/
def poke (buf : List Nat) (w : List (Nat × Nat)) : List Nat :=
  w.foldl (fun b iv => b.set iv.1 iv.2) buf

/-- The buffer read as a C string: the bytes before the first zero byte, `none` when
the buffer holds no zero byte and the read runs past its end. -/
def c_string (buf : List Nat) : Option (List Nat) :=
  if 0 ∈ buf then some (buf.takeWhile fun b => b ≠ 0) else none

/-- The input with every double-quote doubled. -/
def doubled (input : List Nat) : List Nat :=
  input.flatMap fun b => if b = 34 then [34, 34] else [b]

/-- Reference definition of CSV field quoting: the input unchanged when it contains
none of the characters double-quote, comma, line feed, carriage return; otherwise a
double-quote, the input with every double-quote doubled, and a closing double-quote. -/
def csv_field (input : List Nat) : List Nat :=
  if input.any csv_special then [34] ++ doubled input ++ [34] else input

/-- Size of the buffer `escaped` of `export_to_csv` (finance.c 882-883). -/
def CSV_ESCAPE_BUF_SIZE : Nat := 1024

/-- The buffer `escaped` of `export_to_csv` after one more call
`csv_escape(field, escaped, sizeof(escaped))` (finance.c 900-912). -/
def escaped_after (buf : List Nat) (field : Option (List Nat)) : List Nat :=
  poke buf (csv_escape field CSV_ESCAPE_BUF_SIZE)

/-! ## Date validation (finance.c 93-112) -/

/-- The test `isspace` of the C locale: space, and the bytes 9 to 13. -/
def isspace (b : Nat) : Bool :=
  b = 32 || (9 ≤ b && b ≤ 13)

/-- The test `isdigit`: the bytes `0` (48) to `9` (57). -/
def isdigit (b : Nat) : Bool :=
  48 ≤ b && b ≤ 57

/-- The decimal digits at the head of the input, read into `acc`, and the input left. -/
def scan_digits : List Nat → Nat → Nat × List Nat
  | [], acc => (acc, [])
  | b :: rest, acc =>
    if isdigit b then scan_digits rest (acc * 10 + (b - 48)) else (acc, b :: rest)

/-- The conversion `%d` of `sscanf`: white space is skipped, then an optional sign
(`-` is 45, `+` is 43) and at least one decimal digit are read; the result is the
value and the input left, `none` when no number is there. The strings converted
have ten bytes, so the value fits an `int`. -/
def scan_int (s : List Nat) : Option (Int × List Nat) :=
  match s.dropWhile isspace with
  | [] => none
  | b :: rest =>
    if b = 45 then
      match rest with
      | [] => none
      | d :: _ =>
        if isdigit d then some (-((scan_digits rest 0).1 : Int), (scan_digits rest 0).2)
        else none
    else if b = 43 then
      match rest with
      | [] => none
      | d :: _ =>
        if isdigit d then some (((scan_digits rest 0).1 : Int), (scan_digits rest 0).2)
        else none
    else if isdigit b then
      some (((scan_digits (b :: rest) 0).1 : Int), (scan_digits (b :: rest) 0).2)
    else none

/-- The literal `-` of the format: it has to be the next byte of the input. -/
def scan_dash (s : List Nat) : Option (List Nat) :=
  match s with
  | [] => none
  | b :: rest => if b = 45 then some rest else none

/-- The call `sscanf(date_str, "%d-%d-%d", &year, &month, &day)`: the three values
when it returns 3, `none` when it returns less. -/
def sscanf_date (s : List Nat) : Option (Int × Int × Int) :=
  match scan_int s with
  | none => none
  | some (year, r1) =>
    match scan_dash r1 with
    | none => none
    | some r2 =>
      match scan_int r2 with
      | none => none
      | some (month, r3) =>
        match scan_dash r3 with
        | none => none
        | some r4 =>
          match scan_int r4 with
          | none => none
          | some (day, _) => some (year, month, day)

/-- The array `days_in_month` of `is_valid_date`. -/
def days_in_month (year : Int) : List Int :=
  [31, 28 + (if (year % 4 = 0 ∧ year % 100 ≠ 0) ∨ year % 400 = 0 then 1 else 0),
   31, 30, 31, 30, 31, 31, 30, 31, 30, 31]

/-- The range tests of `is_valid_date` (finance.c 104-111) on the three values read. -/
def date_in_range (year month day : Int) : Bool :=
  if year < 1900 ∨ year > 2100 then false
  else if month < 1 ∨ month > 12 then false
  else if day < 1 ∨ day > 31 then false
  else decide (day ≤ (days_in_month year).getD (month - 1).toNat 0)

/-- Embedding of `is_valid_date` on the bytes of `date_str` before its terminator. -/
def is_valid_date (date_str : List Nat) : Bool :=
  if date_str.length ≠ 10 ∨ date_str.getD 4 0 ≠ 45 ∨ date_str.getD 7 0 ≠ 45 then false
  else
    match sscanf_date date_str with
    | none => false
    | some (year, month, day) => date_in_range year month day

/-- Reference definition of the format `YYYY-MM-DD`: four decimal digits, `-`, two
decimal digits, `-`, two decimal digits, and nothing else. -/
def well_formed_date (s : List Nat) : Bool :=
  s.length = 10 && ((List.range 10).all fun i =>
    if i = 4 ∨ i = 7 then s.getD i 0 = 45 else isdigit (s.getD i 0))

/-- Leap years of the Gregorian calendar. -/
def leap_year (y : Nat) : Bool :=
  (y % 4 = 0 && y % 100 ≠ 0) || y % 400 = 0

/-- Number of days of month `m` in year `y`. -/
def month_days (y m : Nat) : Nat :=
  if m = 2 then (if leap_year y then 29 else 28)
  else if m = 4 ∨ m = 6 ∨ m = 9 ∨ m = 11 then 30
  else 31

/-- Reference definition of the dates accepted: dates of the Gregorian calendar with a
year between 1900 and 2100. -/
def calendar_date (y m d : Nat) : Prop :=
  1900 ≤ y ∧ y ≤ 2100 ∧ 1 ≤ m ∧ m ≤ 12 ∧ 1 ≤ d ∧ d ≤ month_days y m

instance (y m d : Nat) : Decidable (calendar_date y m d) :=
  inferInstanceAs (Decidable (1900 ≤ y ∧ y ≤ 2100 ∧ 1 ≤ m ∧ m ≤ 12 ∧ 1 ≤ d ∧ d ≤ month_days y m))

/-- Value of a string of decimal digits. -/
def decimal (digits : List Nat) : Nat :=
  digits.foldl (fun acc b => acc * 10 + (b - 48)) 0

/-! ## Login at startup (auth.c 80-187) -/

/-- Table `admin`: its one possible row (`CHECK (id = 1)`), as `(password_hash, salt)`. -/
structure AuthDb where
  admin : Option (String × String)
deriving DecidableEq, Repr

/-- What happens around one call of `login_at_startup`: which SQLite calls complete,
and the salt `generate_salt` draws. -/
structure AuthEnv where
  /-- `sqlite3_open` returns `SQLITE_OK`. -/
  open_ok : Bool
  /-- `SELECT COUNT(*) FROM admin` of `is_first_run` prepares and steps to a row. -/
  count_ok : Bool
  /-- The `INSERT INTO admin` of `setup_initial_password` prepares. -/
  insert_prepare_ok : Bool
  /-- The `INSERT INTO admin` steps to `SQLITE_DONE`, the key 1 being free. -/
  insert_step_ok : Bool
  /-- `SELECT password_hash, salt FROM admin WHERE id = 1` of `authenticate_user` prepares. -/
  select_ok : Bool
  /-- The salt drawn by `generate_salt`. -/
  salt : String
deriving DecidableEq, Repr

/-- Every SQLite call completes. -/
def AuthEnv.ok (salt : String) : AuthEnv :=
  { open_ok := true, count_ok := true, insert_prepare_ok := true, insert_step_ok := true,
    select_ok := true, salt := salt }

/-- Embedding of `is_first_run`: a query that does not prepare counts as a first run,
and so does a count of 0. -/
def is_first_run (env : AuthEnv) (db : AuthDb) : Bool :=
  if env.count_ok = false then true else db.admin.isNone

/-- Embedding of `setup_initial_password`: the table after the call. `pwd` is what
`getpass` returns (`none` for `NULL`); `hash_password` is a parameter, `sha256` not
being part of the sources at hand. -/
def setup_initial_password (hash_password : String → String → String) (env : AuthEnv)
    (db : AuthDb) (pwd : Option String) : AuthDb :=
  match pwd with
  | none => db
  | some p =>
    if p = "" then db
    else if env.insert_prepare_ok = false then db
    else if env.insert_step_ok = false ∨ db.admin.isSome then db
    else { admin := some (hash_password p env.salt, env.salt) }

/-- Embedding of `authenticate_user`. -/
def authenticate_user (hash_password : String → String → String) (env : AuthEnv)
    (db : AuthDb) (input_pwd : Option String) : Bool :=
  match input_pwd with
  | none => false
  | some p =>
    if env.select_ok = false then false
    else
      match db.admin with
      | none => false
      | some (stored_hash, salt) => stored_hash = hash_password p salt

/-- The loop `while (attempts-- > 0)` of `login_at_startup`, with `attempts` tries left
and the answers `getpass` gives from now on: 1 when one of them authenticates. -/
def login_attempts (hash_password : String → String → String) (env : AuthEnv) (db : AuthDb) :
    Nat → List (Option String) → Int
  | 0, _ => 0
  | n + 1, pwds =>
    if authenticate_user hash_password env db (pwds.head?.getD none) then 1
    else login_attempts hash_password env db n pwds.tail

/-- Embedding of `login_at_startup`: the value returned and the table after the call.
`pwds` are the answers of `getpass`, in order (`none` where it returns `NULL`). -/
def login_at_startup (hash_password : String → String → String) (env : AuthEnv) (db : AuthDb)
    (pwds : List (Option String)) : Int × AuthDb :=
  if env.open_ok = false then (0, db)
  else if is_first_run env db then
    (1, setup_initial_password hash_password env db (pwds.head?.getD none))
  else (login_attempts hash_password env db 3 pwds, db)

/-- One of the first `n` answers authenticates. -/
def verified_within (hash_password : String → String → String) (env : AuthEnv) (db : AuthDb)
    (n : Nat) (pwds : List (Option String)) : Prop :=
  ∃ p ∈ pwds.take n, authenticate_user hash_password env db p = true
/-! ## Paging of the record list (finance.c 742-815) -/

/-- The constant `PAGE_SIZE` of `list_records`. -/
def PAGE_SIZE : Int := 8

/-- Value of an `int` expression whose exact value is `x`: 32 bits, two's complement,
an overflowing result wrapping around. -/
def wrap_int (x : Int) : Int :=
  (x + 2147483648) % 4294967296 - 2147483648

/-- The page count `(total_records + PAGE_SIZE - 1) / PAGE_SIZE` printed after `/`. -/
def total_pages (total_records : Int) : Int :=
  (wrap_int (wrap_int (total_records + PAGE_SIZE) - 1)).tdiv PAGE_SIZE

/-- The value bound to `OFFSET`: `current_page * PAGE_SIZE`. -/
def page_offset (current_page : Int) : Int :=
  wrap_int (current_page * PAGE_SIZE)

/-- The part of the loop of `list_records` after a page is shown: `input` is the line
`fgets` reads (`none` for `NULL`), the result is the page of the next pass, `none`
when the loop ends. `strcasecmp` compares without regard to case. -/
def page_step (total_records current_page : Int) (input : Option String) : Option Int :=
  match input with
  | none => none
  | some line =>
    if line = "Q" ∨ line = "q" then none
    else if line = "N" ∨ line = "n" then
      if wrap_int (wrap_int (current_page + 1) * PAGE_SIZE) < total_records then
        some (wrap_int (current_page + 1))
      else some current_page
    else if line = "P" ∨ line = "p" then
      if current_page > 0 then some (wrap_int (current_page - 1)) else some current_page
    else some current_page

/-- The values `current_page` has at the successive passes of the loop, from the
page `current_page` on, for the lines typed. -/
def pages_shown (total_records : Int) : Int → List (Option String) → List Int
  | current_page, [] => [current_page]
  | current_page, input :: rest =>
    match page_step total_records current_page input with
    | none => [current_page]
    | some next => current_page :: pages_shown total_records next rest

/-- Embedding of `list_records`: the pages shown, none when the table is empty. -/
def list_records (total_records : Int) (inputs : List (Option String)) : List Int :=
  if total_records = 0 then [] else pages_shown total_records 0 inputs

/-! ## REAL arithmetic in doubles

SQLite keeps a `REAL` column as an IEEE 754 double and adds in doubles; `strtod` and
`atof` return the double nearest to the number typed. The operations above take
amounts as exact numbers; the definitions below are the same code with every sum of
a balance update rounded to the nearest double. -/

/-- Number of binary digits of `n` (0 for 0); the recursion is bounded by `fuel`. -/
def bit_length : Nat → Nat → Nat
  | 0, _ => 0
  | fuel + 1, n => if n = 0 then 0 else bit_length fuel (n / 2) + 1

/-- The power `2 ^ k` for an integer exponent. -/
def pow2 (k : Int) : ℚ :=
  if 0 ≤ k then ((2 ^ k.toNat : Nat) : ℚ) else 1 / ((2 ^ (-k).toNat : Nat) : ℚ)

/-- The integer nearest to a non-negative rational, the even one of the two when it
is half-way between them. -/
def round_half_even (x : ℚ) : Int :=
  let f : Int := x.num / (x.den : Int)
  let r : ℚ := x - (f : ℚ)
  if r < 1 / 2 then f
  else if 1 / 2 < r then f + 1
  else if f % 2 = 0 then f else f + 1

/-- The IEEE 754 binary64 value nearest to `x` (round to nearest, ties to even; 53
significant bits, exponents from -1022, subnormal numbers below): the value a
`double` or a `REAL` column holds for `x`. Beyond `DBL_MAX` a C double is infinite;
the model has no infinite value, and the statements on doubles keep to sums within
`DBL_MAX`. -/
def to_double (x : ℚ) : ℚ :=
  if x = 0 then 0
  else
    let a : ℚ := |x|
    let e0 : Int := (bit_length a.num.natAbs a.num.natAbs : Int) - (bit_length a.den a.den : Int)
    let e : Int := if a < pow2 e0 then e0 - 1 else e0
    let ulp : ℚ := pow2 (max e (-1022) - 52)
    let m : ℚ := (round_half_even (a / ulp) : ℚ) * ulp
    if x < 0 then -m else m

/-- The largest finite double, `(2 - 2^-52) * 2^1023`. -/
def DBL_MAX : ℚ := ((2 ^ 1024 - 2 ^ 971 : Nat) : ℚ)

/-- The number is a finite double: it is within `DBL_MAX` and rounding leaves it as
it is. -/
def is_double (x : ℚ) : Bool :=
  decide (|x| ≤ DBL_MAX) && decide (to_double x = x)

/-- Embedding of `apply_balance_delta` (finance.c 186-200) with the addition as SQLite
makes it: `UPDATE accounts SET balance = balance + ? WHERE id = ?` on the `REAL`
column `balance`, the sum rounded to the nearest double. -/
def apply_balance_delta_double (step_ok : Bool) (s : Store) (account_id : Int) (delta : ℚ) :
    Store × Bool :=
  if account_id ≤ 0 then (s, false)
  else if step_ok = false then (s, false)
  else
    ({ s with accounts := s.accounts.map fun a =>
        if a.id = account_id then { a with balance := to_double (a.balance + delta) } else a },
     true)

/-- The code of `add_record` over a balance primitive `apply`; `add_record` is its
instance at `apply_balance_delta`. -/
def add_record_with (apply : Bool → Store → Int → ℚ → Store × Bool) (q : Sql) (s : Store)
    (inp : AddInput) : Result :=
  let category_id := select_category s inp.type_str inp.cat_choice
  if category_id = -1 then Result.untouched s [Msg.category_select_failed]
  else
    let account_id := select_account s inp.acc_choice
    if account_id = -1 then Result.untouched s [Msg.account_select_failed]
    else if ¬ amount_accepted inp.amount_rest inp.amount then
      Result.untouched s [Msg.amount_rejected]
    else if q.row_ok = false then Result.untouched s [Msg.insert_failed]
    else
      let row := added_row s inp
      let s1 := { s with records := s.records ++ [row], seq_records := row.id }
      let delta := if inp.type_str = Kind.income then inp.amount else -inp.amount
      let r := apply q.delta1_ok s1 account_id delta
      { store := r.1, committed := true, balance_ok := r.2,
        msgs := (if r.2 then [] else [Msg.balance_warning]) ++ [Msg.add_success] }

/-- The code of `edit_record` over a balance primitive `apply`; `edit_record` is its
instance at `apply_balance_delta`. -/
def edit_record_with (apply : Bool → Store → Int → ℚ → Store × Bool) (q : Sql) (s : Store)
    (inp : EditInput) : Result :=
  if inp.id = 0 then Result.untouched s [Msg.cancelled]
  else
    match find_record s inp.id with
    | none => Result.untouched s [Msg.not_found]
    | some orig =>
      let n := edited_row s inp orig
      if q.row_ok = false then Result.untouched s [Msg.update_failed]
      else
        let s1 := { s with records := s.records.map fun r =>
          if r.id = inp.id then overwrite n r else r }
        let old_delta := if orig.type = Kind.income then -orig.amount else orig.amount
        let r1 := apply q.delta1_ok s1 orig.account_id old_delta
        let new_delta := if n.type = Kind.income then n.amount else -n.amount
        let r2 := apply q.delta2_ok r1.1 n.account_id new_delta
        { store := r2.1, committed := true, balance_ok := r1.2 && r2.2,
          msgs := (if r1.2 then [] else [Msg.undo_old_warning]) ++
                  (if r2.2 then [] else [Msg.apply_new_warning]) ++
                  [if r1.2 && r2.2 then Msg.edit_synced else Msg.edit_inconsistent] }

/-- The code of `delete_record` over a balance primitive `apply`; `delete_record` is
its instance at `apply_balance_delta`. -/
def delete_record_with (apply : Bool → Store → Int → ℚ → Store × Bool) (q : Sql) (s : Store)
    (id : Int) (confirm : String) : Result :=
  if id = 0 then Result.untouched s [Msg.cancelled]
  else
    match find_record s id with
    | none => Result.untouched s [Msg.not_found]
    | some row =>
      if confirmed confirm = false then Result.untouched s [Msg.cancelled]
      else if row.account_id ≤ 0 then Result.untouched s [Msg.details_unavailable]
      else
        let delta := if row.type = Kind.income then -row.amount else row.amount
        let r := apply q.delta1_ok s row.account_id delta
        if q.row_ok = false then
          { store := s, committed := false, balance_ok := r.2,
            msgs := (if r.2 then [] else [Msg.balance_warning]) ++ [Msg.delete_failed] }
        else
          { store := { r.1 with records := r.1.records.filter fun x => x.id ≠ id },
            committed := true, balance_ok := r.2,
            msgs := (if r.2 then [] else [Msg.balance_warning]) ++ [Msg.delete_success] }

/-- Embedding of `add_record` with the balance update in doubles. -/
def add_record_double (q : Sql) (s : Store) (inp : AddInput) : Result :=
  add_record_with apply_balance_delta_double q s inp

/-- Embedding of `edit_record` with the balance updates in doubles. -/
def edit_record_double (q : Sql) (s : Store) (inp : EditInput) : Result :=
  edit_record_with apply_balance_delta_double q s inp

/-- Embedding of `delete_record` with the balance update in doubles. -/
def delete_record_double (q : Sql) (s : Store) (id : Int) (confirm : String) : Result :=
  delete_record_with apply_balance_delta_double q s id confirm

/-- The ledger `demo` with the balance 0.1 on the first account, as `atof` reads it. -/
def demo_tenth : Store :=
  { demo with accounts := [{ id := 1, name := "Cash", balance := to_double (1 / 10) },
                           { id := 2, name := "Bank", balance := 0 }] }

/-- An income record of 0.2, as `strtod` reads it, on the first account. -/
def demo_add_fifth : AddInput :=
  { demo_add with amount := to_double (1 / 5) }

/-- A ledger with 0.7 on the first account, 0.1 on the second, and one income record
of 0.2 on the first. -/
def demo_move : Store :=
  { demo with
    accounts := [{ id := 1, name := "Cash", balance := to_double (7 / 10) },
                 { id := 2, name := "Bank", balance := to_double (1 / 10) }],
    records := [{ id := 1, amount := to_double (1 / 5), type := Kind.income, category_id := 1,
                  account_id := 1, member_id := 1, remark := none, date := "2025-01-01",
                  created_at := "2025-01-01 09:00:00", updated_at := "2025-01-01 09:00:00" }],
    seq_records := 1 }

/-- A ledger with 0.7 on the first account and one income record of 0.1 on it. -/
def demo_small : Store :=
  { demo with
    accounts := [{ id := 1, name := "Cash", balance := to_double (7 / 10) },
                 { id := 2, name := "Bank", balance := 0 }],
    records := [{ id := 1, amount := to_double (1 / 10), type := Kind.income, category_id := 1,
                  account_id := 1, member_id := 1, remark := none, date := "2025-01-01",
                  created_at := "2025-01-01 09:00:00", updated_at := "2025-01-01 09:00:00" }],
    seq_records := 1 }

/-- Edit of record 1 that only enters the new amount 0.3, as `strtod` reads it. -/
def demo_edit_small : EditInput :=
  { demo_edit_amount with amount := some (to_double (3 / 10)) }

/-- The ledger `demo` with the balance 10^16 on the first account. -/
def demo_large : Store :=
  { demo with accounts := [{ id := 1, name := "Cash", balance := 10000000000000000 },
                           { id := 2, name := "Bank", balance := 0 }] }

/-- The ledger `demo` after `add_record` of `demo_add`, the balance update in doubles. -/
def demo_ledger_double : Store :=
  (add_record_double Sql.ok demo demo_add).store

/-- The ledger `demo_ledger_double` after the amount of record 1 is edited to 800. -/
def demo_edited_double : Store :=
  (edit_record_double Sql.ok demo_ledger_double demo_edit_amount).store

/-- The ledger `demo_edited_double` after record 1 is deleted. -/
def demo_deleted_double : Store :=
  (delete_record_double Sql.ok demo_edited_double 1 "y").store

/-! # Properties -/

/-! ## Lemmas on the balance primitive -/

theorem bump_id (account_id : Int) (delta : ℚ) (a : Account) :
    (bump account_id delta a).id = a.id := by
  unfold bump; split <;> rfl

theorem bump_name (account_id : Int) (delta : ℚ) (a : Account) :
    (bump account_id delta a).name = a.name := by
  unfold bump; split <;> rfl

theorem apply_balance_delta_store (ok : Bool) (s : Store) (account_id : Int) (delta : ℚ) :
    (apply_balance_delta ok s account_id delta).1 =
      if 0 < account_id ∧ ok = true then
        { s with accounts := s.accounts.map (bump account_id delta) }
      else s := by
  unfold apply_balance_delta
  by_cases h : account_id ≤ 0
  · have h2 : ¬ 0 < account_id := not_lt.mpr h
    simp [h, h2]
  · have h2 : 0 < account_id := not_le.mp h
    cases ok <;> simp [h, h2, bump]

theorem apply_balance_delta_flag (ok : Bool) (s : Store) (account_id : Int) (delta : ℚ) :
    (apply_balance_delta ok s account_id delta).2 = (decide (0 < account_id) && ok) := by
  unfold apply_balance_delta
  by_cases h : account_id ≤ 0
  · have h2 : ¬ 0 < account_id := not_lt.mpr h
    simp [h, h2]
  · have h2 : 0 < account_id := not_le.mp h
    cases ok <;> simp [h, h2]

theorem find_bump (account_id : Int) (delta : ℚ) (id : Int) (l : List Account) :
    (l.map (bump account_id delta)).find? (fun a => a.id = id) =
      (l.find? fun a => a.id = id).map (bump account_id delta) := by
  induction l with
  | nil => rfl
  | cons a l ih =>
    simp only [List.map_cons, List.find?_cons, bump_id]
    by_cases h : a.id = id
    · simp [h]
    · simp [h, ih]

/-- With amounts as exact numbers: on an existing account with a positive id, when
its `UPDATE` completes, `apply_balance_delta` reports success, sets that account's
balance to the old balance plus `delta`, and leaves every other balance, all account
ids and names, and the records, categories and members as they were. -/
theorem apply_balance_delta_spec (s : Store) (account_id : Int) (delta b : ℚ)
    (hpos : 0 < account_id) (hex : balance_of s account_id = some b) :
    (apply_balance_delta true s account_id delta).2 = true ∧
    balance_of (apply_balance_delta true s account_id delta).1 account_id = some (b + delta) ∧
    (∀ id, id ≠ account_id →
      balance_of (apply_balance_delta true s account_id delta).1 id = balance_of s id) ∧
    ((apply_balance_delta true s account_id delta).1.accounts.map fun a => (a.id, a.name)) =
      (s.accounts.map fun a => (a.id, a.name)) ∧
    (apply_balance_delta true s account_id delta).1.records = s.records ∧
    (apply_balance_delta true s account_id delta).1.categories = s.categories ∧
    (apply_balance_delta true s account_id delta).1.members = s.members := by
  have hs := apply_balance_delta_store true s account_id delta
  have hf := apply_balance_delta_flag true s account_id delta
  simp only [hpos, and_self, if_true] at hs
  rw [hs]
  refine ⟨by simp [hf, hpos], ?_, ?_, ?_, rfl, rfl, rfl⟩
  · unfold balance_of at hex ⊢
    simp only [find_bump]
    cases hfind : s.accounts.find? (fun a => a.id = account_id) with
    | none => simp [hfind] at hex
    | some a =>
      have hid : a.id = account_id := by
        have := List.find?_some hfind
        simpa using this
      simp only [hfind, Option.map_some', Option.some.injEq] at hex
      simp [bump, hid, hex]
  · intro id hne
    unfold balance_of
    simp only [find_bump]
    cases hfind : s.accounts.find? (fun a => a.id = id) with
    | none => rfl
    | some a =>
      have hid : a.id = id := by
        have := List.find?_some hfind
        simpa using this
      have : a.id ≠ account_id := by rw [hid]; exact hne
      simp [bump, this]
  · simp only [List.map_map]
    apply List.map_congr_left
    intro a _
    simp [bump_id, bump_name]

theorem apply_balance_delta_spec_witness :
    (apply_balance_delta true demo 1 1000).2 = true ∧
    balance_of (apply_balance_delta true demo 1 1000).1 1 = some (0 + 1000) ∧
    (∀ id, id ≠ 1 →
      balance_of (apply_balance_delta true demo 1 1000).1 id = balance_of demo id) ∧
    ((apply_balance_delta true demo 1 1000).1.accounts.map fun a => (a.id, a.name)) =
      (demo.accounts.map fun a => (a.id, a.name)) ∧
    (apply_balance_delta true demo 1 1000).1.records = demo.records ∧
    (apply_balance_delta true demo 1 1000).1.categories = demo.categories ∧
    (apply_balance_delta true demo 1 1000).1.members = demo.members :=
  apply_balance_delta_spec demo 1 1000 0 (by decide) (by decide)

/-! ## Signed sums over the records table -/

theorem record_sum_eq (s : Store) (id : Int) : record_sum s id = sum_for s.records id := rfl

theorem sum_for_nil (id : Int) : sum_for [] id = 0 := rfl

theorem sum_for_cons (r : Record) (rs : List Record) (id : Int) :
    sum_for (r :: rs) id = contrib r id + sum_for rs id := by
  unfold sum_for contrib
  by_cases h : r.account_id = id <;> simp [List.filter_cons, h]

theorem sum_for_append (rs ts : List Record) (id : Int) :
    sum_for (rs ++ ts) id = sum_for rs id + sum_for ts id := by
  induction rs with
  | nil => simp [sum_for_nil]
  | cons r rs ih => simp [sum_for_cons, ih, add_assoc]

theorem map_update_absent (rs : List Record) (rid : Int) (f : Record → Record)
    (h : ∀ r ∈ rs, r.id ≠ rid) :
    rs.map (fun r => if r.id = rid then f r else r) = rs := by
  induction rs with
  | nil => rfl
  | cons r rs ih =>
    have h1 : r.id ≠ rid := h r (List.mem_cons_self _ _)
    have h2 : ∀ x ∈ rs, x.id ≠ rid := fun x hx => h x (List.mem_cons_of_mem _ hx)
    simp [h1, ih h2]

theorem filter_absent (rs : List Record) (rid : Int) (h : ∀ r ∈ rs, r.id ≠ rid) :
    rs.filter (fun r => r.id ≠ rid) = rs := by
  apply List.filter_eq_self.mpr
  intro r hr
  simpa using h r hr

theorem sum_for_update (rs : List Record) (rid : Int) (f : Record → Record) (orig : Record)
    (acc : Int) (hnd : (rs.map fun r => r.id).Nodup)
    (hfind : rs.find? (fun r => r.id = rid) = some orig) :
    sum_for (rs.map fun r => if r.id = rid then f r else r) acc =
      sum_for rs acc - contrib orig acc + contrib (f orig) acc := by
  induction rs with
  | nil => simp at hfind
  | cons r rs ih =>
    simp only [List.map_cons, List.nodup_cons, List.mem_map, not_exists, not_and] at hnd
    by_cases h : r.id = rid
    · have ho : r = orig := by simpa [List.find?_cons, h] using hfind
      have habs : ∀ x ∈ rs, x.id ≠ rid := fun x hx hxr => hnd.1 x hx (hxr.trans h.symm)
      simp only [List.map_cons, h, if_true, sum_for_cons, map_update_absent rs rid f habs]
      rw [ho]; ring
    · have hf : rs.find? (fun r => r.id = rid) = some orig := by
        simpa [List.find?_cons, h] using hfind
      simp only [List.map_cons, h, if_false, sum_for_cons, ih hnd.2 hf]
      ring

theorem sum_for_delete (rs : List Record) (rid : Int) (orig : Record)
    (acc : Int) (hnd : (rs.map fun r => r.id).Nodup)
    (hfind : rs.find? (fun r => r.id = rid) = some orig) :
    sum_for (rs.filter fun r => r.id ≠ rid) acc = sum_for rs acc - contrib orig acc := by
  induction rs with
  | nil => simp at hfind
  | cons r rs ih =>
    simp only [List.map_cons, List.nodup_cons, List.mem_map, not_exists, not_and] at hnd
    by_cases h : r.id = rid
    · have ho : r = orig := by simpa [List.find?_cons, h] using hfind
      have habs : ∀ x ∈ rs, x.id ≠ rid := fun x hx hxr => hnd.1 x hx (hxr.trans h.symm)
      simp only [List.filter_cons, h, ne_eq, not_true_eq_false, decide_False, sum_for_cons,
        filter_absent rs rid habs]
      rw [ho]; simp
    · have hf : rs.find? (fun r => r.id = rid) = some orig := by
        simpa [List.find?_cons, h] using hfind
      simp only [List.filter_cons, h, ne_eq, not_false_eq_true, decide_True, if_true,
        sum_for_cons, ih hnd.2 hf]
      ring

theorem bump_balance (account_id : Int) (delta : ℚ) (a : Account) :
    (bump account_id delta a).balance = a.balance + if a.id = account_id then delta else 0 := by
  unfold bump; split <;> simp

theorem next_rowid_gt (seq : Int) (ids : List Int) : ∀ i ∈ ids, i < next_rowid seq ids := by
  unfold next_rowid
  have key : ∀ (l : List Int) (m : Int), m ≤ l.foldl max m ∧ ∀ i ∈ l, i ≤ l.foldl max m := by
    intro l
    induction l with
    | nil => intro m; simp
    | cons x l ih =>
      intro m
      simp only [List.foldl_cons, List.mem_cons, forall_eq_or_imp]
      have h1 := ih (max m x)
      exact ⟨le_trans (le_max_left _ _) h1.1, le_trans (le_max_right _ _) h1.1, h1.2⟩
  intro i hi
  have := (key ids (max seq 0)).2 i hi
  omega

theorem next_rowid_pos (seq : Int) (ids : List Int) : 0 < next_rowid seq ids := by
  unfold next_rowid
  have key : ∀ (l : List Int) (m : Int), m ≤ l.foldl max m := by
    intro l
    induction l with
    | nil => intro m; simp
    | cons x l ih =>
      intro m
      exact le_trans (le_max_left _ _) (ih (max m x))
  have h1 := key ids (max seq 0)
  have h2 : (0 : Int) ≤ max seq 0 := le_max_right _ _
  omega

/-! ## Shape of the record operations -/

theorem old_delta_eq (t : Kind) (a : ℚ) :
    (if t = Kind.income then -a else a) = -signed t a := by
  unfold signed; split <;> simp

theorem add_record_eq (q : Sql) (s : Store) (inp : AddInput) :
    add_record q s inp =
      if select_category s inp.type_str inp.cat_choice = -1 then
        Result.untouched s [Msg.category_select_failed]
      else if select_account s inp.acc_choice = -1 then
        Result.untouched s [Msg.account_select_failed]
      else if ¬ amount_accepted inp.amount_rest inp.amount then
        Result.untouched s [Msg.amount_rejected]
      else if q.row_ok = false then Result.untouched s [Msg.insert_failed]
      else
        { store := (apply_balance_delta q.delta1_ok
            { s with records := s.records ++ [added_row s inp],
                     seq_records := (added_row s inp).id }
            (added_row s inp).account_id (signed inp.type_str inp.amount)).1,
          committed := true,
          balance_ok := (apply_balance_delta q.delta1_ok
            { s with records := s.records ++ [added_row s inp],
                     seq_records := (added_row s inp).id }
            (added_row s inp).account_id (signed inp.type_str inp.amount)).2,
          msgs := (if (apply_balance_delta q.delta1_ok
            { s with records := s.records ++ [added_row s inp],
                     seq_records := (added_row s inp).id }
            (added_row s inp).account_id (signed inp.type_str inp.amount)).2
            then [] else [Msg.balance_warning]) ++ [Msg.add_success] } := rfl

/-- Store the `INSERT` of `add_record` leaves, before the balance is touched. -/
theorem add_record_cases (q : Sql) (s : Store) (inp : AddInput) :
    ((add_record q s inp).committed = false ∧ (add_record q s inp).store = s) ∨
    ((add_record q s inp).committed = true ∧
      select_category s inp.type_str inp.cat_choice ≠ -1 ∧
      select_account s inp.acc_choice ≠ -1 ∧ 0 < inp.amount ∧ q.row_ok = true ∧
      (add_record q s inp).store =
        (apply_balance_delta q.delta1_ok
          { s with records := s.records ++ [added_row s inp],
                   seq_records := (added_row s inp).id }
          (added_row s inp).account_id (signed inp.type_str inp.amount)).1 ∧
      (add_record q s inp).balance_ok =
        (apply_balance_delta q.delta1_ok
          { s with records := s.records ++ [added_row s inp],
                   seq_records := (added_row s inp).id }
          (added_row s inp).account_id (signed inp.type_str inp.amount)).2) := by
  rw [add_record_eq]
  by_cases h1 : select_category s inp.type_str inp.cat_choice = -1
  · left; simp [h1, Result.untouched]
  by_cases h2 : select_account s inp.acc_choice = -1
  · left; simp [h1, h2, Result.untouched]
  by_cases h3 : amount_accepted inp.amount_rest inp.amount
  · by_cases h4 : q.row_ok = false
    · left; simp [h1, h2, h3, h4, Result.untouched]
    · right
      have h5 : q.row_ok = true := by simpa using h4
      have h6 : 0 < inp.amount := h3.2
      simp only [h1, h2, h3, h5, h6, not_true_eq_false, if_false, ne_eq, not_false_eq_true,
        Bool.true_eq_false, and_self]
  · left; simp [h1, h2, h3, Result.untouched]

theorem edit_record_cases (q : Sql) (s : Store) (inp : EditInput) :
    ((edit_record q s inp).committed = false ∧ (edit_record q s inp).store = s) ∨
    (∃ orig, (edit_record q s inp).committed = true ∧ inp.id ≠ 0 ∧
      find_record s inp.id = some orig ∧ q.row_ok = true ∧
      (edit_record q s inp).store = (edit_commit_store q s inp orig).1 ∧
      (edit_record q s inp).balance_ok =
        ((apply_balance_delta q.delta1_ok
          { s with records := s.records.map fun r =>
              if r.id = inp.id then overwrite (edited_row s inp orig) r else r }
          orig.account_id
          (if orig.type = Kind.income then -orig.amount else orig.amount)).2 &&
         (edit_commit_store q s inp orig).2)) := by
  unfold edit_record
  by_cases h0 : inp.id = 0
  · left; simp [h0, Result.untouched]
  cases hf : find_record s inp.id with
  | none => left; simp [h0, Result.untouched]
  | some orig =>
    by_cases h4 : q.row_ok = false
    · left; simp [h0, h4, Result.untouched]
    · right
      have h5 : q.row_ok = true := by simpa using h4
      refine ⟨orig, ?_⟩
      simp only [h0, h5, if_false, Bool.true_eq_false, ne_eq, not_false_eq_true, true_and]
      exact ⟨rfl, rfl⟩

theorem delete_record_cases (q : Sql) (s : Store) (id : Int) (confirm : String) :
    ((delete_record q s id confirm).committed = false ∧
      (delete_record q s id confirm).store = s) ∨
    (∃ row, (delete_record q s id confirm).committed = true ∧ id ≠ 0 ∧
      find_record s id = some row ∧ confirmed confirm = true ∧ 0 < row.account_id ∧
      q.row_ok = true ∧
      (delete_record q s id confirm).store =
        { (apply_balance_delta q.delta1_ok s row.account_id
            (if row.type = Kind.income then -row.amount else row.amount)).1 with
          records := (apply_balance_delta q.delta1_ok s row.account_id
            (if row.type = Kind.income then -row.amount else row.amount)).1.records.filter
              fun x => x.id ≠ id } ∧
      (delete_record q s id confirm).balance_ok =
        (apply_balance_delta q.delta1_ok s row.account_id
            (if row.type = Kind.income then -row.amount else row.amount)).2) := by
  unfold delete_record
  by_cases h0 : id = 0
  · left; simp [h0, Result.untouched]
  cases hf : find_record s id with
  | none => left; simp [h0, Result.untouched]
  | some row =>
    by_cases hc : confirmed confirm = false
    · left; simp [h0, hc, Result.untouched]
    by_cases ha : row.account_id ≤ 0
    · left; simp [h0, hc, ha, Result.untouched]
    by_cases h4 : q.row_ok = false
    · left; simp [h0, hc, ha, h4, Result.untouched]
    · right
      have h5 : q.row_ok = true := by simpa using h4
      have hc2 : confirmed confirm = true := by simpa using hc
      refine ⟨row, ?_⟩
      simp only [h0, hc2, ha, h5, if_false, Bool.true_eq_false, ne_eq, not_false_eq_true,
        true_and]
      exact ⟨not_le.mp ha, trivial⟩

/-! ## The balance invariant under the record operations -/

theorem apply_balance_delta_pos (s : Store) (account_id : Int) (delta : ℚ)
    (hpos : ∀ a ∈ s.accounts, 0 < a.id) :
    (apply_balance_delta true s account_id delta).1 =
      { s with accounts := s.accounts.map (bump account_id delta) } := by
  rw [apply_balance_delta_store]
  by_cases h : 0 < account_id
  · simp [h]
  · have hmap : s.accounts.map (bump account_id delta) = s.accounts.map id := by
      apply List.map_congr_left
      intro a ha
      have := hpos a ha
      have hne : a.id ≠ account_id := by omega
      simp [bump, hne]
    simp [h, hmap]

theorem bump_balance_contrib (r : Record) (delta : ℚ) (a : Account) :
    (bump r.account_id delta a).balance =
      a.balance + if r.account_id = a.id then delta else 0 := by
  rw [bump_balance]
  by_cases h : a.id = r.account_id
  · simp [h]
  · have h2 : ¬ r.account_id = a.id := fun e => h e.symm
    simp [h, h2]

theorem balance_inv_step (s : Store) (recs : List Record) (f : Account → Account)
    (hid : ∀ a, (f a).id = a.id)
    (hbal : ∀ a ∈ s.accounts,
      (f a).balance = a.balance + (sum_for recs a.id - sum_for s.records a.id))
    (hinv : BalanceInv s) (t : Store) (hr : t.records = recs)
    (ha : t.accounts = s.accounts.map f) : BalanceInv t := by
  intro a' ha'
  rw [ha] at ha'
  obtain ⟨a, hmem, rfl⟩ := List.mem_map.mp ha'
  rw [record_sum_eq, hr, hid, hbal a hmem, hinv a hmem, record_sum_eq]
  ring

theorem find_record_mem (s : Store) (id : Int) (r : Record) (h : find_record s id = some r) :
    r ∈ s.records ∧ r.id = id := by
  unfold find_record at h
  exact ⟨List.mem_of_find?_eq_some h, by simpa using List.find?_some h⟩

theorem add_record_ledger (q : Sql) (s : Store) (inp : AddInput) (hq : q.delta1_ok = true)
    (hk : LedgerKeys s) (hinv : BalanceInv s) :
    LedgerKeys (add_record q s inp).store ∧ BalanceInv (add_record q s inp).store := by
  rcases add_record_cases q s inp with ⟨_, h⟩ | ⟨_, _, _, _, _, h, _⟩
  · rw [h]; exact ⟨hk, hinv⟩
  · rw [h, hq, apply_balance_delta_pos
      { s with records := s.records ++ [added_row s inp], seq_records := (added_row s inp).id }
      _ _ hk.2]
    refine ⟨⟨?_, ?_⟩, ?_⟩
    · simp only [List.map_append, List.map_cons, List.map_nil]
      apply List.Nodup.append hk.1 (List.nodup_singleton _)
      intro i hi hi'
      have h1 := next_rowid_gt s.seq_records _ i hi
      have h2 : i = (added_row s inp).id := by simpa using hi'
      simp only [added_row] at h2
      omega
    · intro a ha
      obtain ⟨a0, h0, rfl⟩ := List.mem_map.mp ha
      rw [bump_id]; exact hk.2 a0 h0
    · apply balance_inv_step s (s.records ++ [added_row s inp])
        (bump (added_row s inp).account_id (signed inp.type_str inp.amount))
        (bump_id _ _) _ hinv _ rfl rfl
      intro a _
      rw [bump_balance_contrib, sum_for_append, sum_for_cons, sum_for_nil]
      simp only [contrib]
      by_cases hx : (added_row s inp).account_id = a.id
      · simp only [hx, if_true]; simp [added_row]
      · simp only [hx, if_false]; ring

theorem overwrite_id (n r : Record) : (overwrite n r).id = r.id := rfl

theorem overwrite_edited (s : Store) (inp : EditInput) (orig : Record) :
    overwrite (edited_row s inp orig) orig = edited_row s inp orig := rfl

theorem map_overwrite_eq (rs : List Record) (rid : Int) (n orig : Record)
    (hnd : (rs.map fun r => r.id).Nodup)
    (hfind : rs.find? (fun r => r.id = rid) = some orig) :
    (rs.map fun r => if r.id = rid then overwrite n r else r) =
      rs.map fun r => if r.id = rid then overwrite n orig else r := by
  apply List.map_congr_left
  intro r hr
  by_cases h : r.id = rid
  · have ho : orig ∈ rs := List.mem_of_find?_eq_some hfind
    have hoid : orig.id = rid := by simpa using List.find?_some hfind
    have : r = orig :=
      List.inj_on_of_nodup_map hnd hr ho (h.trans hoid.symm)
    simp [h, this]
  · simp [h]

theorem edit_record_ledger (q : Sql) (s : Store) (inp : EditInput)
    (hq1 : q.delta1_ok = true) (hq2 : q.delta2_ok = true)
    (hk : LedgerKeys s) (hinv : BalanceInv s) :
    LedgerKeys (edit_record q s inp).store ∧ BalanceInv (edit_record q s inp).store := by
  rcases edit_record_cases q s inp with ⟨_, h⟩ | ⟨orig, _, _, hf, _, h, _⟩
  · rw [h]; exact ⟨hk, hinv⟩
  · have hfind : s.records.find? (fun r => r.id = inp.id) = some orig := hf
    rw [h, edit_commit_store, hq1, hq2, apply_balance_delta_pos
      { s with records := s.records.map fun r =>
          if r.id = inp.id then overwrite (edited_row s inp orig) r else r } _ _ hk.2,
      apply_balance_delta_pos]
    · refine ⟨⟨?_, ?_⟩, ?_⟩
      · have : ((s.records.map fun r =>
            if r.id = inp.id then overwrite (edited_row s inp orig) r else r).map
              fun r => r.id) = s.records.map fun r => r.id := by
          rw [List.map_map]
          apply List.map_congr_left
          intro r _
          by_cases hx : r.id = inp.id <;> simp [hx, overwrite_id]
        simpa [this] using hk.1
      · intro a ha
        simp only [List.mem_map] at ha
        obtain ⟨a1, ⟨a0, h0, rfl⟩, rfl⟩ := ha
        rw [bump_id, bump_id]; exact hk.2 a0 h0
      · apply balance_inv_step s
          (s.records.map fun r =>
            if r.id = inp.id then overwrite (edited_row s inp orig) r else r)
          (fun a => bump (edited_row s inp orig).account_id
              (signed (edited_row s inp orig).type (edited_row s inp orig).amount)
            (bump orig.account_id
              (if orig.type = Kind.income then -orig.amount else orig.amount) a))
          (fun a => by simp [bump_id]) _ hinv _ rfl (by simp [List.map_map])
        intro a _
        rw [map_overwrite_eq _ _ _ orig hk.1 hfind,
          sum_for_update s.records inp.id (fun _ => overwrite (edited_row s inp orig) orig)
            orig a.id hk.1 hfind, overwrite_edited, bump_balance_contrib,
          bump_balance_contrib, bump_id, old_delta_eq]
        simp only [contrib]
        by_cases hx : orig.account_id = a.id <;>
          by_cases hy : (edited_row s inp orig).account_id = a.id <;>
          simp only [hx, hy, if_true, if_false] <;> ring
    · intro a ha
      obtain ⟨a0, h0, rfl⟩ := List.mem_map.mp ha
      rw [bump_id]; exact hk.2 a0 h0

theorem delete_record_ledger (q : Sql) (s : Store) (id : Int) (confirm : String)
    (hq : q.delta1_ok = true) (hk : LedgerKeys s) (hinv : BalanceInv s) :
    LedgerKeys (delete_record q s id confirm).store ∧
      BalanceInv (delete_record q s id confirm).store := by
  rcases delete_record_cases q s id confirm with ⟨_, h⟩ | ⟨row, _, _, hf, _, _, _, h, _⟩
  · rw [h]; exact ⟨hk, hinv⟩
  · have hfind : s.records.find? (fun r => r.id = id) = some row := hf
    rw [h, hq, apply_balance_delta_pos _ _ _ hk.2]
    refine ⟨⟨?_, ?_⟩, ?_⟩
    · exact (hk.1.sublist (List.Sublist.map _ (List.filter_sublist _)))
    · intro a ha
      obtain ⟨a0, h0, rfl⟩ := List.mem_map.mp ha
      rw [bump_id]; exact hk.2 a0 h0
    · apply balance_inv_step s (s.records.filter fun x => x.id ≠ id)
        (bump row.account_id (if row.type = Kind.income then -row.amount else row.amount))
        (bump_id _ _) _ hinv _ rfl rfl
      intro a _
      rw [sum_for_delete s.records id row a.id hk.1 hfind, bump_balance_contrib, old_delta_eq]
      simp only [contrib]
      by_cases hx : row.account_id = a.id
      · simp only [hx, if_true]; ring
      · simp only [hx, if_false]; ring

theorem run_all_cons (s : Store) (op : Op) (ops : List Op) :
    run_all s (op :: ops) = run_all (run s op).store ops := rfl

theorem record_op_ledger (s : Store) (op : Op) (hop : op.isRecordOp = true)
    (hq1 : op.sql.delta1_ok = true) (hq2 : op.sql.delta2_ok = true)
    (hk : LedgerKeys s) (hinv : BalanceInv s) :
    LedgerKeys (run s op).store ∧ BalanceInv (run s op).store := by
  cases op with
  | addRecord q inp => exact add_record_ledger q s inp hq1 hk hinv
  | editRecord q inp => exact edit_record_ledger q s inp hq1 hq2 hk hinv
  | deleteRecord q id confirm => exact delete_record_ledger q s id confirm hq1 hk hinv
  | _ => simp [Op.isRecordOp] at hop

/-- C1 (balance invariant): from a store whose every account balance is the signed
sum of the records that reference it (record ids distinct, account ids positive,
as the schema's keys are), after any finite sequence of `add_record`,
`edit_record` and `delete_record` runs whose balance updates all complete,
every account balance is again the signed sum of the records that reference it. -/
theorem balance_invariant (ops : List Op) (s : Store)
    (hk : LedgerKeys s) (hinv : BalanceInv s)
    (hops : ∀ op ∈ ops, op.isRecordOp = true ∧ op.sql.delta1_ok = true ∧
      op.sql.delta2_ok = true) :
    BalanceInv (run_all s ops) := by
  induction ops generalizing s with
  | nil => exact hinv
  | cons op ops ih =>
    have h := hops op (List.mem_cons_self _ _)
    have hstep := record_op_ledger s op h.1 h.2.1 h.2.2 hk hinv
    rw [run_all_cons]
    exact ih _ hstep.1 hstep.2 fun o ho => hops o (List.mem_cons_of_mem _ ho)

theorem balance_invariant_witness :
    BalanceInv (run_all demo demo_session) ∧
    (run_all demo demo_session).accounts =
      [{ id := 1, name := "Cash", balance := -25 }, { id := 2, name := "Bank", balance := 800 }] ∧
    (run_all demo demo_session).records.length = 2 :=
  ⟨balance_invariant demo_session demo (by unfold LedgerKeys; decide)
    (by unfold BalanceInv; decide) (by decide), by decide!, by decide!⟩

/-! ## Add then delete -/

theorem apply_balance_delta_records (ok : Bool) (s : Store) (account_id : Int) (delta : ℚ) :
    (apply_balance_delta ok s account_id delta).1.records = s.records := by
  rw [apply_balance_delta_store]; split <;> rfl

theorem apply_balance_delta_categories (ok : Bool) (s : Store) (account_id : Int) (delta : ℚ) :
    (apply_balance_delta ok s account_id delta).1.categories = s.categories := by
  rw [apply_balance_delta_store]; split <;> rfl

theorem apply_balance_delta_members (ok : Bool) (s : Store) (account_id : Int) (delta : ℚ) :
    (apply_balance_delta ok s account_id delta).1.members = s.members := by
  rw [apply_balance_delta_store]; split <;> rfl

theorem apply_balance_delta_accounts (s : Store) (account_id : Int) (delta : ℚ)
    (h : 0 < account_id) :
    (apply_balance_delta true s account_id delta).1.accounts =
      s.accounts.map (bump account_id delta) := by
  rw [apply_balance_delta_store]; simp [h]

theorem bump_cancel (account_id : Int) (delta : ℚ) (l : List Account) :
    (l.map (bump account_id delta)).map (bump account_id (-delta)) = l := by
  rw [List.map_map]
  conv_rhs => rw [← List.map_id l]
  apply List.map_congr_left
  intro a _
  by_cases h : a.id = account_id
  · cases a; simp_all [bump]
  · simp [bump, h]

theorem find_append_fresh (rs : List Record) (row : Record)
    (h : ∀ r ∈ rs, r.id ≠ row.id) :
    (rs ++ [row]).find? (fun r => r.id = row.id) = some row := by
  rw [List.find?_append]
  have : rs.find? (fun r => r.id = row.id) = none := by
    apply List.find?_eq_none.mpr
    intro r hr
    simpa using h r hr
  simp [this]

theorem added_row_fresh (s : Store) (inp : AddInput) :
    ∀ r ∈ s.records, r.id ≠ (added_row s inp).id := by
  intro r hr
  have := next_rowid_gt s.seq_records (s.records.map fun r => r.id) r.id
    (List.mem_map_of_mem _ hr)
  simp only [added_row]
  omega

theorem add_delete_core (q1 q2 : Sql) (s : Store) (inp : AddInput) (confirm : String)
    (h1 : (add_record q1 s inp).committed = true)
    (h2 : (delete_record q2 (add_record q1 s inp).store (added_row s inp).id confirm).committed
      = true) :
    (delete_record q2 (add_record q1 s inp).store (added_row s inp).id confirm).store.records
      = s.records ∧
    (delete_record q2 (add_record q1 s inp).store (added_row s inp).id confirm).store.categories
      = s.categories ∧
    (delete_record q2 (add_record q1 s inp).store (added_row s inp).id confirm).store.members
      = s.members ∧
    (q1.delta1_ok = true → q2.delta1_ok = true →
      (delete_record q2 (add_record q1 s inp).store (added_row s inp).id confirm).store.accounts
        = s.accounts) := by
  rcases add_record_cases q1 s inp with ⟨hc, _⟩ | ⟨_, _, _, _, _, hs1, _⟩
  · rw [hc] at h1; cases h1
  have hrec : (add_record q1 s inp).store.records = s.records ++ [added_row s inp] := by
    rw [hs1, apply_balance_delta_records]
  have hfind : find_record (add_record q1 s inp).store (added_row s inp).id =
      some (added_row s inp) := by
    unfold find_record
    rw [hrec]
    exact find_append_fresh _ _ (added_row_fresh s inp)
  rcases delete_record_cases q2 (add_record q1 s inp).store (added_row s inp).id confirm with
    ⟨hc, _⟩ | ⟨row, _, _, hf, _, hpos, _, hs2, _⟩
  · rw [hc] at h2; cases h2
  have hrow : row = added_row s inp := by
    rw [hfind] at hf; exact (Option.some.inj hf).symm
  subst hrow
  rw [hs2]
  simp only [apply_balance_delta_records, apply_balance_delta_categories,
    apply_balance_delta_members]
  refine ⟨?_, ?_, ?_, ?_⟩
  · rw [hrec, List.filter_append, filter_absent _ _ (added_row_fresh s inp)]
    simp
  · rw [hs1, apply_balance_delta_categories]
  · rw [hs1, apply_balance_delta_members]
  · intro hq1 hq2
    rw [hq2, apply_balance_delta_accounts _ _ _ hpos, hs1, hq1,
      apply_balance_delta_accounts _ _ _ hpos, old_delta_eq]
    exact bump_cancel _ _ _

/-- Add then delete with amounts as exact numbers: in every store, when `add_record`
commits a record and `delete_record` is then committed on that new record, the
balance updates of both completing, the accounts table (hence every balance) and the
records table are what they were before the add; categories and members too. -/
theorem add_then_delete (q1 q2 : Sql) (s : Store) (inp : AddInput) (confirm : String)
    (hq1 : q1.delta1_ok = true) (hq2 : q2.delta1_ok = true)
    (h1 : (add_record q1 s inp).committed = true)
    (h2 : (delete_record q2 (add_record q1 s inp).store (added_row s inp).id confirm).committed
      = true) :
    (delete_record q2 (add_record q1 s inp).store (added_row s inp).id confirm).store.accounts
      = s.accounts ∧
    (delete_record q2 (add_record q1 s inp).store (added_row s inp).id confirm).store.records
      = s.records ∧
    (delete_record q2 (add_record q1 s inp).store (added_row s inp).id confirm).store.categories
      = s.categories ∧
    (delete_record q2 (add_record q1 s inp).store (added_row s inp).id confirm).store.members
      = s.members :=
  have h := add_delete_core q1 q2 s inp confirm h1 h2
  ⟨h.2.2.2 hq1 hq2, h.1, h.2.1, h.2.2.1⟩

theorem add_then_delete_witness :
    (delete_record Sql.ok (add_record Sql.ok demo demo_add).store
      (added_row demo demo_add).id "y").store.accounts = demo.accounts ∧
    (delete_record Sql.ok (add_record Sql.ok demo demo_add).store
      (added_row demo demo_add).id "y").store.records = demo.records ∧
    (delete_record Sql.ok (add_record Sql.ok demo demo_add).store
      (added_row demo demo_add).id "y").store.categories = demo.categories ∧
    (delete_record Sql.ok (add_record Sql.ok demo demo_add).store
      (added_row demo demo_add).id "y").store.members = demo.members :=
  add_then_delete Sql.ok Sql.ok demo demo_add "y" rfl rfl (by decide!) (by decide!)

/-! ## Edits -/

theorem edit_record_found (q : Sql) (s : Store) (inp : EditInput) (orig : Record)
    (hid : inp.id ≠ 0) (hfind : find_record s inp.id = some orig) (hrow : q.row_ok = true) :
    (edit_record q s inp).committed = true ∧
    (edit_record q s inp).store = (edit_commit_store q s inp orig).1 := by
  unfold edit_record
  simp only [hid, hfind, hrow, if_false, Bool.true_eq_false]
  exact ⟨trivial, rfl⟩

theorem edit_record_accounts (q : Sql) (s : Store) (inp : EditInput) (orig : Record)
    (hq : q.row_ok = true ∧ q.delta1_ok = true ∧ q.delta2_ok = true)
    (hpos : ∀ a ∈ s.accounts, 0 < a.id)
    (hid : inp.id ≠ 0) (hfind : find_record s inp.id = some orig) :
    (edit_record q s inp).store.accounts =
      (s.accounts.map (bump orig.account_id (-signed orig.type orig.amount))).map
        (bump (edited_row s inp orig).account_id
          (signed (edited_row s inp orig).type (edited_row s inp orig).amount)) := by
  rw [(edit_record_found q s inp orig hid hfind hq.1).2, edit_commit_store, hq.2.1, hq.2.2,
    apply_balance_delta_pos
      { s with records := s.records.map fun r =>
          if r.id = inp.id then overwrite (edited_row s inp orig) r else r } _ _ hpos,
    apply_balance_delta_pos, old_delta_eq]
  intro a ha
  obtain ⟨a0, h0, rfl⟩ := List.mem_map.mp ha
  rw [bump_id]; exact hpos a0 h0

theorem balance_of_bump (l : Store) (t : Store) (account_id : Int) (delta : ℚ) (id : Int)
    (h : t.accounts = l.accounts.map (bump account_id delta)) :
    balance_of t id =
      (balance_of l id).map fun b => b + if id = account_id then delta else 0 := by
  unfold balance_of
  rw [h, find_bump]
  cases hf : l.accounts.find? (fun a => a.id = id) with
  | none => rfl
  | some a =>
    have hid : a.id = id := by simpa using List.find?_some hf
    simp [bump_balance, hid]

theorem balance_of_bump_bump (s t : Store) (x y : Int) (dx dy : ℚ) (id : Int)
    (h : t.accounts = (s.accounts.map (bump x dx)).map (bump y dy)) :
    balance_of t id =
      (balance_of s id).map fun b =>
        b + (if id = x then dx else 0) + (if id = y then dy else 0) := by
  have h1 := balance_of_bump { s with accounts := s.accounts.map (bump x dx) } t y dy id h
  have h2 := balance_of_bump s { s with accounts := s.accounts.map (bump x dx) } x dx id rfl
  rw [h1, h2]
  cases balance_of s id <;> simp

theorem total_bump_absent (l : List Account) (x : Int) (d : ℚ) (h : ∀ a ∈ l, a.id ≠ x) :
    l.map (bump x d) = l := by
  conv_rhs => rw [← List.map_id l]
  apply List.map_congr_left
  intro a ha
  simp [bump, h a ha]

theorem total_bump (l : List Account) (x : Int) (d : ℚ)
    (hnd : (l.map fun a => a.id).Nodup) (hex : ∃ a ∈ l, a.id = x) :
    ((l.map (bump x d)).map fun a => a.balance).sum = (l.map fun a => a.balance).sum + d := by
  induction l with
  | nil => simp at hex
  | cons a l ih =>
    simp only [List.map_cons, List.nodup_cons, List.mem_map, not_exists, not_and] at hnd
    by_cases h : a.id = x
    · have habs : ∀ b ∈ l, b.id ≠ x := fun b hb hbx => hnd.1 b hb (hbx.trans h.symm)
      simp only [List.map_cons, List.sum_cons, total_bump_absent l x d habs, bump_balance, h,
        if_true]
      ring
    · have hex' : ∃ b ∈ l, b.id = x := by
        obtain ⟨b, hb, hbx⟩ := hex
        rcases List.mem_cons.mp hb with rfl | hb'
        · exact absurd hbx h
        · exact ⟨b, hb', hbx⟩
      simp only [List.map_cons, List.sum_cons, ih hnd.2 hex', bump_balance, h, if_false]
      ring

theorem balance_of_some_mem (s : Store) (id : Int) (b : ℚ) (h : balance_of s id = some b) :
    ∃ a ∈ s.accounts, a.id = id := by
  unfold balance_of at h
  cases hf : s.accounts.find? (fun a => a.id = id) with
  | none => simp [hf] at h
  | some a => exact ⟨a, List.mem_of_find?_eq_some hf, by simpa using List.find?_some hf⟩

/-- Edit changing the account, with amounts as exact numbers: when `edit_record`, all
its writes completing, rewrites a record of account A with another account B and the
same kind and amount (account ids distinct and positive, as the schema's key is),
then for an income record A's balance goes down by the amount and B's goes up by it,
for an expense record A's goes up and B's goes down, and the sum of all balances is
unchanged. -/
theorem edit_moves_contribution (q : Sql) (s : Store) (inp : EditInput) (orig : Record)
    (bA bB : ℚ)
    (hq : q.row_ok = true ∧ q.delta1_ok = true ∧ q.delta2_ok = true)
    (hnd : (s.accounts.map fun a => a.id).Nodup) (hpos : ∀ a ∈ s.accounts, 0 < a.id)
    (hid : inp.id ≠ 0) (hfind : find_record s inp.id = some orig)
    (hacc : (edited_row s inp orig).account_id ≠ orig.account_id)
    (htype : (edited_row s inp orig).type = orig.type)
    (hamt : (edited_row s inp orig).amount = orig.amount)
    (hA : balance_of s orig.account_id = some bA)
    (hB : balance_of s (edited_row s inp orig).account_id = some bB) :
    (orig.type = Kind.income →
      balance_of (edit_record q s inp).store orig.account_id = some (bA - orig.amount) ∧
      balance_of (edit_record q s inp).store (edited_row s inp orig).account_id =
        some (bB + orig.amount)) ∧
    (orig.type = Kind.expense →
      balance_of (edit_record q s inp).store orig.account_id = some (bA + orig.amount) ∧
      balance_of (edit_record q s inp).store (edited_row s inp orig).account_id =
        some (bB - orig.amount)) ∧
    total_balance (edit_record q s inp).store = total_balance s := by
  have hacc' := edit_record_accounts q s inp orig hq hpos hid hfind
  have hbal := fun id => balance_of_bump_bump s (edit_record q s inp).store _ _ _ _ id hacc'
  have hne : ¬ orig.account_id = (edited_row s inp orig).account_id := fun e => hacc e.symm
  have e1 := hbal orig.account_id
  have e2 := hbal (edited_row s inp orig).account_id
  rw [hA] at e1
  rw [hB] at e2
  simp only [Option.map_some', if_true, hne, hacc, if_false, add_zero, zero_add, htype,
    hamt] at e1 e2
  refine ⟨?_, ?_, ?_⟩
  · intro hk
    rw [e1, e2]
    simp [signed, hk, sub_eq_add_neg]
  · intro hk
    rw [e1, e2]
    simp [signed, hk, sub_eq_add_neg]
  · unfold total_balance
    rw [hacc', total_bump _ _ _ _ _, total_bump _ _ _ hnd (balance_of_some_mem s _ _ hA),
      htype, hamt]
    · ring
    · have : ((s.accounts.map (bump orig.account_id (-signed orig.type orig.amount))).map
          fun a => a.id) = s.accounts.map fun a => a.id := by
        rw [List.map_map]
        apply List.map_congr_left
        intro a _
        simp [bump_id]
      rw [this]; exact hnd
    · obtain ⟨a, ha, hax⟩ := balance_of_some_mem s _ _ hB
      exact ⟨bump orig.account_id (-signed orig.type orig.amount) a,
        List.mem_map_of_mem _ ha, by rw [bump_id]; exact hax⟩

set_option maxRecDepth 20000 in
theorem edit_moves_contribution_witness :
    (Kind.income = Kind.income →
      balance_of (edit_record Sql.ok demo_ledger demo_edit_account).store 1 =
        some (1000 - 1000) ∧
      balance_of (edit_record Sql.ok demo_ledger demo_edit_account).store 2 =
        some (0 + 1000)) ∧
    (Kind.income = Kind.expense →
      balance_of (edit_record Sql.ok demo_ledger demo_edit_account).store 1 =
        some (1000 + 1000) ∧
      balance_of (edit_record Sql.ok demo_ledger demo_edit_account).store 2 =
        some (0 - 1000)) ∧
    total_balance (edit_record Sql.ok demo_ledger demo_edit_account).store =
      total_balance demo_ledger :=
  edit_moves_contribution Sql.ok demo_ledger demo_edit_account (added_row demo demo_add)
    1000 0 (by decide) (by decide!) (by decide!) (by decide) (by decide!) (by decide!)
    (by decide!) (by decide!) (by decide!) (by decide!)

/-- Edit keeping the account, with amounts as exact numbers: when `edit_record`, all
its writes completing, rewrites a record of account A (kind k, amount a) keeping the
account, with kind k' and amount a', A's balance changes by exactly
signed(k', a') - signed(k, a) and no other account's balance changes. On the account
"Cash" with balance 0: adding an income record of 1000 gives balance 1000, editing
its amount to 800 gives 800, deleting it gives 0. -/
theorem edit_same_account (q : Sql) (s : Store) (inp : EditInput) (orig : Record) (bA : ℚ)
    (hq : q.row_ok = true ∧ q.delta1_ok = true ∧ q.delta2_ok = true)
    (hpos : ∀ a ∈ s.accounts, 0 < a.id)
    (hid : inp.id ≠ 0) (hfind : find_record s inp.id = some orig)
    (hacc : (edited_row s inp orig).account_id = orig.account_id)
    (hA : balance_of s orig.account_id = some bA) :
    (balance_of (edit_record q s inp).store orig.account_id =
      some (bA + (signed (edited_row s inp orig).type (edited_row s inp orig).amount -
        signed orig.type orig.amount)) ∧
     ∀ id, id ≠ orig.account_id → balance_of (edit_record q s inp).store id = balance_of s id) ∧
    (balance_of demo 1 = some 0 ∧
     (add_record Sql.ok demo demo_add).committed = true ∧
     balance_of demo_ledger 1 = some 1000 ∧
     (edit_record Sql.ok demo_ledger demo_edit_amount).committed = true ∧
     (find_record demo_edited 1).map (fun r => r.amount) = some 800 ∧
     balance_of demo_edited 1 = some 800 ∧
     (delete_record Sql.ok demo_edited 1 "y").committed = true ∧
     demo_deleted.records = [] ∧
     balance_of demo_deleted 1 = some 0) := by
  have hacc' := edit_record_accounts q s inp orig hq hpos hid hfind
  have hbal := fun id => balance_of_bump_bump s (edit_record q s inp).store _ _ _ _ id hacc'
  refine ⟨⟨?_, ?_⟩, by decide!⟩
  · rw [hbal, hA, hacc]
    simp only [Option.map_some', if_true, Option.some.injEq]
    ring
  · intro id hne
    rw [hbal, hacc]
    cases balance_of s id <;> simp [hne]

theorem edit_same_account_witness :
    (balance_of (edit_record Sql.ok demo_ledger demo_edit_amount).store
        (added_row demo demo_add).account_id =
      some (1000 + (signed (edited_row demo_ledger demo_edit_amount (added_row demo demo_add)).type
          (edited_row demo_ledger demo_edit_amount (added_row demo demo_add)).amount -
        signed (added_row demo demo_add).type (added_row demo demo_add).amount)) ∧
     ∀ id, id ≠ (added_row demo demo_add).account_id →
      balance_of (edit_record Sql.ok demo_ledger demo_edit_amount).store id =
        balance_of demo_ledger id) ∧
    (balance_of demo 1 = some 0 ∧
     (add_record Sql.ok demo demo_add).committed = true ∧
     balance_of demo_ledger 1 = some 1000 ∧
     (edit_record Sql.ok demo_ledger demo_edit_amount).committed = true ∧
     (find_record demo_edited 1).map (fun r => r.amount) = some 800 ∧
     balance_of demo_edited 1 = some 800 ∧
     (delete_record Sql.ok demo_edited 1 "y").committed = true ∧
     demo_deleted.records = [] ∧
     balance_of demo_deleted 1 = some 0) :=
  edit_same_account Sql.ok demo_ledger demo_edit_amount (added_row demo demo_add) 1000
    (by decide) (by decide!) (by decide) (by decide!) (by decide!) (by decide!)

/-! ## Reference guard: accounts -/

theorem filter_ne_eq_erase {α : Type} [DecidableEq α] (key : α → Int) (l : List α) (a : α)
    (hnd : (l.map key).Nodup) (ha : a ∈ l) :
    l.filter (fun b => key b ≠ key a) = l.erase a := by
  induction l with
  | nil => simp at ha
  | cons x l ih =>
    simp only [List.map_cons, List.nodup_cons, List.mem_map, not_exists, not_and] at hnd
    by_cases hx : x = a
    · subst hx
      have habs : ∀ b ∈ l, key b ≠ key x := fun b hb => hnd.1 b hb
      have : l.filter (fun b => key b ≠ key x) = l := by
        apply List.filter_eq_self.mpr
        intro b hb
        simpa using habs b hb
      rw [List.filter_cons]
      simp only [ne_eq, not_true_eq_false, decide_False, Bool.false_eq_true, if_false,
        List.erase_cons_head]
      exact this
    · have hmem : a ∈ l := by
        rcases List.mem_cons.mp ha with h | h
        · exact absurd h.symm hx
        · exact h
      have hk : key x ≠ key a := fun e => hnd.1 a hmem e.symm
      have hxa : (x == a) = false := by simpa using hx
      rw [List.filter_cons, List.erase_cons, ih hnd.2 hmem]
      simp [hk, hxa]

theorem delete_account_rejected (q : Sql) (s : Store) (id : Int) (confirm : String)
    (h : (∃ r ∈ s.records, r.account_id = id) ∨
      (∃ a ∈ s.accounts, a.id = id ∧ a.balance ≠ 0)) :
    (delete_account q s id confirm).committed = false ∧
    (delete_account q s id confirm).store = s := by
  unfold delete_account
  by_cases h0 : id = 0
  · simp [h0, Result.untouched]
  · have hg : is_account_referenced_or_nonzero s id = true := by
      unfold is_account_referenced_or_nonzero
      rcases h with ⟨r, hr, hrid⟩ | ⟨a, ha, haid, hb⟩
      · simp only [Bool.or_eq_true, List.any_eq_true, decide_eq_true_eq]
        exact Or.inl ⟨r, hr, hrid⟩
      · simp only [Bool.or_eq_true, List.any_eq_true, decide_eq_true_eq]
        exact Or.inr ⟨a, ha, haid, hb⟩
    simp [h0, hg, Result.untouched]

theorem delete_account_removes (q : Sql) (s : Store) (id : Int) (confirm : String)
    (hid : id ≠ 0) (hex : ∃ a ∈ s.accounts, a.id = id)
    (hnoref : ∀ r ∈ s.records, r.account_id ≠ id)
    (hzero : ∀ a ∈ s.accounts, a.id = id → a.balance = 0)
    (hc : confirmed confirm = true) (hq : q.row_ok = true) :
    (delete_account q s id confirm).committed = true ∧
    (delete_account q s id confirm).store =
      { s with accounts := s.accounts.filter fun a => a.id ≠ id } := by
  unfold delete_account
  have hg : is_account_referenced_or_nonzero s id = false := by
    unfold is_account_referenced_or_nonzero
    simp only [Bool.or_eq_false_iff, List.any_eq_false, decide_eq_true_eq]
    exact ⟨fun r hr => hnoref r hr, fun a ha hh => hh.2 (hzero a ha hh.1)⟩
  obtain ⟨a, ha, haid⟩ := hex
  cases hf : s.accounts.find? (fun a => a.id = id) with
  | none =>
    have := List.find?_eq_none.mp hf a ha
    simp [haid] at this
  | some b => simp [hid, hg, hc, hq]

theorem balance_of_unique (s : Store) (id : Int) (b : ℚ)
    (hnd : (s.accounts.map fun a => a.id).Nodup) (h : balance_of s id = some b) :
    ∀ a ∈ s.accounts, a.id = id → a.balance = b := by
  intro a ha haid
  unfold balance_of at h
  cases hf : s.accounts.find? (fun a => a.id = id) with
  | none => simp [hf] at h
  | some c =>
    have hc : c ∈ s.accounts := List.mem_of_find?_eq_some hf
    have hcid : c.id = id := by simpa using List.find?_some hf
    have : a = c := List.inj_on_of_nodup_map hnd ha hc (haid.trans hcid.symm)
    rw [hf] at h
    simp only [Option.map_some', Option.some.injEq] at h
    rw [this]; exact h

theorem delete_record_after (q : Sql) (s : Store) (rid : Int) (confirm : String)
    (h : (delete_record q s rid confirm).committed = true) :
    ∃ row, find_record s rid = some row ∧ 0 < row.account_id ∧
      (delete_record q s rid confirm).store.records = s.records.filter (fun x => x.id ≠ rid) ∧
      ((delete_record q s rid confirm).store.accounts.map fun a => a.id) =
        (s.accounts.map fun a => a.id) ∧
      (delete_record q s rid confirm).store.categories = s.categories ∧
      (delete_record q s rid confirm).store.members = s.members := by
  rcases delete_record_cases q s rid confirm with ⟨hc, _⟩ | ⟨row, _, _, hf, _, hpos, _, hs, _⟩
  · rw [hc] at h; cases h
  · refine ⟨row, hf, hpos, ?_, ?_, ?_, ?_⟩
    · rw [hs]; simp only [apply_balance_delta_records]
    · rw [hs, apply_balance_delta_store]
      split
      · simp only [List.map_map]
        apply List.map_congr_left
        intro a _
        simp [bump_id]
      · rfl
    · rw [hs]; simp only [apply_balance_delta_categories]
    · rw [hs]; simp only [apply_balance_delta_members]

/-- C7 (reference guard on accounts). (1) `delete_account` is rejected and leaves
the store as it is whenever a record references the account or a stored balance
under that id is not 0. (2) For an existing account (ids distinct, never 0) that
no record references and whose balance is 0, a confirmed `delete_account` whose
`DELETE` completes removes exactly that account and nothing else. (3) While
record `rid` references the account the deletion is rejected; once
`delete_record` of `rid`, the last record referencing it, has committed, and the
balance is 0, the deletion is carried out. -/
theorem delete_account_guard (q : Sql) (s : Store) (id : Int) (confirm : String) :
    (((∃ r ∈ s.records, r.account_id = id) ∨
        (∃ a ∈ s.accounts, a.id = id ∧ a.balance ≠ 0)) →
      (delete_account q s id confirm).committed = false ∧
      (delete_account q s id confirm).store = s) ∧
    (∀ a ∈ s.accounts, a.id = id → id ≠ 0 → (s.accounts.map fun x => x.id).Nodup →
      (∀ r ∈ s.records, r.account_id ≠ id) → a.balance = 0 →
      confirmed confirm = true → q.row_ok = true →
      (delete_account q s id confirm).committed = true ∧
      (delete_account q s id confirm).store.accounts = s.accounts.erase a ∧
      a ∉ (delete_account q s id confirm).store.accounts ∧
      (delete_account q s id confirm).store.records = s.records ∧
      (delete_account q s id confirm).store.categories = s.categories ∧
      (delete_account q s id confirm).store.members = s.members) ∧
    (∀ (q1 : Sql) (rid : Int) (c1 : String) (row : Record),
      find_record s rid = some row → row.account_id = id →
      (∀ r ∈ s.records, r.account_id = id → r.id = rid) →
      (s.accounts.map fun x => x.id).Nodup →
      (delete_record q1 s rid c1).committed = true →
      balance_of (delete_record q1 s rid c1).store id = some 0 →
      confirmed confirm = true → q.row_ok = true →
      (delete_account q s id confirm).committed = false ∧
      (delete_account q s id confirm).store = s ∧
      (delete_account q (delete_record q1 s rid c1).store id confirm).committed = true ∧
      ∀ b, b ∈ (delete_account q (delete_record q1 s rid c1).store id confirm).store.accounts ↔
        b ∈ (delete_record q1 s rid c1).store.accounts ∧ b.id ≠ id) := by
  refine ⟨delete_account_rejected q s id confirm, ?_, ?_⟩
  · intro a ha haid hid hnd hnoref hbal hc hq
    have hzero : ∀ b ∈ s.accounts, b.id = id → b.balance = 0 := by
      intro b hb hbid
      have : b = a := List.inj_on_of_nodup_map hnd hb ha (hbid.trans haid.symm)
      rw [this]; exact hbal
    have h := delete_account_removes q s id confirm hid ⟨a, ha, haid⟩ hnoref hzero hc hq
    have he : s.accounts.filter (fun b => b.id ≠ id) = s.accounts.erase a := by
      rw [← haid]
      exact filter_ne_eq_erase (fun x : Account => x.id) s.accounts a hnd ha
    rw [h.2]
    refine ⟨h.1, he, ?_, rfl, rfl, rfl⟩
    show a ∉ s.accounts.filter (fun b => b.id ≠ id)
    simp [haid]
  · intro q1 rid c1 row hfind hrow hlast hnd hdel hbal hc hq
    have hmem := find_record_mem s rid row hfind
    have hrej := delete_account_rejected q s id confirm (Or.inl ⟨row, hmem.1, hrow⟩)
    obtain ⟨row', hf', hpos, hrecs, hids, _, _⟩ := delete_record_after q1 s rid c1 hdel
    have hrr : row' = row := by rw [hfind] at hf'; exact (Option.some.inj hf').symm
    subst hrr
    have hid : id ≠ 0 := by rw [← hrow]; omega
    have hnd1 : ((delete_record q1 s rid c1).store.accounts.map fun x => x.id).Nodup := by
      rw [hids]; exact hnd
    have hex1 : ∃ a ∈ (delete_record q1 s rid c1).store.accounts, a.id = id :=
      balance_of_some_mem _ _ _ hbal
    have hnoref : ∀ r ∈ (delete_record q1 s rid c1).store.records, r.account_id ≠ id := by
      intro r hr hrid
      rw [hrecs] at hr
      have h1 := List.mem_filter.mp hr
      have h2 : r.id ≠ rid := by simpa using h1.2
      exact h2 (hlast r h1.1 hrid)
    have hzero := balance_of_unique _ id 0 hnd1 hbal
    have h := delete_account_removes q _ id confirm hid hex1 hnoref hzero hc hq
    refine ⟨hrej.1, hrej.2, h.1, ?_⟩
    intro b
    rw [h.2]
    simp [List.mem_filter]

theorem delete_account_guard_witness :
    ((delete_account Sql.ok demo_ledger 1 "y").committed = false ∧
      (delete_account Sql.ok demo_ledger 1 "y").store = demo_ledger) ∧
    ((delete_account Sql.ok demo_ledger 2 "y").committed = true ∧
      (delete_account Sql.ok demo_ledger 2 "y").store.accounts =
        demo_ledger.accounts.erase { id := 2, name := "Bank", balance := 0 } ∧
      { id := 2, name := "Bank", balance := 0 } ∉
        (delete_account Sql.ok demo_ledger 2 "y").store.accounts ∧
      (delete_account Sql.ok demo_ledger 2 "y").store.records = demo_ledger.records ∧
      (delete_account Sql.ok demo_ledger 2 "y").store.categories = demo_ledger.categories ∧
      (delete_account Sql.ok demo_ledger 2 "y").store.members = demo_ledger.members) ∧
    ((delete_account Sql.ok demo_ledger 1 "y").committed = false ∧
      (delete_account Sql.ok demo_ledger 1 "y").store = demo_ledger ∧
      (delete_account Sql.ok (delete_record Sql.ok demo_ledger 1 "y").store 1 "y").committed
        = true ∧
      ∀ b, b ∈ (delete_account Sql.ok
          (delete_record Sql.ok demo_ledger 1 "y").store 1 "y").store.accounts ↔
        b ∈ (delete_record Sql.ok demo_ledger 1 "y").store.accounts ∧ b.id ≠ 1) :=
  ⟨(delete_account_guard Sql.ok demo_ledger 1 "y").1 (Or.inl (by decide!)),
   (delete_account_guard Sql.ok demo_ledger 2 "y").2.1 { id := 2, name := "Bank", balance := 0 }
      (by decide!) rfl (by decide) (by decide!) (by decide!) rfl (by decide) rfl,
   (delete_account_guard Sql.ok demo_ledger 1 "y").2.2 Sql.ok 1 "y" (added_row demo demo_add)
      (by decide!) (by decide!) (by decide!) (by decide!) (by decide!) (by decide!)
      (by decide) rfl⟩

/-! ## Reference guard: members and categories -/

theorem find_unique {α : Type} (key : α → Int) (l : List α) (c : α) (id : Int)
    (hnd : (l.map key).Nodup) (hc : c ∈ l) (hid : key c = id) :
    l.find? (fun x => key x = id) = some c := by
  cases hf : l.find? (fun x => key x = id) with
  | none =>
    have := List.find?_eq_none.mp hf c hc
    simp [hid] at this
  | some b =>
    have hb : b ∈ l := List.mem_of_find?_eq_some hf
    have hbid : key b = id := by simpa using List.find?_some hf
    have : b = c := List.inj_on_of_nodup_map hnd hb hc (hbid.trans hid.symm)
    rw [this]

theorem delete_member_rejected (q : Sql) (s : Store) (id : Int)
    (h : ∃ r ∈ s.records, r.member_id = id) :
    (delete_member q s id).committed = false ∧ (delete_member q s id).store = s := by
  unfold delete_member
  by_cases h0 : id = 0
  · simp [h0, Result.untouched]
  · have hg : is_member_referenced s id = true := by
      unfold is_member_referenced
      simp only [List.any_eq_true, decide_eq_true_eq]
      exact h
    simp [h0, hg, Result.untouched]

theorem delete_member_removes (q : Sql) (s : Store) (id : Int)
    (hid : id ≠ 0) (hex : ∃ m ∈ s.members, m.id = id)
    (hnoref : ∀ r ∈ s.records, r.member_id ≠ id) (hq : q.row_ok = true) :
    (delete_member q s id).committed = true ∧
    (delete_member q s id).store = { s with members := s.members.filter fun m => m.id ≠ id } := by
  unfold delete_member
  have hg : is_member_referenced s id = false := by
    unfold is_member_referenced
    simp only [List.any_eq_false, decide_eq_true_eq]
    exact fun r hr => hnoref r hr
  have hany : (s.members.any fun m => m.id = id) = true := by
    simp only [List.any_eq_true, decide_eq_true_eq]
    exact hex
  simp [hid, hg, hq, hany]

/-- C9 (reference guard on members). `delete_member` is rejected and leaves the
store as it is whenever a record references the member id; for an existing member
(ids distinct, never 0) that no record references, `delete_member`, its `DELETE`
completing, removes exactly that member and nothing else. -/
theorem delete_member_guard (q : Sql) (s : Store) (id : Int) :
    ((∃ r ∈ s.records, r.member_id = id) →
      (delete_member q s id).committed = false ∧ (delete_member q s id).store = s) ∧
    (∀ m ∈ s.members, m.id = id → id ≠ 0 → (s.members.map fun x => x.id).Nodup →
      (∀ r ∈ s.records, r.member_id ≠ id) → q.row_ok = true →
      (delete_member q s id).committed = true ∧
      (delete_member q s id).store.members = s.members.erase m ∧
      m ∉ (delete_member q s id).store.members ∧
      (delete_member q s id).store.records = s.records ∧
      (delete_member q s id).store.accounts = s.accounts ∧
      (delete_member q s id).store.categories = s.categories) := by
  refine ⟨delete_member_rejected q s id, ?_⟩
  intro m hm hmid hid hnd hnoref hq
  have h := delete_member_removes q s id hid ⟨m, hm, hmid⟩ hnoref hq
  have he : s.members.filter (fun b => b.id ≠ id) = s.members.erase m := by
    rw [← hmid]
    exact filter_ne_eq_erase (fun x : Member => x.id) s.members m hnd hm
  rw [h.2]
  refine ⟨h.1, he, ?_, rfl, rfl, rfl⟩
  show m ∉ s.members.filter (fun b => b.id ≠ id)
  simp [hmid]

theorem delete_category_rejected_ref (q : Sql) (s : Store) (id : Int) (confirm : String)
    (h : ∃ r ∈ s.records, r.category_id = id) :
    (delete_category q s id confirm).committed = false ∧
    (delete_category q s id confirm).store = s := by
  unfold delete_category
  by_cases h0 : id ≤ 0
  · simp [h0, Result.untouched]
  cases hf : s.categories.find? (fun c => c.id = id) with
  | none => simp [h0, Result.untouched]
  | some c =>
    have hlen : (s.records.filter fun r => r.category_id = id).length > 0 := by
      obtain ⟨r, hr, hrid⟩ := h
      apply List.length_pos_of_mem (a := r)
      simp [List.mem_filter, hr, hrid]
    simp [h0, hlen, Result.untouched]

theorem delete_category_rejected_children (q : Sql) (s : Store) (id : Int) (confirm : String)
    (c : Category) (hc : c ∈ s.categories) (hcid : c.id = id) (hroot : c.parent_id = none)
    (hnd : (s.categories.map fun x => x.id).Nodup)
    (hchild : ∃ k ∈ s.categories, k.parent_id = some id) :
    (delete_category q s id confirm).committed = false ∧
    (delete_category q s id confirm).store = s := by
  unfold delete_category
  by_cases h0 : id ≤ 0
  · simp [h0, Result.untouched]
  have hf := find_unique (fun x : Category => x.id) s.categories c id hnd hc hcid
  have hlen : (s.categories.filter fun k => k.parent_id = some id).length > 0 := by
    obtain ⟨k, hk, hkp⟩ := hchild
    apply List.length_pos_of_mem (a := k)
    simp [List.mem_filter, hk, hkp]
  simp only [h0, if_false, hf, hroot, parent_column_int, Option.getD_none, true_or, true_and,
    hlen, if_true]
  split <;> simp [Result.untouched]

theorem delete_category_removes (q : Sql) (s : Store) (id : Int) (confirm : String)
    (c : Category) (hc : c ∈ s.categories) (hcid : c.id = id) (hpos : 0 < id)
    (hnd : (s.categories.map fun x => x.id).Nodup)
    (hnoref : ∀ r ∈ s.records, r.category_id ≠ id)
    (hroot : c.parent_id = none → ∀ k ∈ s.categories, k.parent_id ≠ some id)
    (hpar : ∀ p, c.parent_id = some p → 0 < p)
    (hconf : confirmed confirm = true) (hq : q.row_ok = true) :
    (delete_category q s id confirm).committed = true ∧
    (delete_category q s id confirm).store =
      { s with categories := s.categories.filter fun x => x.id ≠ id } := by
  unfold delete_category
  have h0 : ¬ id ≤ 0 := not_le.mpr hpos
  have hf := find_unique (fun x : Category => x.id) s.categories c id hnd hc hcid
  have hlen : ¬ (s.records.filter fun r => r.category_id = id).length > 0 := by
    have : (s.records.filter fun r => r.category_id = id) = [] := by
      apply List.filter_eq_nil_iff.mpr
      intro r hr
      simpa using hnoref r hr
    simp [this]
  have hkids : ¬ ((parent_column_int c = 0 ∨ parent_column_int c = -1 ∨ c.parent_id = none) ∧
      (s.categories.filter fun k => k.parent_id = some id).length > 0) := by
    intro ⟨htop, hlen2⟩
    cases hp : c.parent_id with
    | none =>
      have : (s.categories.filter fun k => k.parent_id = some id) = [] := by
        apply List.filter_eq_nil_iff.mpr
        intro k hk
        simpa using hroot hp k hk
      simp [this] at hlen2
    | some p =>
      have := hpar p hp
      simp only [parent_column_int, hp, Option.getD_some] at htop
      rcases htop with h | h | h
      · omega
      · omega
      · cases h
  simp only [h0, if_false, hf, hlen, hkids, hconf, hq, Bool.true_eq_false]
  exact ⟨trivial, trivial⟩

theorem add_record_row_mem (q : Sql) (s : Store) (inp : AddInput)
    (h : (add_record q s inp).committed = true) :
    (add_record q s inp).store.records = s.records ++ [added_row s inp] ∧
    (add_record q s inp).store.categories = s.categories ∧
    (add_record q s inp).store.members = s.members := by
  rcases add_record_cases q s inp with ⟨hc, _⟩ | ⟨_, _, _, _, _, hs1, _⟩
  · rw [hc] at h; cases h
  · rw [hs1]
    exact ⟨apply_balance_delta_records _ _ _ _, apply_balance_delta_categories _ _ _ _,
      apply_balance_delta_members _ _ _ _⟩

/-- C8 (reference guard on categories). (1) `delete_category` is rejected and
leaves the store as it is whenever a record references the category, or the
category is a root that still has a child. (2) A category (ids distinct and
positive, a parent reference being a positive id) that no record references and
that, if it is a root, has no child, is removed, alone, by a confirmed
`delete_category` whose `DELETE` completes. (3) A root category without children
can be deleted before any record uses it, cannot be deleted once `add_record` has
committed a record under it, and can be deleted again once `delete_record` of
that record has committed. -/
theorem delete_category_guard (q : Sql) (s : Store) (id : Int) (confirm : String) :
    ((∃ r ∈ s.records, r.category_id = id) →
      (delete_category q s id confirm).committed = false ∧
      (delete_category q s id confirm).store = s) ∧
    (∀ c ∈ s.categories, c.id = id → c.parent_id = none →
      (s.categories.map fun x => x.id).Nodup →
      (∃ k ∈ s.categories, k.parent_id = some id) →
      (delete_category q s id confirm).committed = false ∧
      (delete_category q s id confirm).store = s) ∧
    (∀ c ∈ s.categories, c.id = id → 0 < id → (s.categories.map fun x => x.id).Nodup →
      (∀ r ∈ s.records, r.category_id ≠ id) →
      (c.parent_id = none → ∀ k ∈ s.categories, k.parent_id ≠ some id) →
      (∀ p, c.parent_id = some p → 0 < p) →
      confirmed confirm = true → q.row_ok = true →
      (delete_category q s id confirm).committed = true ∧
      (delete_category q s id confirm).store.categories = s.categories.erase c ∧
      c ∉ (delete_category q s id confirm).store.categories ∧
      (delete_category q s id confirm).store.records = s.records ∧
      (delete_category q s id confirm).store.accounts = s.accounts ∧
      (delete_category q s id confirm).store.members = s.members) ∧
    (∀ (q1 q2 : Sql) (inp : AddInput) (c2 : String), ∀ c ∈ s.categories,
      c.id = id → 0 < id → (s.categories.map fun x => x.id).Nodup →
      c.parent_id = none → (∀ k ∈ s.categories, k.parent_id ≠ some id) →
      (∀ r ∈ s.records, r.category_id ≠ id) →
      confirmed confirm = true → q.row_ok = true →
      select_category s inp.type_str inp.cat_choice = id →
      (add_record q1 s inp).committed = true →
      (delete_record q2 (add_record q1 s inp).store (added_row s inp).id c2).committed = true →
      (delete_category q s id confirm).committed = true ∧
      (delete_category q (add_record q1 s inp).store id confirm).committed = false ∧
      (delete_category q (add_record q1 s inp).store id confirm).store =
        (add_record q1 s inp).store ∧
      (delete_category q
        (delete_record q2 (add_record q1 s inp).store (added_row s inp).id c2).store
        id confirm).committed = true ∧
      (delete_category q
        (delete_record q2 (add_record q1 s inp).store (added_row s inp).id c2).store
        id confirm).store.categories = s.categories.erase c) := by
  refine ⟨delete_category_rejected_ref q s id confirm, ?_, ?_, ?_⟩
  · intro c hc hcid hroot hnd hchild
    exact delete_category_rejected_children q s id confirm c hc hcid hroot hnd hchild
  · intro c hc hcid hpos hnd hnoref hroot hpar hconf hq
    have h := delete_category_removes q s id confirm c hc hcid hpos hnd hnoref hroot hpar
      hconf hq
    have he : s.categories.filter (fun b => b.id ≠ id) = s.categories.erase c := by
      rw [← hcid]
      exact filter_ne_eq_erase (fun x : Category => x.id) s.categories c hnd hc
    rw [h.2]
    refine ⟨h.1, he, ?_, rfl, rfl, rfl⟩
    show c ∉ s.categories.filter (fun b => b.id ≠ id)
    simp [hcid]
  · intro q1 q2 inp c2 c hc hcid hpos hnd hroot hkids hnoref hconf hq hsel hadd hdel
    have hpar : ∀ p, c.parent_id = some p → 0 < p := by
      intro p hp; rw [hroot] at hp; cases hp
    have h0 := delete_category_removes q s id confirm c hc hcid hpos hnd hnoref
      (fun _ => hkids) hpar hconf hq
    have h1 := add_record_row_mem q1 s inp hadd
    have hmem : ∃ r ∈ (add_record q1 s inp).store.records, r.category_id = id := by
      refine ⟨added_row s inp, ?_, ?_⟩
      · rw [h1.1]; simp
      · simp only [added_row]; exact hsel
    have hrej := delete_category_rejected_ref q (add_record q1 s inp).store id confirm hmem
    have h2 := add_delete_core q1 q2 s inp c2 hadd hdel
    have h3 := delete_category_removes q
      (delete_record q2 (add_record q1 s inp).store (added_row s inp).id c2).store id confirm c
      (by rw [h2.2.1]; exact hc) hcid hpos (by rw [h2.2.1]; exact hnd)
      (by rw [h2.1]; exact hnoref) (by rw [h2.2.1]; exact fun _ => hkids) hpar hconf hq
    refine ⟨h0.1, hrej.1, hrej.2, h3.1, ?_⟩
    rw [h3.2]
    show (delete_record q2 (add_record q1 s inp).store (added_row s inp).id c2).store.categories.filter
      (fun b => b.id ≠ id) = s.categories.erase c
    rw [h2.2.1, ← hcid]
    exact filter_ne_eq_erase (fun x : Category => x.id) s.categories c hnd hc

theorem delete_member_guard_witness :
    ((delete_member Sql.ok demo_ledger 1).committed = false ∧
      (delete_member Sql.ok demo_ledger 1).store = demo_ledger) ∧
    ((delete_member Sql.ok demo 1).committed = true ∧
      (delete_member Sql.ok demo 1).store.members = demo.members.erase { id := 1, name := "Me" } ∧
      { id := 1, name := "Me" } ∉ (delete_member Sql.ok demo 1).store.members ∧
      (delete_member Sql.ok demo 1).store.records = demo.records ∧
      (delete_member Sql.ok demo 1).store.accounts = demo.accounts ∧
      (delete_member Sql.ok demo 1).store.categories = demo.categories) :=
  ⟨(delete_member_guard Sql.ok demo_ledger 1).1 (by decide!),
   (delete_member_guard Sql.ok demo 1).2 { id := 1, name := "Me" } (by decide) rfl (by decide)
      (by decide) (by decide) rfl⟩

theorem delete_category_guard_witness :
    ((delete_category Sql.ok demo_ledger 1 "y").committed = false ∧
      (delete_category Sql.ok demo_ledger 1 "y").store = demo_ledger) ∧
    ((delete_category Sql.ok demo 1 "y").committed = false ∧
      (delete_category Sql.ok demo 1 "y").store = demo) ∧
    ((delete_category Sql.ok demo 2 "y").committed = true ∧
      (delete_category Sql.ok demo 2 "y").store.categories = demo.categories.erase
        { id := 2, name := "Bonus", parent_id := some 1, type := Kind.income } ∧
      { id := 2, name := "Bonus", parent_id := some 1, type := Kind.income } ∉
        (delete_category Sql.ok demo 2 "y").store.categories ∧
      (delete_category Sql.ok demo 2 "y").store.records = demo.records ∧
      (delete_category Sql.ok demo 2 "y").store.accounts = demo.accounts ∧
      (delete_category Sql.ok demo 2 "y").store.members = demo.members) ∧
    ((delete_category Sql.ok demo 3 "y").committed = true ∧
      (delete_category Sql.ok (add_record Sql.ok demo demo_add_food).store 3 "y").committed
        = false ∧
      (delete_category Sql.ok (add_record Sql.ok demo demo_add_food).store 3 "y").store =
        (add_record Sql.ok demo demo_add_food).store ∧
      (delete_category Sql.ok
        (delete_record Sql.ok (add_record Sql.ok demo demo_add_food).store
          (added_row demo demo_add_food).id "Y").store
        3 "y").committed = true ∧
      (delete_category Sql.ok
        (delete_record Sql.ok (add_record Sql.ok demo demo_add_food).store
          (added_row demo demo_add_food).id "Y").store
        3 "y").store.categories = demo.categories.erase
          { id := 3, name := "Food", parent_id := none, type := Kind.expense }) :=
  ⟨(delete_category_guard Sql.ok demo_ledger 1 "y").1 (by decide!),
   (delete_category_guard Sql.ok demo 1 "y").2.1
      { id := 1, name := "Salary", parent_id := none, type := Kind.income }
      (by decide) rfl rfl (by decide) (by decide),
   (delete_category_guard Sql.ok demo 2 "y").2.2.1
      { id := 2, name := "Bonus", parent_id := some 1, type := Kind.income }
      (by decide) rfl (by decide) (by decide) (by decide) (by decide) (by decide)
      (by decide) rfl,
   (delete_category_guard Sql.ok demo 3 "y").2.2.2 Sql.ok Sql.ok demo_add_food "Y"
      { id := 3, name := "Food", parent_id := none, type := Kind.expense }
      (by decide) rfl (by decide) (by decide) rfl (by decide) (by decide) (by decide) rfl
      (by decide!) (by decide!) (by decide!)⟩

/-! ## Selection menus return existing rows -/

theorem getD_mem_or_default (l : List Int) (i : Nat) (d : Int) :
    l.getD i d = d ∨ l.getD i d ∈ l := by
  by_cases h : i < l.length
  · right
    rw [List.getD_eq_getElem l d h]
    exact List.getElem_mem h
  · left
    exact List.getD_eq_default l d (not_lt.mp h)

theorem select_account_mem (s : Store) (choice : Int) (h : select_account s choice ≠ -1) :
    ∃ a ∈ s.accounts, a.id = select_account s choice := by
  unfold select_account at h ⊢
  simp only at h ⊢
  split_ifs at h ⊢ with h1 h2
  · exact absurd rfl h
  · exact absurd rfl h
  · rcases getD_mem_or_default ((accounts_by_id s).map fun a => a.id) (choice - 1).toNat (-1)
      with hd | hm
    · exact absurd hd h
    · obtain ⟨a, ha, hid⟩ := List.mem_map.mp hm
      refine ⟨a, ?_, hid⟩
      exact (List.perm_insertionSort _ _).mem_iff.mp ha

theorem category_id_of_sorted (s : Store) (p : Category → Bool) (i : Int)
    (h : i ∈ ((categories_by_id s).filter p).map fun c => c.id) :
    ∃ c ∈ s.categories, c.id = i ∧ p c = true := by
  obtain ⟨c, hc, hid⟩ := List.mem_map.mp h
  have hc' := List.mem_filter.mp hc
  exact ⟨c, (List.perm_insertionSort _ _).mem_iff.mp hc'.1, hid, hc'.2⟩

theorem top_level_ids_mem (s : Store) (type : Kind) (i : Int) (h : i ∈ top_level_ids s type) :
    ∃ c ∈ s.categories, c.id = i := by
  unfold top_level_ids at h
  obtain ⟨c, hc, hid, _⟩ := category_id_of_sorted s _ i (List.mem_of_mem_take h)
  exact ⟨c, hc, hid⟩

theorem sub_ids_mem (s : Store) (parent : Int) (i : Int) (h : i ∈ sub_ids s parent) :
    ∃ c ∈ s.categories, c.id = i := by
  unfold sub_ids at h
  obtain ⟨c, hc, hid, _⟩ := category_id_of_sorted s _ i h
  exact ⟨c, hc, hid⟩

/-- Once the loop condition of `select_category` is false at index `i`, every later
pass leaves the list as it is: folding over all indices below `MAX_CATEGORIES` is the
loop with its exit. -/
theorem add_subs_step_idle (s : Store) (all_ids : List Int) (i j : Nat) (hij : i ≤ j)
    (h : ¬ (i < all_ids.length ∧ all_ids.length < MAX_CATEGORIES)) :
    add_subs_step s all_ids j = all_ids := by
  unfold add_subs_step
  split_ifs with hj
  · exact absurd ⟨lt_of_le_of_lt hij hj.1, hj.2⟩ h
  · rfl

theorem add_subs_fold_mem (s : Store) (idx : List Nat) (all_ids : List Int)
    (h : ∀ i ∈ all_ids, ∃ c ∈ s.categories, c.id = i) :
    ∀ i ∈ idx.foldl (add_subs_step s) all_ids, ∃ c ∈ s.categories, c.id = i := by
  induction idx generalizing all_ids with
  | nil => exact h
  | cons n idx ih =>
    simp only [List.foldl_cons]
    apply ih
    intro i hi
    unfold add_subs_step at hi
    split_ifs at hi
    · rcases List.mem_append.mp hi with h1 | h2
      · exact h i h1
      · exact sub_ids_mem s _ i (List.mem_of_mem_take h2)
    · exact h i hi

theorem select_category_mem (s : Store) (type : Kind) (choice : Int)
    (h : select_category s type choice ≠ -1) :
    ∃ c ∈ s.categories, c.id = select_category s type choice := by
  unfold select_category at h ⊢
  simp only at h ⊢
  split_ifs at h ⊢ with h1 h2
  · exact absurd rfl h
  · exact absurd rfl h
  · rcases getD_mem_or_default
      ((List.range MAX_CATEGORIES).foldl (add_subs_step s) (top_level_ids s type))
      (choice - 1).toNat (-1) with hd | hm
    · exact absurd hd h
    · exact add_subs_fold_mem s _ _ (fun i hi => top_level_ids_mem s type i hi) _ hm

/-! ## Shape of the settings operations -/

theorem add_member_frame (q : Sql) (s : Store) (name : String) :
    (add_member q s name).store.records = s.records ∧
    (add_member q s name).store.accounts = s.accounts ∧
    (add_member q s name).store.categories = s.categories := by
  unfold add_member
  split_ifs <;> simp [Result.untouched]

theorem edit_member_frame (q : Sql) (s : Store) (id : Int) (new_name : String) :
    (edit_member q s id new_name).store.records = s.records ∧
    (edit_member q s id new_name).store.accounts = s.accounts ∧
    (edit_member q s id new_name).store.categories = s.categories := by
  unfold edit_member
  by_cases h0 : id = 0
  · simp [h0, Result.untouched]
  cases hf : s.members.find? (fun m => m.id = id) with
  | none => simp [h0, Result.untouched]
  | some m =>
    by_cases h1 : new_name = ""
    · simp [h0, h1, Result.untouched]
    by_cases h2 : q.row_ok = false ∨
        (s.members.any fun m => m.name = new_name ∧ m.id ≠ id) = true
    · simp only [h0, h1, h2, if_true, if_false, Result.untouched, and_self]
    · simp only [h0, h1, h2, if_false, and_self]

theorem delete_member_frame (q : Sql) (s : Store) (id : Int) :
    (delete_member q s id).store.records = s.records ∧
    (delete_member q s id).store.accounts = s.accounts ∧
    (delete_member q s id).store.categories = s.categories := by
  unfold delete_member
  split_ifs <;> simp [Result.untouched]

theorem add_account_shape (q : Sql) (s : Store) (name : String) (balance : ℚ) :
    (add_account q s name balance).store.records = s.records ∧
    (add_account q s name balance).store.categories = s.categories ∧
    ((add_account q s name balance).store.accounts = s.accounts ∨
      ∃ row, (add_account q s name balance).store.accounts = s.accounts ++ [row]) := by
  unfold add_account
  split_ifs <;> simp [Result.untouched]

theorem edit_account_shape (q : Sql) (s : Store) (id : Int) (new_name : String)
    (new_balance : Option ℚ) :
    (edit_account q s id new_name new_balance).store.records = s.records ∧
    (edit_account q s id new_name new_balance).store.categories = s.categories ∧
    ((edit_account q s id new_name new_balance).store.accounts.map fun a => a.id) =
      (s.accounts.map fun a => a.id) := by
  unfold edit_account
  by_cases h0 : id = 0
  · simp [h0, Result.untouched]
  cases hf : s.accounts.find? (fun a => a.id = id) with
  | none => simp [h0, Result.untouched]
  | some old =>
    simp only [h0, if_false]
    split_ifs <;> first
      | exact ⟨rfl, rfl, rfl⟩
      | (refine ⟨rfl, rfl, ?_⟩
         simp only [List.map_map]
         apply List.map_congr_left
         intro a _
         simp only [Function.comp]
         split <;> rfl)

theorem delete_account_shape (q : Sql) (s : Store) (id : Int) (confirm : String) :
    (delete_account q s id confirm).store = s ∨
    ((∀ r ∈ s.records, r.account_id ≠ id) ∧
      (delete_account q s id confirm).store =
        { s with accounts := s.accounts.filter fun a => a.id ≠ id }) := by
  unfold delete_account
  by_cases h0 : id = 0
  · left; simp [h0, Result.untouched]
  by_cases hg : is_account_referenced_or_nonzero s id = true
  · left; simp [h0, hg, Result.untouched]
  cases hf : s.accounts.find? (fun a => a.id = id) with
  | none => left; simp [h0, hg, Result.untouched]
  | some old =>
    by_cases hc : confirmed confirm = false
    · left; simp [h0, hg, hc, Result.untouched]
    by_cases hq : q.row_ok = false
    · left; simp [h0, hg, hc, hq, Result.untouched]
    · right
      refine ⟨?_, by simp [h0, hg, hc, hq]⟩
      intro r hr hrid
      apply hg
      unfold is_account_referenced_or_nonzero
      simp only [Bool.or_eq_true, List.any_eq_true, decide_eq_true_eq]
      exact Or.inl ⟨r, hr, hrid⟩

theorem parent_menu_root (s : Store) (type : Kind) (i : Int) (h : i ∈ parent_menu s type) :
    ∃ k ∈ s.categories, k.id = i ∧ k.parent_id = none ∧ k.type = type := by
  unfold parent_menu at h
  obtain ⟨c, hc, hid, hp⟩ := category_id_of_sorted s _ i h
  simp only [decide_eq_true_eq] at hp
  exact ⟨c, hc, hid, hp.2, hp.1⟩

theorem insert_category_shape (q : Sql) (s : Store) (name : String) (parent_id : Int)
    (type : Kind) :
    (insert_category q s name parent_id type).store = s ∨
    (insert_category q s name parent_id type).store =
      { s with
        categories := s.categories ++
          [{ id := next_rowid s.seq_categories (s.categories.map fun c => c.id), name := name,
             type := type, parent_id := if parent_id ≠ 0 then some parent_id else none }],
        seq_categories := next_rowid s.seq_categories (s.categories.map fun c => c.id) } := by
  unfold insert_category
  by_cases h : q.row_ok = false ∨ (s.categories.any fun c => c.name = name) = true
  · left; simp only [h, if_true, Result.untouched]
  · right; simp only [h, if_false]

/-- `add_category` either leaves the store as it is or appends one row with a fresh
key whose parent, if any, is the id of a root category of the same type. -/
theorem add_category_shape (q : Sql) (s : Store) (inp : CategoryInput) :
    (add_category q s inp).store = s ∨
    ∃ row, (add_category q s inp).store =
        { s with categories := s.categories ++ [row], seq_categories := row.id } ∧
      row.id = next_rowid s.seq_categories (s.categories.map fun c => c.id) ∧
      ∀ p, row.parent_id = some p →
        ∃ k ∈ s.categories, k.id = p ∧ k.parent_id = none ∧ k.type = row.type := by
  unfold add_category
  cases hty : inp.type_str with
  | none => left; rfl
  | some type_str =>
    simp only
    by_cases h1 : inp.name = ""
    · left; simp [h1, Result.untouched]
    by_cases h2 : inp.yn.get 0 = 'y' ∨ inp.yn.get 0 = 'Y'
    swap
    · simp only [h1, h2, if_false]
      rcases insert_category_shape q s inp.name 0 type_str with h | h
      · left; exact h
      · right
        refine ⟨_, h, rfl, ?_⟩
        intro p hp
        simp at hp
    simp only [h1, h2, if_false, if_true]
    by_cases h3 : (parent_menu s type_str).length = 0
    · left; simp [h3, Result.untouched]
    by_cases h4 : inp.choice < 1 ∨ inp.choice > (parent_menu s type_str).length
    · left; simp [h3, h4, Result.untouched]
    simp only [h3, h4, if_false]
    rcases insert_category_shape q s inp.name
        ((parent_menu s type_str).getD (inp.choice - 1).toNat 0) type_str with h | h
    · left; exact h
    · right
      refine ⟨_, h, rfl, ?_⟩
      intro p hp
      simp only at hp
      split_ifs at hp with hz
      have hp' : (parent_menu s type_str).getD (inp.choice - 1).toNat 0 = p :=
        Option.some.inj hp
      rcases getD_mem_or_default (parent_menu s type_str) (inp.choice - 1).toNat 0 with hd | hm
      · exact absurd hd hz
      · rw [hp'] at hm
        exact parent_menu_root s type_str p hm

theorem edit_category_shape (q : Sql) (s : Store) (id : Int) (line : String) :
    (edit_category q s id line).store.records = s.records ∧
    (edit_category q s id line).store.accounts = s.accounts ∧
    ∃ f : Category → Category,
      (∀ c, (f c).id = c.id ∧ (f c).parent_id = c.parent_id ∧ (f c).type = c.type) ∧
      (edit_category q s id line).store.categories = s.categories.map f := by
  have hid : ∃ f : Category → Category,
      (∀ c, (f c).id = c.id ∧ (f c).parent_id = c.parent_id ∧ (f c).type = c.type) ∧
      s.categories = s.categories.map f :=
    ⟨fun c => c, fun c => ⟨rfl, rfl, rfl⟩, by simp⟩
  unfold edit_category
  by_cases h0 : id ≤ 0
  · rw [if_pos h0]; exact ⟨rfl, rfl, hid⟩
  rw [if_neg h0]
  cases hf : s.categories.find? (fun c => c.id = id) with
  | none => exact ⟨rfl, rfl, hid⟩
  | some old =>
    simp only [h0, if_false]
    split_ifs <;> first
      | exact ⟨rfl, rfl, hid⟩
      | (refine ⟨rfl, rfl, _, ?_, rfl⟩
         intro c
         split <;> exact ⟨rfl, rfl, rfl⟩)

/-- `delete_category` either leaves the store as it is or, no record referencing
`id` and the row found under `id` having no child if it is top-level, deletes the
rows of that id. -/
theorem delete_category_shape (q : Sql) (s : Store) (id : Int) (confirm : String) :
    (delete_category q s id confirm).store = s ∨
    ∃ row, s.categories.find? (fun c => c.id = id) = some row ∧
      (∀ r ∈ s.records, r.category_id ≠ id) ∧
      (row.parent_id = none → ∀ k ∈ s.categories, k.parent_id ≠ some id) ∧
      (delete_category q s id confirm).store =
        { s with categories := s.categories.filter fun c => c.id ≠ id } := by
  unfold delete_category
  by_cases h0 : id ≤ 0
  · left; simp [h0, Result.untouched]
  cases hf : s.categories.find? (fun c => c.id = id) with
  | none => left; simp [h0, Result.untouched]
  | some row =>
    simp only [h0, if_false]
    split_ifs with h1 h2 h3 h4
    · left; rfl
    · left; rfl
    · left; rfl
    · left; rfl
    · right
      refine ⟨row, rfl, ?_, ?_, rfl⟩
      · intro r hr hrid
        apply h1
        apply List.length_pos_of_mem (a := r)
        simp [List.mem_filter, hr, hrid]
      · intro hroot k hk hkp
        apply h2
        refine ⟨Or.inr (Or.inr hroot), ?_⟩
        apply List.length_pos_of_mem (a := k)
        simp [List.mem_filter, hk, hkp]

/-! ## Referential integrity -/

theorem ref_step (s t : Store) (h : RefInv s)
    (hrows : ∀ r ∈ t.records, r ∈ s.records ∨
      ((∃ a ∈ s.accounts, a.id = r.account_id) ∧ (∃ c ∈ s.categories, c.id = r.category_id)))
    (hacc : ∀ a ∈ s.accounts, (∃ r ∈ t.records, r.account_id = a.id) →
      ∃ b ∈ t.accounts, b.id = a.id)
    (hcat : ∀ c ∈ s.categories, (∃ r ∈ t.records, r.category_id = c.id) →
      ∃ d ∈ t.categories, d.id = c.id) : RefInv t := by
  intro r hr
  have hboth : (∃ a ∈ s.accounts, a.id = r.account_id) ∧
      (∃ c ∈ s.categories, c.id = r.category_id) := by
    rcases hrows r hr with h1 | h1
    · exact h r h1
    · exact h1
  obtain ⟨⟨a, ha, haid⟩, ⟨c, hc, hcid⟩⟩ := hboth
  constructor
  · obtain ⟨b, hb, hbid⟩ := hacc a ha ⟨r, hr, haid.symm⟩
    exact ⟨b, hb, hbid.trans haid⟩
  · obtain ⟨d, hd, hdid⟩ := hcat c hc ⟨r, hr, hcid.symm⟩
    exact ⟨d, hd, hdid.trans hcid⟩

theorem apply_balance_delta_has (ok : Bool) (s : Store) (account_id : Int) (delta : ℚ) :
    ∀ a ∈ s.accounts, ∃ b ∈ (apply_balance_delta ok s account_id delta).1.accounts,
      b.id = a.id := by
  intro a ha
  rw [apply_balance_delta_store]
  split
  · exact ⟨bump account_id delta a, List.mem_map_of_mem _ ha, bump_id _ _ _⟩
  · exact ⟨a, ha, rfl⟩

theorem add_record_ref (q : Sql) (s : Store) (inp : AddInput) (h : RefInv s) :
    RefInv (add_record q s inp).store := by
  rcases add_record_cases q s inp with ⟨_, hs⟩ | ⟨_, hcat, hacc, _, _, hs, _⟩
  · rw [hs]; exact h
  · rw [hs]
    apply ref_step s _ h
    · intro r hr
      rw [apply_balance_delta_records] at hr
      rcases List.mem_append.mp hr with h1 | h1
      · exact Or.inl h1
      · right
        have : r = added_row s inp := by simpa using h1
        subst this
        exact ⟨select_account_mem s _ hacc, select_category_mem s _ _ hcat⟩
    · intro a ha _
      exact apply_balance_delta_has _ _ _ _ a ha
    · intro c hc _
      rw [apply_balance_delta_categories]
      exact ⟨c, hc, rfl⟩

theorem edited_row_account (s : Store) (inp : EditInput) (orig : Record) :
    (edited_row s inp orig).account_id = orig.account_id ∨
    ∃ a ∈ s.accounts, a.id = (edited_row s inp orig).account_id := by
  unfold edited_row
  simp only
  cases inp.acc_choice with
  | none => left; rfl
  | some c =>
    simp only
    split_ifs with h1
    · right; exact select_account_mem s c h1
    · left; rfl

theorem edited_row_category (s : Store) (inp : EditInput) (orig : Record) :
    (edited_row s inp orig).category_id = orig.category_id ∨
    ∃ c ∈ s.categories, c.id = (edited_row s inp orig).category_id := by
  unfold edited_row
  simp only
  split_ifs with h1 h2 h3
  all_goals first
    | (left; rfl)
    | (right; exact select_category_mem s _ _ (by assumption))

theorem edit_record_ref (q : Sql) (s : Store) (inp : EditInput) (h : RefInv s) :
    RefInv (edit_record q s inp).store := by
  rcases edit_record_cases q s inp with ⟨_, hs⟩ | ⟨orig, _, _, hf, _, hs, _⟩
  · rw [hs]; exact h
  · rw [hs, edit_commit_store]
    have horig := h orig (find_record_mem s inp.id orig hf).1
    apply ref_step s _ h
    · intro r hr
      simp only [apply_balance_delta_records] at hr
      obtain ⟨r0, hr0, rfl⟩ := List.mem_map.mp hr
      by_cases hid : r0.id = inp.id
      · right
        simp only [hid, if_true]
        constructor
        · rcases edited_row_account s inp orig with e | e
          · obtain ⟨a, ha, haid⟩ := horig.1
            exact ⟨a, ha, by simp only [overwrite]; rw [e]; exact haid⟩
          · exact e
        · rcases edited_row_category s inp orig with e | e
          · obtain ⟨c, hc, hcid⟩ := horig.2
            exact ⟨c, hc, by simp only [overwrite]; rw [e]; exact hcid⟩
          · exact e
      · left
        simp only [hid, if_false]
        exact hr0
    · intro a ha _
      obtain ⟨b, hb, hbid⟩ := apply_balance_delta_has q.delta1_ok
        { s with records := s.records.map fun r =>
            if r.id = inp.id then overwrite (edited_row s inp orig) r else r }
        orig.account_id (if orig.type = Kind.income then -orig.amount else orig.amount) a ha
      obtain ⟨b2, hb2, hb2id⟩ := apply_balance_delta_has q.delta2_ok _
        (edited_row s inp orig).account_id
        (signed (edited_row s inp orig).type (edited_row s inp orig).amount) b hb
      exact ⟨b2, hb2, hb2id.trans hbid⟩
    · intro c hc _
      simp only [apply_balance_delta_categories]
      exact ⟨c, hc, rfl⟩

theorem delete_record_ref (q : Sql) (s : Store) (id : Int) (confirm : String) (h : RefInv s) :
    RefInv (delete_record q s id confirm).store := by
  rcases delete_record_cases q s id confirm with ⟨_, hs⟩ | ⟨row, _, _, _, _, _, _, hs, _⟩
  · rw [hs]; exact h
  · rw [hs]
    apply ref_step s _ h
    · intro r hr
      simp only [apply_balance_delta_records] at hr
      exact Or.inl (List.mem_filter.mp hr).1
    · intro a ha _
      exact apply_balance_delta_has _ _ _ _ a ha
    · intro c hc _
      simp only [apply_balance_delta_categories]
      exact ⟨c, hc, rfl⟩

theorem ref_frame (s t : Store) (h : RefInv s) (hr : t.records = s.records)
    (ha : t.accounts = s.accounts) (hc : t.categories = s.categories) : RefInv t := by
  intro r hrm
  rw [hr] at hrm
  rw [ha, hc]
  exact h r hrm

theorem run_ref (s : Store) (op : Op) (h : RefInv s) : RefInv (run s op).store := by
  cases op with
  | addRecord q inp => exact add_record_ref q s inp h
  | editRecord q inp => exact edit_record_ref q s inp h
  | deleteRecord q id confirm => exact delete_record_ref q s id confirm h
  | addMember q name =>
    have f := add_member_frame q s name
    exact ref_frame s _ h f.1 f.2.1 f.2.2
  | editMember q id new_name =>
    have f := edit_member_frame q s id new_name
    exact ref_frame s _ h f.1 f.2.1 f.2.2
  | deleteMember q id =>
    have f := delete_member_frame q s id
    exact ref_frame s _ h f.1 f.2.1 f.2.2
  | addAccount q name balance =>
    obtain ⟨hr, hc, ha⟩ := add_account_shape q s name balance
    apply ref_step s _ h
    · intro r hrm; left; simpa [run, hr] using hrm
    · intro a ha' _
      rcases ha with e | ⟨row, e⟩
      · exact ⟨a, by simpa [run, e] using ha', rfl⟩
      · exact ⟨a, by simp only [run, e]; exact List.mem_append_left _ ha', rfl⟩
    · intro c hc' _
      exact ⟨c, by simpa [run, hc] using hc', rfl⟩
  | editAccount q id new_name new_balance =>
    obtain ⟨hr, hc, ha⟩ := edit_account_shape q s id new_name new_balance
    apply ref_step s _ h
    · intro r hrm; left; simpa [run, hr] using hrm
    · intro a ha' _
      have hm : a.id ∈ (s.accounts.map fun a => a.id) := List.mem_map_of_mem _ ha'
      rw [← ha] at hm
      obtain ⟨b, hb, hbid⟩ := List.mem_map.mp hm
      exact ⟨b, hb, hbid⟩
    · intro c hc' _
      exact ⟨c, by simpa [run, hc] using hc', rfl⟩
  | deleteAccount q id confirm =>
    rcases delete_account_shape q s id confirm with e | ⟨hno, e⟩
    · simp only [run, e]; exact h
    · simp only [run, e]
      apply ref_step s _ h
      · intro r hrm; exact Or.inl hrm
      · intro a ha' ⟨r, hrm, hra⟩
        refine ⟨a, ?_, rfl⟩
        simp only [List.mem_filter, decide_eq_true_eq]
        exact ⟨ha', fun e2 => hno r hrm (hra.trans e2)⟩
      · intro c hc' _
        exact ⟨c, hc', rfl⟩
  | addCategory q inp =>
    rcases add_category_shape q s inp with e | ⟨row, e, _, _⟩
    · simp only [run, e]; exact h
    · simp only [run, e]
      apply ref_step s _ h
      · intro r hrm; exact Or.inl hrm
      · intro a ha' _; exact ⟨a, ha', rfl⟩
      · intro c hc' _; exact ⟨c, List.mem_append_left _ hc', rfl⟩
  | editCategory q id line =>
    obtain ⟨hr, ha, f, hf, hc⟩ := edit_category_shape q s id line
    apply ref_step s _ h
    · intro r hrm; left; simpa [run, hr] using hrm
    · intro a ha' _
      exact ⟨a, by simpa [run, ha] using ha', rfl⟩
    · intro c hc' _
      refine ⟨f c, ?_, (hf c).1⟩
      simp only [run, hc]
      exact List.mem_map_of_mem _ hc'
  | deleteCategory q id confirm =>
    rcases delete_category_shape q s id confirm with e | ⟨row, _, hno, _, e⟩
    · simp only [run, e]; exact h
    · simp only [run, e]
      apply ref_step s _ h
      · intro r hrm; exact Or.inl hrm
      · intro a ha' _; exact ⟨a, ha', rfl⟩
      · intro c hc' ⟨r, hrm, hrc⟩
        refine ⟨c, ?_, rfl⟩
        simp only [List.mem_filter, decide_eq_true_eq]
        exact ⟨hc', fun e2 => hno r hrm (hrc.trans e2)⟩

theorem run_all_ref (ops : List Op) (s : Store) (h : RefInv s) : RefInv (run_all s ops) := by
  induction ops generalizing s with
  | nil => exact h
  | cons op ops ih =>
    rw [run_all_cons]
    exact ih _ (run_ref s op h)

/-- C6 (referential integrity): in every state reached from the empty store by any
sequence of the menu actions (add, edit, delete of records, accounts, categories
and members, whatever their inputs and whichever of their writes fail), every
record's `account_id` is the id of an account in the accounts table and its
`category_id` is the id of a category in the categories table. -/
theorem referential_integrity (ops : List Op) :
    ∀ r ∈ (run_all Store.empty ops).records,
      (∃ a ∈ (run_all Store.empty ops).accounts, a.id = r.account_id) ∧
      (∃ c ∈ (run_all Store.empty ops).categories, c.id = r.category_id) :=
  run_all_ref ops Store.empty (fun r hr => by simp [Store.empty] at hr)

theorem referential_integrity_witness :
    (∃ a ∈ (run_all Store.empty demo_setup).accounts, a.id = 1) ∧
    (∃ c ∈ (run_all Store.empty demo_setup).categories, c.id = 2) :=
  referential_integrity demo_setup
    { id := 1, amount := 1000, type := Kind.income, category_id := 2, account_id := 1,
      member_id := 1, remark := none, date := "2025-01-01",
      created_at := "2025-01-01 09:00:00", updated_at := "2025-01-01 09:00:00" }
    (by decide!)

/-! ## Category hierarchy -/

theorem depth_frame (s t : Store) (hc : t.categories = s.categories)
    (h : (s.categories.map fun c => c.id).Nodup ∧ DepthInv s) :
    (t.categories.map fun c => c.id).Nodup ∧ DepthInv t := by
  unfold DepthInv at h ⊢
  rw [hc]; exact h

theorem add_category_depth (q : Sql) (s : Store) (inp : CategoryInput)
    (h : (s.categories.map fun c => c.id).Nodup ∧ DepthInv s) :
    ((add_category q s inp).store.categories.map fun c => c.id).Nodup ∧
      DepthInv (add_category q s inp).store := by
  rcases add_category_shape q s inp with e | ⟨row, e, hid, hpar⟩
  · rw [e]; exact h
  · rw [e]
    constructor
    · simp only [List.map_append, List.map_cons, List.map_nil]
      apply List.Nodup.append h.1 (List.nodup_singleton _)
      intro i hi hi'
      have h1 := next_rowid_gt s.seq_categories _ i hi
      have h2 : i = row.id := by simpa using hi'
      rw [hid] at h2
      omega
    · intro c hc p hp
      rcases List.mem_append.mp hc with h1 | h1
      · obtain ⟨k, hk, hkid, hkp⟩ := h.2 c h1 p hp
        exact ⟨k, List.mem_append_left _ hk, hkid, hkp⟩
      · have : c = row := by simpa using h1
        subst this
        obtain ⟨k, hk, hkid, hkp, _⟩ := hpar p hp
        exact ⟨k, List.mem_append_left _ hk, hkid, hkp⟩

theorem edit_category_depth (q : Sql) (s : Store) (id : Int) (line : String)
    (h : (s.categories.map fun c => c.id).Nodup ∧ DepthInv s) :
    ((edit_category q s id line).store.categories.map fun c => c.id).Nodup ∧
      DepthInv (edit_category q s id line).store := by
  obtain ⟨_, _, f, hf, hc⟩ := edit_category_shape q s id line
  constructor
  · rw [hc, List.map_map]
    have : (s.categories.map ((fun c => c.id) ∘ f)) = s.categories.map fun c => c.id := by
      apply List.map_congr_left
      intro c _
      exact (hf c).1
    rw [this]; exact h.1
  · intro c hcm p hp
    rw [hc] at hcm
    obtain ⟨c0, hc0, rfl⟩ := List.mem_map.mp hcm
    rw [(hf c0).2.1] at hp
    obtain ⟨k, hk, hkid, hkp⟩ := h.2 c0 hc0 p hp
    refine ⟨f k, ?_, (hf k).1.trans hkid, (hf k).2.1.trans hkp⟩
    rw [hc]; exact List.mem_map_of_mem _ hk

theorem delete_category_depth (q : Sql) (s : Store) (id : Int) (confirm : String)
    (h : (s.categories.map fun c => c.id).Nodup ∧ DepthInv s) :
    ((delete_category q s id confirm).store.categories.map fun c => c.id).Nodup ∧
      DepthInv (delete_category q s id confirm).store := by
  rcases delete_category_shape q s id confirm with e | ⟨row, hfind, _, hkids, e⟩
  · rw [e]; exact h
  · rw [e]
    constructor
    · exact h.1.sublist (List.Sublist.map _ (List.filter_sublist _))
    · intro c hc p hp
      have hc' := List.mem_filter.mp hc
      obtain ⟨k, hk, hkid, hkp⟩ := h.2 c hc'.1 p hp
      refine ⟨k, ?_, hkid, hkp⟩
      simp only [List.mem_filter, decide_eq_true_eq]
      refine ⟨hk, ?_⟩
      intro hkd
      have hrow : row = k := by
        have := find_unique (fun x : Category => x.id) s.categories k id h.1 hk hkd
        rw [hfind] at this
        exact Option.some.inj this
      have := hkids (by rw [hrow]; exact hkp) c hc'.1
      apply this
      rw [hp, ← hkd, hkid]

theorem run_depth (s : Store) (op : Op)
    (h : (s.categories.map fun c => c.id).Nodup ∧ DepthInv s) :
    ((run s op).store.categories.map fun c => c.id).Nodup ∧ DepthInv (run s op).store := by
  cases op with
  | addRecord q inp =>
    apply depth_frame s _ _ h
    rcases add_record_cases q s inp with ⟨_, hs⟩ | ⟨_, _, _, _, _, hs, _⟩
    · simp only [run, hs]
    · simp only [run, hs, apply_balance_delta_categories]
  | editRecord q inp =>
    apply depth_frame s _ _ h
    rcases edit_record_cases q s inp with ⟨_, hs⟩ | ⟨orig, _, _, _, _, hs, _⟩
    · simp only [run, hs]
    · simp only [run, hs, edit_commit_store, apply_balance_delta_categories]
  | deleteRecord q id confirm =>
    apply depth_frame s _ _ h
    rcases delete_record_cases q s id confirm with ⟨_, hs⟩ | ⟨row, _, _, _, _, _, _, hs, _⟩
    · simp only [run, hs]
    · simp only [run, hs, apply_balance_delta_categories]
  | addMember q name => exact depth_frame s _ (add_member_frame q s name).2.2 h
  | editMember q id new_name => exact depth_frame s _ (edit_member_frame q s id new_name).2.2 h
  | deleteMember q id => exact depth_frame s _ (delete_member_frame q s id).2.2 h
  | addAccount q name balance => exact depth_frame s _ (add_account_shape q s name balance).2.1 h
  | editAccount q id new_name new_balance =>
    exact depth_frame s _ (edit_account_shape q s id new_name new_balance).2.1 h
  | deleteAccount q id confirm =>
    apply depth_frame s _ _ h
    rcases delete_account_shape q s id confirm with e | ⟨_, e⟩
    · simp only [run, e]
    · simp only [run, e]
  | addCategory q inp => exact add_category_depth q s inp h
  | editCategory q id line => exact edit_category_depth q s id line h
  | deleteCategory q id confirm => exact delete_category_depth q s id confirm h

theorem run_all_depth (ops : List Op) (s : Store)
    (h : (s.categories.map fun c => c.id).Nodup ∧ DepthInv s) :
    (((run_all s ops).categories.map fun c => c.id).Nodup) ∧ DepthInv (run_all s ops) := by
  induction ops generalizing s with
  | nil => exact h
  | cons op ops ih =>
    rw [run_all_cons]
    exact ih _ (run_depth s op h)

/-- C10 (category depth): in every state reached from a store with an empty
categories table by any sequence of menu actions (`add_category`, `edit_category`,
`delete_category`, and the record, account and member actions, whatever their
inputs and whichever of their writes fail), every category that has a parent has
a parent that is in the table and has no parent itself. And in any store, a row
that `add_category` inserts with a parent has for parent the id of a category
without parent: a child is never designated as parent. -/
theorem category_depth (s0 : Store) (h0 : s0.categories = []) (ops : List Op) :
    (∀ c ∈ (run_all s0 ops).categories, ∀ p, c.parent_id = some p →
      ∃ k ∈ (run_all s0 ops).categories, k.id = p ∧ k.parent_id = none) ∧
    (∀ (q : Sql) (s : Store) (inp : CategoryInput),
      ∀ c ∈ (add_category q s inp).store.categories, c ∉ s.categories →
        ∀ p, c.parent_id = some p → ∃ k ∈ s.categories, k.id = p ∧ k.parent_id = none) := by
  constructor
  · have hinit : (s0.categories.map fun c => c.id).Nodup ∧ DepthInv s0 := by
      unfold DepthInv
      rw [h0]
      exact ⟨List.nodup_nil, fun c hc => by simp at hc⟩
    exact (run_all_depth ops s0 hinit).2
  · intro q s inp c hc hnew p hp
    rcases add_category_shape q s inp with e | ⟨row, e, _, hpar⟩
    · rw [e] at hc; exact absurd hc hnew
    · rw [e] at hc
      rcases List.mem_append.mp hc with h1 | h1
      · exact absurd h1 hnew
      · have : c = row := by simpa using h1
        subst this
        obtain ⟨k, hk, hkid, hkp, _⟩ := hpar p hp
        exact ⟨k, hk, hkid, hkp⟩

theorem category_depth_witness :
    ∃ k ∈ (run_all Store.empty demo_setup).categories, k.id = 1 ∧ k.parent_id = none :=
  (category_depth Store.empty rfl demo_setup).1
    { id := 2, name := "Bonus", parent_id := some 1, type := Kind.income } (by decide!) 1 rfl

/-! ## Amounts -/

theorem edited_row_amount (s : Store) (inp : EditInput) (orig : Record) :
    (edited_row s inp orig).amount = orig.amount ∨
    ∃ v, inp.amount = some v ∧ inp.amount_rest = "" ∧ 0 < v ∧
      (edited_row s inp orig).amount = v := by
  unfold edited_row
  simp only
  cases hv : inp.amount with
  | none => left; rfl
  | some v =>
    simp only
    by_cases h : amount_accepted inp.amount_rest v
    · right
      exact ⟨v, rfl, h.1, h.2, by simp only [h, if_true]⟩
    · left
      simp only [h, if_false]

theorem add_record_amount (q : Sql) (s : Store) (inp : AddInput) (h : AmountInv s) :
    AmountInv (add_record q s inp).store := by
  rcases add_record_cases q s inp with ⟨_, hs⟩ | ⟨_, _, _, hpos, _, hs, _⟩
  · rw [hs]; exact h
  · rw [hs]
    intro r hr
    rw [apply_balance_delta_records] at hr
    rcases List.mem_append.mp hr with h1 | h1
    · exact h r h1
    · have : r = added_row s inp := by simpa using h1
      rw [this]
      exact hpos

theorem edit_record_amount (q : Sql) (s : Store) (inp : EditInput) (h : AmountInv s) :
    AmountInv (edit_record q s inp).store := by
  rcases edit_record_cases q s inp with ⟨_, hs⟩ | ⟨orig, _, _, hf, _, hs, _⟩
  · rw [hs]; exact h
  · rw [hs, edit_commit_store]
    intro r hr
    simp only [apply_balance_delta_records] at hr
    obtain ⟨r0, hr0, rfl⟩ := List.mem_map.mp hr
    by_cases hid : r0.id = inp.id
    · simp only [hid, if_true]
      show 0 < (edited_row s inp orig).amount
      rcases edited_row_amount s inp orig with e | ⟨v, _, _, hv, e⟩
      · rw [e]; exact h orig (find_record_mem s inp.id orig hf).1
      · rw [e]; exact hv
    · simp only [hid, if_false]
      exact h r0 hr0

theorem delete_record_amount (q : Sql) (s : Store) (id : Int) (confirm : String)
    (h : AmountInv s) : AmountInv (delete_record q s id confirm).store := by
  rcases delete_record_cases q s id confirm with ⟨_, hs⟩ | ⟨row, _, _, _, _, _, _, hs, _⟩
  · rw [hs]; exact h
  · rw [hs]
    intro r hr
    simp only [apply_balance_delta_records] at hr
    exact h r (List.mem_filter.mp hr).1

theorem amount_frame (s t : Store) (h : AmountInv s) (hr : t.records = s.records) :
    AmountInv t := by
  intro r hrm
  rw [hr] at hrm
  exact h r hrm

theorem run_records_frame (s : Store) (op : Op) (h : op.isRecordOp = false) :
    (run s op).store.records = s.records := by
  cases op with
  | addRecord q inp => simp [Op.isRecordOp] at h
  | editRecord q inp => simp [Op.isRecordOp] at h
  | deleteRecord q id confirm => simp [Op.isRecordOp] at h
  | addMember q name => exact (add_member_frame q s name).1
  | editMember q id new_name => exact (edit_member_frame q s id new_name).1
  | deleteMember q id => exact (delete_member_frame q s id).1
  | addAccount q name balance => exact (add_account_shape q s name balance).1
  | editAccount q id new_name new_balance =>
    exact (edit_account_shape q s id new_name new_balance).1
  | deleteAccount q id confirm =>
    rcases delete_account_shape q s id confirm with e | ⟨_, e⟩
    · simp only [run, e]
    · simp only [run, e]
  | addCategory q inp =>
    rcases add_category_shape q s inp with e | ⟨row, e, _, _⟩
    · simp only [run, e]
    · simp only [run, e]
  | editCategory q id line => exact (edit_category_shape q s id line).1
  | deleteCategory q id confirm =>
    rcases delete_category_shape q s id confirm with e | ⟨row, _, _, _, e⟩
    · simp only [run, e]
    · simp only [run, e]

theorem run_amount (s : Store) (op : Op) (h : AmountInv s) : AmountInv (run s op).store := by
  by_cases hop : op.isRecordOp = true
  · cases op with
    | addRecord q inp => exact add_record_amount q s inp h
    | editRecord q inp => exact edit_record_amount q s inp h
    | deleteRecord q id confirm => exact delete_record_amount q s id confirm h
    | _ => simp [Op.isRecordOp] at hop
  · exact amount_frame s _ h (run_records_frame s op (by simpa using hop))

theorem run_all_amount (ops : List Op) (s : Store) (h : AmountInv s) :
    AmountInv (run_all s ops) := by
  induction ops generalizing s with
  | nil => exact h
  | cons op ops ih =>
    rw [run_all_cons]
    exact ih _ (run_amount s op h)

/-- C13 (amounts are positive). (1) `add_record` commits only when the entry at the
amount prompt was parsed to its end by `strtod` and its value is strictly positive;
the committed row carries that value. (2) `edit_record` writes back either the old
amount or an entry parsed to its end whose value is strictly positive. (3) In every
state reached from the empty store by any sequence of menu actions, every record's
amount is strictly positive. -/
theorem amounts_positive (ops : List Op) :
    (∀ (q : Sql) (s : Store) (inp : AddInput), (add_record q s inp).committed = true →
      inp.amount_rest = "" ∧ 0 < inp.amount ∧ (added_row s inp).amount = inp.amount ∧
      added_row s inp ∈ (add_record q s inp).store.records) ∧
    (∀ (s : Store) (inp : EditInput) (orig : Record),
      (edited_row s inp orig).amount = orig.amount ∨
      ∃ v, inp.amount = some v ∧ inp.amount_rest = "" ∧ 0 < v ∧
        (edited_row s inp orig).amount = v) ∧
    (∀ r ∈ (run_all Store.empty ops).records, 0 < r.amount) := by
  refine ⟨?_, edited_row_amount, ?_⟩
  · intro q s inp hc
    have hrec := (add_record_row_mem q s inp hc).1
    rw [add_record_eq] at hc
    by_cases h1 : select_category s inp.type_str inp.cat_choice = -1
    · simp [h1, Result.untouched] at hc
    by_cases h2 : select_account s inp.acc_choice = -1
    · simp [h1, h2, Result.untouched] at hc
    by_cases h3 : amount_accepted inp.amount_rest inp.amount
    · refine ⟨h3.1, h3.2, rfl, ?_⟩
      rw [hrec]; simp
    · simp [h1, h2, h3, Result.untouched] at hc
  · exact run_all_amount ops Store.empty (fun r hr => by simp [Store.empty] at hr)

theorem amounts_positive_witness :
    ("" = "" ∧ (0 : ℚ) < 1000 ∧ (added_row demo demo_add).amount = 1000 ∧
      added_row demo demo_add ∈ (add_record Sql.ok demo demo_add).store.records) ∧
    (0 : ℚ) < 1000 :=
  ⟨(amounts_positive demo_setup).1 Sql.ok demo demo_add (by decide!),
   (amounts_positive demo_setup).2.2
    { id := 1, amount := 1000, type := Kind.income, category_id := 2, account_id := 1,
      member_id := 1, remark := none, date := "2025-01-01",
      created_at := "2025-01-01 09:00:00", updated_at := "2025-01-01 09:00:00" }
    (by decide!)⟩

/-! ## Failure of the row statement, failure of a balance statement -/

theorem add_record_row_fails (q : Sql) (s : Store) (inp : AddInput) (hq : q.row_ok = false) :
    (add_record q s inp).committed = false ∧ (add_record q s inp).store = s := by
  rcases add_record_cases q s inp with h | ⟨_, _, _, _, hrow, _, _⟩
  · exact h
  · rw [hq] at hrow; cases hrow

theorem edit_record_row_fails (q : Sql) (s : Store) (inp : EditInput) (hq : q.row_ok = false) :
    (edit_record q s inp).committed = false ∧ (edit_record q s inp).store = s := by
  rcases edit_record_cases q s inp with h | ⟨_, _, _, _, hrow, _, _⟩
  · exact h
  · rw [hq] at hrow; cases hrow

theorem delete_record_row_fails (q : Sql) (s : Store) (id : Int) (confirm : String)
    (hq : q.row_ok = false) :
    (delete_record q s id confirm).committed = false ∧
    (delete_record q s id confirm).store = s := by
  rcases delete_record_cases q s id confirm with h | ⟨_, _, _, _, _, _, hrow, _, _⟩
  · exact h
  · rw [hq] at hrow; cases hrow

theorem not_committed_untouched (q : Sql) (s : Store) :
    (∀ inp, (add_record q s inp).committed = false → (add_record q s inp).store = s) ∧
    (∀ inp, (edit_record q s inp).committed = false → (edit_record q s inp).store = s) ∧
    (∀ id confirm, (delete_record q s id confirm).committed = false →
      (delete_record q s id confirm).store = s) := by
  refine ⟨?_, ?_, ?_⟩
  · intro inp h
    rcases add_record_cases q s inp with h1 | h1
    · exact h1.2
    · rw [h1.1] at h; cases h
  · intro inp h
    rcases edit_record_cases q s inp with h1 | ⟨_, h1, _⟩
    · exact h1.2
    · rw [h1] at h; cases h
  · intro id confirm h
    rcases delete_record_cases q s id confirm with h1 | ⟨_, h1, _⟩
    · exact h1.2
    · rw [h1] at h; cases h

/-- C14 (atomicity on row-write failure). When the `INSERT` of `add_record`, the
`UPDATE` of `edit_record` or the `DELETE` of `delete_record` fails, the operation
does not commit and the store is exactly the store it started from, whatever the
balance statements did: no record added, changed or removed, no balance changed.
The same holds when no record has the id typed (the statement would match no row),
and, for all three, whenever the operation does not commit. -/
theorem row_failure_atomic (q : Sql) (s : Store) :
    (q.row_ok = false →
      (∀ inp, (add_record q s inp).committed = false ∧ (add_record q s inp).store = s) ∧
      (∀ inp, (edit_record q s inp).committed = false ∧ (edit_record q s inp).store = s) ∧
      (∀ id confirm, (delete_record q s id confirm).committed = false ∧
        (delete_record q s id confirm).store = s)) ∧
    (∀ inp, find_record s inp.id = none →
      (edit_record q s inp).committed = false ∧ (edit_record q s inp).store = s) ∧
    (∀ id confirm, find_record s id = none →
      (delete_record q s id confirm).committed = false ∧
      (delete_record q s id confirm).store = s) ∧
    (∀ inp, (add_record q s inp).committed = false → (add_record q s inp).store = s) ∧
    (∀ inp, (edit_record q s inp).committed = false → (edit_record q s inp).store = s) ∧
    (∀ id confirm, (delete_record q s id confirm).committed = false →
      (delete_record q s id confirm).store = s) := by
  refine ⟨?_, ?_, ?_, not_committed_untouched q s⟩
  · intro hq
    exact ⟨fun inp => add_record_row_fails q s inp hq,
      fun inp => edit_record_row_fails q s inp hq,
      fun id confirm => delete_record_row_fails q s id confirm hq⟩
  · intro inp hf
    rcases edit_record_cases q s inp with h | ⟨orig, _, _, hf', _⟩
    · exact h
    · rw [hf] at hf'; cases hf'
  · intro id confirm hf
    rcases delete_record_cases q s id confirm with h | ⟨row, _, _, hf', _⟩
    · exact h
    · rw [hf] at hf'; cases hf'

theorem row_failure_atomic_witness :
    ((add_record Sql.row_fails demo_ledger demo_add_food).committed = false ∧
      (add_record Sql.row_fails demo_ledger demo_add_food).store = demo_ledger) ∧
    ((edit_record Sql.row_fails demo_ledger demo_edit_amount).committed = false ∧
      (edit_record Sql.row_fails demo_ledger demo_edit_amount).store = demo_ledger) ∧
    ((delete_record Sql.row_fails demo_ledger 1 "y").committed = false ∧
      (delete_record Sql.row_fails demo_ledger 1 "y").store = demo_ledger) ∧
    ((delete_record Sql.ok demo_ledger 9 "y").committed = false ∧
      (delete_record Sql.ok demo_ledger 9 "y").store = demo_ledger) :=
  ⟨((row_failure_atomic Sql.row_fails demo_ledger).1 rfl).1 demo_add_food,
   ((row_failure_atomic Sql.row_fails demo_ledger).1 rfl).2.1 demo_edit_amount,
   ((row_failure_atomic Sql.row_fails demo_ledger).1 rfl).2.2 1 "y",
   (row_failure_atomic Sql.ok demo_ledger).2.2.1 9 "y" (by decide!)⟩

theorem add_record_proceeds (q : Sql) (s : Store) (inp : AddInput)
    (hcat : select_category s inp.type_str inp.cat_choice ≠ -1)
    (hacc : select_account s inp.acc_choice ≠ -1)
    (hamt : amount_accepted inp.amount_rest inp.amount) (hq : q.row_ok = true) :
    (add_record q s inp).committed = true := by
  rw [add_record_eq]
  simp [hcat, hacc, hamt, hq]

theorem delete_record_proceeds (q : Sql) (s : Store) (id : Int) (confirm : String)
    (row : Record) (hid : id ≠ 0) (hf : find_record s id = some row)
    (hc : confirmed confirm = true) (hpos : 0 < row.account_id) (hq : q.row_ok = true) :
    (delete_record q s id confirm).committed = true := by
  unfold delete_record
  have : ¬ row.account_id ≤ 0 := not_le.mpr hpos
  simp [hid, hf, hc, this, hq]

/-- C11 (kind matches the category's kind) fails on `edit_record`: from the empty
store, after an income category and an income record under it are added, an edit
that types `expense` and selects no category (the menu of expense categories is
empty, or the number typed is not in it) commits the record with type expense and
the income category it had. The run uses `add_category`, `add_record` and
`edit_record` only, apart from the account the record needs. -/
theorem kind_mismatch_after_edit :
    ((run_all Store.empty demo_kind_session).records.map
      fun r => (r.id, r.type, r.category_id)) = [(1, Kind.expense, 1)] ∧
    ((run_all Store.empty demo_kind_session).categories.map
      fun c => (c.id, c.type)) = [(1, Kind.income)] ∧
    (run (run_all Store.empty (demo_kind_session.take 3)) (Op.editRecord Sql.ok demo_edit_kind)).committed
      = true ∧
    (run (run_all Store.empty (demo_kind_session.take 3)) (Op.editRecord Sql.ok demo_edit_kind)).msgs
      = [Msg.edit_synced] ∧
    ∃ r ∈ (run_all Store.empty demo_kind_session).records,
      ∃ c ∈ (run_all Store.empty demo_kind_session).categories,
        c.id = r.category_id ∧ c.type ≠ r.type := by
  decide!

/-! ## Members of records -/

/-- C12 (the member of a record exists) fails: from the empty store, in a session
that never adds a member, `add_record` with the member selection skipped commits a
record with `member_id` 1, and `add_record` with 7 typed at the member prompt commits
a record with `member_id` 7; the members table is empty. `edit_record` takes the
member the same way. -/
theorem member_not_checked :
    (run_all Store.empty demo_member_session).members = [] ∧
    ((run_all Store.empty demo_member_session).records.map
      fun r => (r.id, r.member_id)) = [(1, 1), (2, 7)] ∧
    (∀ r ∈ (run_all Store.empty demo_member_session).records,
      ¬ ∃ m ∈ (run_all Store.empty demo_member_session).members, m.id = r.member_id) ∧
    (edited_row demo_ledger { demo_edit_amount with mem_choice := some 7 }
      (added_row demo demo_add)).member_id = 7 ∧
    (edited_row Store.empty { demo_edit_amount with mem_choice := some 0 }
      (added_row demo demo_add)).member_id = 1 := by
  decide!

/-! ## What the runs report -/

/-- C16 (no partial report of success) fails on `delete_record`: with the balance
reversal failing and the `DELETE` completing, the run commits, the record is gone,
the balance is what it was, and after the warning the run prints the line that says
the record is deleted and the account balance updated with it. `add_record` in the
same situation prints its warning and then its record-added line; `edit_record`
prints its in-step line only when both balance statements completed. -/
theorem delete_reports_sync_after_failed_reversal :
    (delete_record Sql.reversal_fails demo_ledger 1 "y").committed = true ∧
    (delete_record Sql.reversal_fails demo_ledger 1 "y").balance_ok = false ∧
    (delete_record Sql.reversal_fails demo_ledger 1 "y").msgs =
      [Msg.balance_warning, Msg.delete_success] ∧
    Msg.delete_success.reports_balance_synced = true ∧
    (delete_record Sql.reversal_fails demo_ledger 1 "y").store.records = [] ∧
    balance_of demo_ledger 1 = some 1000 ∧
    balance_of (delete_record Sql.reversal_fails demo_ledger 1 "y").store 1 = some 1000 ∧
    (add_record Sql.reversal_fails demo demo_add).msgs =
      [Msg.balance_warning, Msg.add_success] ∧
    (edit_record Sql.reversal_fails demo_ledger demo_edit_amount).msgs =
      [Msg.undo_old_warning, Msg.edit_inconsistent] := by
  decide!

theorem edit_synced_iff (q : Sql) (s : Store) (inp : EditInput) :
    Msg.edit_synced ∈ (edit_record q s inp).msgs ↔
      (edit_record q s inp).committed = true ∧ (edit_record q s inp).balance_ok = true := by
  unfold edit_record
  by_cases h0 : inp.id = 0
  · simp [h0, Result.untouched]
  cases hf : find_record s inp.id with
  | none => simp [h0, Result.untouched]
  | some orig =>
    by_cases h4 : q.row_ok = false
    · simp [h0, h4, Result.untouched]
    · have h5 : q.row_ok = true := by simpa using h4
      simp only [h0, h5, if_false, Bool.true_eq_false]
      generalize (apply_balance_delta q.delta1_ok _ orig.account_id _) = r1
      generalize (apply_balance_delta q.delta2_ok r1.1 _ _) = r2
      cases h1 : r1.2 <;> cases h2 : r2.2 <;> simp

theorem delete_success_iff (q : Sql) (s : Store) (id : Int) (confirm : String) :
    Msg.delete_success ∈ (delete_record q s id confirm).msgs ↔
      (delete_record q s id confirm).committed = true := by
  unfold delete_record
  by_cases h0 : id = 0
  · simp [h0, Result.untouched]
  cases hf : find_record s id with
  | none => simp [h0, Result.untouched]
  | some row =>
    by_cases hc : confirmed confirm = false
    · simp [h0, hc, Result.untouched]
    by_cases ha : row.account_id ≤ 0
    · simp [h0, hc, ha, Result.untouched]
    by_cases h4 : q.row_ok = false
    · simp only [h0, hc, ha, h4, if_false, if_true]
      generalize (apply_balance_delta q.delta1_ok s row.account_id _) = r
      cases h1 : r.2 <;> simp
    · have h5 : q.row_ok = true := by simpa using h4
      simp only [h0, hc, ha, h5, if_false, Bool.true_eq_false]
      generalize (apply_balance_delta q.delta1_ok s row.account_id _) = r
      cases h1 : r.2 <;> simp

/-! ## Blank edit -/

/-- With every prompt left blank and no category selected, the row `edit_record`
writes back has the loaded id, date, kind, category, account, member, amount and
creation time, the new update time, and for remark what is read through
`orig_remark`. -/
theorem blank_edit_row (s : Store) (inp : EditInput) (orig : Record)
    (hd : inp.date = none) (ht : inp.type_input = "")
    (hc : select_category s orig.type inp.cat_choice = -1)
    (ha : inp.acc_choice = none) (hm : inp.mem_choice = none) (hamt : inp.amount = none)
    (hr : inp.remark = "") :
    edited_row s inp orig =
      { orig with
        updated_at := inp.now,
        remark := match orig.remark, inp.released_remark with
          | none, _ => none
          | some t, none => some t
          | some _, some g => remark_column (g.take 99) } := by
  unfold edited_row
  simp [hd, ht, hc, ha, hm, hamt, hr]

/-- With every prompt left blank, no category selected and all writes completing,
`edit_record` on a record of an account with a positive id leaves the accounts table
as it is: the two deltas cancel. -/
theorem blank_edit_accounts (q : Sql) (s : Store) (inp : EditInput) (orig : Record)
    (hq : q.row_ok = true ∧ q.delta1_ok = true ∧ q.delta2_ok = true)
    (hid : inp.id ≠ 0) (hfind : find_record s inp.id = some orig)
    (hpos : 0 < orig.account_id)
    (hd : inp.date = none) (ht : inp.type_input = "")
    (hc : select_category s orig.type inp.cat_choice = -1)
    (ha : inp.acc_choice = none) (hm : inp.mem_choice = none) (hamt : inp.amount = none)
    (hr : inp.remark = "") :
    (edit_record q s inp).store.accounts = s.accounts := by
  have hrow := blank_edit_row s inp orig hd ht hc ha hm hamt hr
  have hacc : (edited_row s inp orig).account_id = orig.account_id := by rw [hrow]
  have hty : (edited_row s inp orig).type = orig.type := by rw [hrow]
  have ham : (edited_row s inp orig).amount = orig.amount := by rw [hrow]
  rw [(edit_record_found q s inp orig hid hfind hq.1).2, edit_commit_store, hq.2.1, hq.2.2,
    hacc, hty, ham, apply_balance_delta_accounts _ _ _ hpos,
    apply_balance_delta_accounts _ _ _ hpos, old_delta_eq]
  have := bump_cancel orig.account_id (-signed orig.type orig.amount) s.accounts
  rw [neg_neg] at this
  exact this

/-- C17 (blank input keeps the current value) fails for the remark: `edit_record`
reads the old remark through `orig_remark` after `sqlite3_finalize(load_stmt)`. On
record 1 of `demo_food_ledger` (remark `lunch`), with every prompt left blank and
the released buffer starting with a zero byte, the run commits and writes back the
same date, kind, category, account, member and amount, the new update time, and a
`NULL` remark; the accounts table is unchanged. When the buffer still holds the text
the remark is written back as it was. -/
theorem blank_edit_loses_remark :
    find_record demo_food_ledger 1 =
      some { id := 1, amount := 25, type := Kind.expense, category_id := 3, account_id := 1,
             member_id := 1, remark := some "lunch", date := "2025-01-03",
             created_at := "2025-01-03 13:00:00", updated_at := "2025-01-03 13:00:00" } ∧
    (edit_record Sql.ok demo_food_ledger demo_edit_blank).committed = true ∧
    (edit_record Sql.ok demo_food_ledger demo_edit_blank).store.records =
      [{ id := 1, amount := 25, type := Kind.expense, category_id := 3, account_id := 1,
         member_id := 1, remark := none, date := "2025-01-03",
         created_at := "2025-01-03 13:00:00", updated_at := "2025-01-04 10:00:00" }] ∧
    (edit_record Sql.ok demo_food_ledger demo_edit_blank).store.accounts =
      demo_food_ledger.accounts ∧
    (edit_record Sql.ok demo_food_ledger
        { demo_edit_blank with released_remark := none }).store.records =
      [{ id := 1, amount := 25, type := Kind.expense, category_id := 3, account_id := 1,
         member_id := 1, remark := some "lunch", date := "2025-01-03",
         created_at := "2025-01-03 13:00:00", updated_at := "2025-01-04 10:00:00" }] := by
  decide!

/-! ## Frame of `edit_record` -/

theorem apply_balance_delta_other (ok : Bool) (s : Store) (account_id : Int) (delta : ℚ)
    (id : Int) (h : id ≠ account_id) :
    balance_of (apply_balance_delta ok s account_id delta).1 id = balance_of s id := by
  rw [apply_balance_delta_store]
  split
  · rw [balance_of_bump s _ account_id delta id rfl]
    cases balance_of s id <;> simp [h]
  · rfl

theorem apply_balance_delta_names (ok : Bool) (s : Store) (account_id : Int) (delta : ℚ) :
    ((apply_balance_delta ok s account_id delta).1.accounts.map fun a => (a.id, a.name)) =
      (s.accounts.map fun a => (a.id, a.name)) := by
  rw [apply_balance_delta_store]
  split
  · simp only [List.map_map]
    apply List.map_congr_left
    intro a _
    simp [bump_id, bump_name]
  · rfl

/-- C18 (frame of `edit_record`). After any run of `edit_record`, whatever its input
and whichever of its writes fail: the records table is the old one with each row
replaced by a row of the same id and creation time, rows whose id is not the one
typed being replaced by themselves; an account whose balance differs from before is
the account of the loaded record or the account written back; account ids and names,
categories and members are unchanged. -/
theorem edit_record_frame (q : Sql) (s : Store) (inp : EditInput) :
    (∃ f : Record → Record,
      (∀ r, (f r).id = r.id ∧ (f r).created_at = r.created_at ∧ (r.id ≠ inp.id → f r = r)) ∧
      (edit_record q s inp).store.records = s.records.map f) ∧
    (∀ id, balance_of (edit_record q s inp).store id ≠ balance_of s id →
      ∃ orig, find_record s inp.id = some orig ∧
        (id = orig.account_id ∨ id = (edited_row s inp orig).account_id)) ∧
    ((edit_record q s inp).store.accounts.map fun a => (a.id, a.name)) =
      (s.accounts.map fun a => (a.id, a.name)) ∧
    (edit_record q s inp).store.categories = s.categories ∧
    (edit_record q s inp).store.members = s.members := by
  rcases edit_record_cases q s inp with ⟨_, hs⟩ | ⟨orig, _, _, hf, _, hs, _⟩
  · rw [hs]
    refine ⟨⟨fun r => r, fun r => ⟨rfl, rfl, fun _ => rfl⟩, by simp⟩, ?_, rfl, rfl, rfl⟩
    intro id hne
    exact absurd rfl hne
  · rw [hs, edit_commit_store]
    refine ⟨⟨fun r => if r.id = inp.id then overwrite (edited_row s inp orig) r else r,
      ?_, ?_⟩, ?_, ?_, ?_, ?_⟩
    · intro r
      by_cases h : r.id = inp.id
      · simp only [h, if_true, overwrite_id]
        exact ⟨trivial, rfl, fun hne => absurd rfl hne⟩
      · simp only [h, if_false]
        exact ⟨trivial, trivial, fun _ => trivial⟩
    · simp only [apply_balance_delta_records]
    · intro id hne
      refine ⟨orig, hf, ?_⟩
      by_contra hcon
      push_neg at hcon
      apply hne
      rw [apply_balance_delta_other _ _ _ _ id hcon.2,
        apply_balance_delta_other _ _ _ _ id hcon.1]
      rfl
    · rw [apply_balance_delta_names, apply_balance_delta_names]
    · simp only [apply_balance_delta_categories]
    · simp only [apply_balance_delta_members]

theorem edit_record_frame_witness :
    ∃ orig, find_record demo_ledger demo_edit_account.id = some orig ∧
      ((2 : Int) = orig.account_id ∨
        (2 : Int) = (edited_row demo_ledger demo_edit_account orig).account_id) :=
  (edit_record_frame Sql.ok demo_ledger demo_edit_account).2.1 2 (by decide!)

/-! ## Who writes balances -/

theorem balance_of_congr (s t : Store)
    (h : (t.accounts.map fun a => (a.id, a.balance)) =
      (s.accounts.map fun a => (a.id, a.balance))) (id : Int) :
    balance_of t id = balance_of s id := by
  unfold balance_of
  generalize t.accounts = l1 at h
  generalize s.accounts = l2 at h
  induction l1 generalizing l2 with
  | nil =>
    cases l2 with
    | nil => rfl
    | cons b l2 => simp at h
  | cons a l1 ih =>
    cases l2 with
    | nil => simp at h
    | cons b l2 =>
      simp only [List.map_cons, List.cons.injEq, Prod.mk.injEq] at h
      simp only [List.find?_cons, h.1.1]
      by_cases hb : b.id = id
      · simp [hb, h.1.2]
      · simp [hb, ih l2 h.2]

theorem balance_of_append (s t : Store) (row : Account) (h : t.accounts = s.accounts ++ [row])
    (id : Int) (b : ℚ) (hb : balance_of s id = some b) : balance_of t id = some b := by
  unfold balance_of at hb ⊢
  rw [h, List.find?_append]
  cases hf : s.accounts.find? (fun a => a.id = id) with
  | none => simp [hf] at hb
  | some a => simpa [hf] using hb

theorem balance_of_filter (s t : Store) (gone : Int)
    (h : t.accounts = s.accounts.filter fun a => a.id ≠ gone) (id : Int) (hne : id ≠ gone) :
    balance_of t id = balance_of s id := by
  unfold balance_of
  rw [h]
  generalize s.accounts = l
  induction l with
  | nil => rfl
  | cons a l ih =>
    by_cases ha : a.id = gone
    · have hid : ¬ a.id = id := fun e => hne (e.symm.trans ha)
      rw [List.filter_cons_of_neg (by simpa using ha),
        List.find?_cons_of_neg _ (by simpa using hid)]
      exact ih
    · rw [List.filter_cons_of_pos (by simpa using ha)]
      by_cases hid : a.id = id
      · rw [List.find?_cons_of_pos _ (by simpa using hid),
          List.find?_cons_of_pos _ (by simpa using hid)]
      · rw [List.find?_cons_of_neg _ (by simpa using hid),
          List.find?_cons_of_neg _ (by simpa using hid)]
        exact ih

theorem balance_of_filter_gone (s t : Store) (gone : Int)
    (h : t.accounts = s.accounts.filter fun a => a.id ≠ gone) :
    balance_of t gone = none := by
  unfold balance_of
  rw [h]
  have : (s.accounts.filter fun a => a.id ≠ gone).find? (fun a => a.id = gone) = none := by
    apply List.find?_eq_none.mpr
    intro a ha
    have := (List.mem_filter.mp ha).2
    simpa using this
  simp [this]

theorem find_map_id (f : Account → Account) (hid : ∀ a, (f a).id = a.id) (id : Int)
    (l : List Account) :
    (l.map f).find? (fun a => a.id = id) = (l.find? fun a => a.id = id).map f := by
  induction l with
  | nil => rfl
  | cons a l ih =>
    simp only [List.map_cons, List.find?_cons, hid]
    by_cases h : a.id = id
    · simp [h]
    · simp [h, ih]

theorem balance_of_map (s t : Store) (f : Account → Account) (hid : ∀ a, (f a).id = a.id)
    (h : t.accounts = s.accounts.map f) (id : Int)
    (hbal : ∀ a, s.accounts.find? (fun a => a.id = id) = some a → (f a).balance = a.balance) :
    balance_of t id = balance_of s id := by
  unfold balance_of
  rw [h, find_map_id f hid]
  cases hf : s.accounts.find? (fun a => a.id = id) with
  | none => rfl
  | some a => simp [hbal a hf]

theorem edit_account_blank_balance (q : Sql) (s : Store) (id : Int) (new_name : String)
    (i : Int) :
    balance_of (edit_account q s id new_name none).store i = balance_of s i := by
  unfold edit_account
  by_cases h0 : id = 0
  · simp [h0, Result.untouched]
  cases hf : s.accounts.find? (fun a => a.id = id) with
  | none => simp [h0, Result.untouched]
  | some old =>
    have hold : old.id = id := by simpa using List.find?_some hf
    simp only [h0, if_false]
    split_ifs <;> first
      | rfl
      | (apply balance_of_map s _ _ _ rfl i
         · intro a hfa
           by_cases hid : a.id = id
           · have hai : a.id = i := by simpa using List.find?_some hfa
             have : a = old := by
               rw [← hai, hid] at hfa
               rw [hf] at hfa
               exact (Option.some.inj hfa).symm
             rw [this]; simp [hold]
           · simp [hid]
         · intro a
           split <;> rfl)

theorem delete_account_zero (q : Sql) (s : Store) (id : Int) (confirm : String) :
    (delete_account q s id confirm).store = s ∨
    ((∀ a ∈ s.accounts, a.id = id → a.balance = 0) ∧
      (delete_account q s id confirm).store =
        { s with accounts := s.accounts.filter fun a => a.id ≠ id }) := by
  unfold delete_account
  by_cases h0 : id = 0
  · left; simp [h0, Result.untouched]
  by_cases hg : is_account_referenced_or_nonzero s id = true
  · left; simp [h0, hg, Result.untouched]
  cases hf : s.accounts.find? (fun a => a.id = id) with
  | none => left; simp [h0, hg, Result.untouched]
  | some old =>
    by_cases hc : confirmed confirm = false
    · left; simp [h0, hg, hc, Result.untouched]
    by_cases hq : q.row_ok = false
    · left; simp [h0, hg, hc, hq, Result.untouched]
    · right
      refine ⟨?_, by simp [h0, hg, hc, hq]⟩
      intro a ha haid
      by_contra hb
      apply hg
      unfold is_account_referenced_or_nonzero
      simp only [Bool.or_eq_true, List.any_eq_true, decide_eq_true_eq]
      exact Or.inr ⟨a, ha, haid, hb⟩

theorem balance_of_accounts_eq (s t : Store) (h : t.accounts = s.accounts) (id : Int) :
    balance_of t id = balance_of s id := by
  unfold balance_of; rw [h]

/-- C19 as amended (who writes balances). A menu action other than `add_record`,
`edit_record`, `delete_record` and `edit_account` with a balance entered leaves the
stored balance of every existing account as it is, or removes the account, which
only `delete_account` does and only when the balance is 0. `edit_account`, when a
balance is entered at its prompt and its `UPDATE` goes through, overwrites the
stored balance of the account with the value entered. -/
theorem balance_writers (s : Store) (op : Op) :
    (op.writesBalance = false → ∀ id b, balance_of s id = some b →
      balance_of (run s op).store id = some b ∨
      (balance_of (run s op).store id = none ∧ b = 0 ∧
        ∃ q confirm, op = Op.deleteAccount q id confirm)) ∧
    (∀ (q : Sql) (id : Int) (new_name : String) (b : ℚ),
      (edit_account q s id new_name (some b)).committed = true →
      balance_of (edit_account q s id new_name (some b)).store id = some b) := by
  constructor
  · intro hw id b hb
    cases op with
    | addRecord q inp => simp [Op.writesBalance] at hw
    | editRecord q inp => simp [Op.writesBalance] at hw
    | deleteRecord q rid confirm => simp [Op.writesBalance] at hw
    | addMember q name =>
      left; rw [← hb]
      exact balance_of_accounts_eq s _ (add_member_frame q s name).2.1 id
    | editMember q mid new_name =>
      left; rw [← hb]
      exact balance_of_accounts_eq s _ (edit_member_frame q s mid new_name).2.1 id
    | deleteMember q mid =>
      left; rw [← hb]
      exact balance_of_accounts_eq s _ (delete_member_frame q s mid).2.1 id
    | addAccount q name balance =>
      left
      rcases (add_account_shape q s name balance).2.2 with e | ⟨row, e⟩
      · rw [← hb]; exact balance_of_accounts_eq s _ e id
      · exact balance_of_append s _ row e id b hb
    | editAccount q aid new_name new_balance =>
      cases new_balance with
      | some v => simp [Op.writesBalance] at hw
      | none =>
        left; rw [← hb]
        exact edit_account_blank_balance q s aid new_name id
    | deleteAccount q aid confirm =>
      rcases delete_account_zero q s aid confirm with e | ⟨hz, e⟩
      · left; rw [← hb]; simp only [run, e]
      · by_cases hid : id = aid
        · right
          subst hid
          refine ⟨?_, ?_, q, confirm, rfl⟩
          · simp only [run, e]
            exact balance_of_filter_gone s _ id rfl
          · obtain ⟨a, ha, haid⟩ := balance_of_some_mem s id b hb
            unfold balance_of at hb
            cases hf : s.accounts.find? (fun a => a.id = id) with
            | none => simp [hf] at hb
            | some c =>
              have hc := List.mem_of_find?_eq_some hf
              have hcid : c.id = id := by simpa using List.find?_some hf
              rw [hf] at hb
              simp only [Option.map_some', Option.some.injEq] at hb
              rw [← hb]
              exact hz c hc hcid
        · left; rw [← hb]
          simp only [run, e]
          exact balance_of_filter s _ aid rfl id hid
    | addCategory q inp =>
      left; rw [← hb]
      rcases add_category_shape q s inp with e | ⟨row, e, _, _⟩
      · simp only [run, e]
      · simp only [run, e]; rfl
    | editCategory q cid line =>
      left; rw [← hb]
      exact balance_of_accounts_eq s _ (edit_category_shape q s cid line).2.1 id
    | deleteCategory q cid confirm =>
      left; rw [← hb]
      rcases delete_category_shape q s cid confirm with e | ⟨row, _, _, _, e⟩
      · simp only [run, e]
      · simp only [run, e]; rfl
  · intro q id new_name b hc
    unfold edit_account at hc ⊢
    by_cases h0 : id = 0
    · simp [h0, Result.untouched] at hc
    cases hf : s.accounts.find? (fun a => a.id = id) with
    | none => simp [h0, hf, Result.untouched] at hc
    | some old =>
      have hold : old.id = id := by simpa using List.find?_some hf
      simp only [h0, hf, if_false] at hc ⊢
      have key : ∀ f : Account → Account, (∀ a, (f a).id = a.id) →
          (∀ a, a.id = id → (f a).balance = b) →
          ((s.accounts.map f).find? (fun a => a.id = id)).map (fun a => a.balance) =
            some b := by
        intro f hfid hfb
        rw [find_map_id f hfid, hf]
        simp [hfb old hold]
      split_ifs at hc ⊢
      all_goals first
        | (simp [Result.untouched] at hc; done)
        | exact key _ (fun a => by split <;> rfl) (fun a ha => by simp [ha])

/-- C19 as stated fails: `edit_account` is not a record operation, and with 5 entered at
its balance prompt it sets the stored balance of account 1, which was 0, to 5. -/
theorem edit_account_overwrites_balance :
    (Op.editAccount Sql.ok 1 "" (some 5)).isRecordOp = false ∧
    balance_of demo 1 = some 0 ∧
    (run demo (Op.editAccount Sql.ok 1 "" (some 5))).committed = true ∧
    balance_of (run demo (Op.editAccount Sql.ok 1 "" (some 5))).store 1 = some 5 ∧
    balance_of (run demo_ledger (Op.editAccount Sql.ok 1 "" (some 5))).store 1 = some 5 ∧
    record_sum (run demo_ledger (Op.editAccount Sql.ok 1 "" (some 5))).store 1 = 1000 := by
  decide!

theorem balance_writers_witness :
    (balance_of (run demo_ledger (Op.deleteAccount Sql.ok 2 "y")).store 1 = some 1000 ∨
      (balance_of (run demo_ledger (Op.deleteAccount Sql.ok 2 "y")).store 1 = none ∧
        (1000 : ℚ) = 0 ∧ ∃ q confirm, Op.deleteAccount Sql.ok 2 "y" = Op.deleteAccount q 1 confirm)) ∧
    balance_of (edit_account Sql.ok demo 1 "" (some 5)).store 1 = some 5 :=
  ⟨(balance_writers demo_ledger (Op.deleteAccount Sql.ok 2 "y")).1 rfl 1 1000 (by decide!),
   (balance_writers demo (Op.editAccount Sql.ok 1 "" (some 5))).2 Sql.ok 1 "" 5 (by decide!)⟩

/-! ## Duplicate category names -/

theorem insert_category_duplicate (q : Sql) (s : Store) (name : String) (parent_id : Int)
    (type : Kind) (h : ∃ c ∈ s.categories, c.name = name) :
    (insert_category q s name parent_id type).committed = false ∧
    (insert_category q s name parent_id type).store = s := by
  unfold insert_category
  have hany : (s.categories.any fun c => c.name = name) = true := by
    simp only [List.any_eq_true, decide_eq_true_eq]
    exact h
  simp [hany, Result.untouched]

theorem add_category_duplicate (q : Sql) (s : Store) (inp : CategoryInput)
    (h : ∃ c ∈ s.categories, c.name = inp.name) :
    (add_category q s inp).committed = false ∧ (add_category q s inp).store = s := by
  unfold add_category
  cases hty : inp.type_str with
  | none => exact ⟨rfl, rfl⟩
  | some type_str =>
    simp only
    by_cases h1 : inp.name = ""
    · simp [h1, Result.untouched]
    by_cases h2 : inp.yn.get 0 = 'y' ∨ inp.yn.get 0 = 'Y'
    · simp only [h1, h2, if_false, if_true]
      by_cases h3 : (parent_menu s type_str).length = 0
      · simp [h3, Result.untouched]
      by_cases h4 : inp.choice < 1 ∨ inp.choice > (parent_menu s type_str).length
      · simp [h3, h4, Result.untouched]
      simp only [h3, h4, if_false]
      exact insert_category_duplicate q s inp.name _ type_str h
    · simp only [h1, h2, if_false]
      exact insert_category_duplicate q s inp.name 0 type_str h

/-- C20 (duplicate category name). `add_category` inserts nothing and leaves the
store, hence the categories table, as it is: (1) when a root is asked for and an
existing root has the name typed; (2) when a child is asked for and an existing
category under the designated parent has the name typed; (3) in fact whenever any
existing category has the name typed, the `name` column being `UNIQUE`. -/
theorem add_category_duplicate_name (q : Sql) (s : Store) (inp : CategoryInput) :
    (¬ (inp.yn.get 0 = 'y' ∨ inp.yn.get 0 = 'Y') →
      (∃ c ∈ s.categories, c.parent_id = none ∧ c.name = inp.name) →
      (add_category q s inp).committed = false ∧ (add_category q s inp).store = s ∧
      (add_category q s inp).store.categories = s.categories) ∧
    ((inp.yn.get 0 = 'y' ∨ inp.yn.get 0 = 'Y') → ∀ type_str, inp.type_str = some type_str →
      (∃ c ∈ s.categories,
        c.parent_id = some ((parent_menu s type_str).getD (inp.choice - 1).toNat 0) ∧
        c.name = inp.name) →
      (add_category q s inp).committed = false ∧ (add_category q s inp).store = s ∧
      (add_category q s inp).store.categories = s.categories) ∧
    ((∃ c ∈ s.categories, c.name = inp.name) →
      (add_category q s inp).committed = false ∧ (add_category q s inp).store = s ∧
      (add_category q s inp).store.categories = s.categories) := by
  have key : (∃ c ∈ s.categories, c.name = inp.name) →
      (add_category q s inp).committed = false ∧ (add_category q s inp).store = s ∧
      (add_category q s inp).store.categories = s.categories := by
    intro h
    have := add_category_duplicate q s inp h
    exact ⟨this.1, this.2, by rw [this.2]⟩
  refine ⟨?_, ?_, key⟩
  · intro _ ⟨c, hc, _, hn⟩
    exact key ⟨c, hc, hn⟩
  · intro _ _ _ ⟨c, hc, _, hn⟩
    exact key ⟨c, hc, hn⟩

theorem add_category_duplicate_name_witness :
    ((add_category Sql.ok demo
        { type_str := some Kind.income, name := "Salary", yn := "n", choice := 0 }).committed
        = false ∧
      (add_category Sql.ok demo
        { type_str := some Kind.income, name := "Salary", yn := "n", choice := 0 }).store
        = demo ∧
      (add_category Sql.ok demo
        { type_str := some Kind.income, name := "Salary", yn := "n", choice := 0 }).store.categories
        = demo.categories) ∧
    ((add_category Sql.ok demo
        { type_str := some Kind.income, name := "Bonus", yn := "y", choice := 1 }).committed
        = false ∧
      (add_category Sql.ok demo
        { type_str := some Kind.income, name := "Bonus", yn := "y", choice := 1 }).store
        = demo ∧
      (add_category Sql.ok demo
        { type_str := some Kind.income, name := "Bonus", yn := "y", choice := 1 }).store.categories
        = demo.categories) :=
  ⟨(add_category_duplicate_name Sql.ok demo
      { type_str := some Kind.income, name := "Salary", yn := "n", choice := 0 }).1
      (by decide) (by decide),
   (add_category_duplicate_name Sql.ok demo
      { type_str := some Kind.income, name := "Bonus", yn := "y", choice := 1 }).2.1
      (by decide) Kind.income rfl (by decide!)⟩

/-! ## Renaming a category -/

/-- A name typed at the prompt of `edit_category` that a category with another key
already has ends the operation with nothing written. -/
theorem edit_category_duplicate (q : Sql) (s : Store) (id : Int) (line : String)
    (other : Category) (hline : line ≠ "") (hother : other ∈ s.categories)
    (hne : other.id ≠ id) (hname : other.name = line) :
    (edit_category q s id line).store = s ∧ (edit_category q s id line).committed = false ∧
    Msg.settings_success ∉ (edit_category q s id line).msgs := by
  unfold edit_category
  by_cases h0 : id ≤ 0
  · rw [if_pos h0]; simp [Result.untouched]
  rw [if_neg h0]
  cases hf : s.categories.find? (fun c => c.id = id) with
  | none => simp [Result.untouched]
  | some old =>
    simp only [hline, if_false]
    have hany : (s.categories.any fun c => decide (c.name = line ∧ c.id ≠ id)) = true := by
      simp only [List.any_eq_true, decide_eq_true_eq]
      exact ⟨other, hother, hname, hne⟩
    split_ifs with h1 h2 h3
    · simp [Result.untouched]
    · simp [Result.untouched]
    · simp [Result.untouched]
    · exact absurd (Or.inr hany) h3

/-- In the same situation, when the two rows are children of the same parent and the
name fits, it is the sibling query of `edit_category` that stops the operation. -/
theorem edit_category_sibling_msg (q : Sql) (s : Store) (id : Int) (line : String)
    (old other : Category) (p : Int)
    (hfind : s.categories.find? (fun c => c.id = id) = some old) (hpos : 0 < id)
    (hline : line ≠ "") (hlen : line.utf8ByteSize ≤ 30)
    (hother : other ∈ s.categories) (hne : other.id ≠ id) (hname : other.name = line)
    (hold : old.parent_id = some p) (hpar : other.parent_id = some p) :
    (edit_category q s id line).msgs = [Msg.duplicate_name] := by
  unfold edit_category
  rw [if_neg (by omega), hfind]
  simp only [hline, if_false]
  rw [if_neg (by omega)]
  have hcount : ((s.categories.filter fun c =>
      decide (c.name = line ∧ c.parent_id = some (parent_column_int old) ∧ c.id ≠ id)).length > 0) := by
    apply List.length_pos_of_mem (a := other)
    simp [List.mem_filter, hother, hname, hne, hpar, parent_column_int, hold]
  rw [if_pos hcount]
  rfl

/-- C21 (rename to a name in use): when the name typed at the prompt of
`edit_category` is the name of another category, the operation fails: the store is
the one it started from, so every category keeps its name, nothing is committed and
the success line is not printed. The other category may be at any level, so this
covers two roots and two children of one parent. For two roots the query of line 735
compares `parent_id` with 0 and finds nothing, and it is the `UNIQUE` name column
that rejects the `UPDATE`; for two children of one parent the query finds the
sibling. -/
theorem rename_duplicate_fails (q : Sql) (s : Store) (id : Int) (line : String)
    (other : Category) (hline : line ≠ "") (hother : other ∈ s.categories)
    (hne : other.id ≠ id) (hname : other.name = line) :
    (edit_category q s id line).store = s ∧
    ((edit_category q s id line).store.categories.map fun c => (c.id, c.name)) =
      (s.categories.map fun c => (c.id, c.name)) ∧
    (edit_category q s id line).committed = false ∧
    Msg.settings_success ∉ (edit_category q s id line).msgs := by
  have h := edit_category_duplicate q s id line other hline hother hne hname
  exact ⟨h.1, by rw [h.1], h.2.1, h.2.2⟩

theorem rename_duplicate_fails_witness :
    (edit_category Sql.ok demo 3 "Salary").store = demo ∧
    ((edit_category Sql.ok demo 3 "Salary").store.categories.map fun c => (c.id, c.name)) =
      (demo.categories.map fun c => (c.id, c.name)) ∧
    (edit_category Sql.ok demo 3 "Salary").committed = false ∧
    Msg.settings_success ∉ (edit_category Sql.ok demo 3 "Salary").msgs :=
  rename_duplicate_fails Sql.ok demo 3 "Salary"
    { id := 1, name := "Salary", parent_id := none, type := Kind.income }
    (by decide) (by decide) (by decide) rfl

/-- The root `Food` renamed to the name of the root `Salary`: the sibling query lets
it through and the `UNIQUE` column stops it. -/
theorem rename_root_to_root_name :
    (edit_category Sql.ok demo 3 "Salary").msgs = [Msg.settings_failed] := by
  decide

/-! ## Kind along the hierarchy -/

/-- The record, member and account actions leave the categories table as it is. -/
theorem run_categories_frame (s : Store) (op : Op) (hop : op.isCategoryOp = false) :
    (run s op).store.categories = s.categories := by
  cases op with
  | addRecord q inp =>
    rcases add_record_cases q s inp with ⟨_, hs⟩ | ⟨_, _, _, _, _, hs, _⟩
    · simp only [run, hs]
    · simp only [run, hs, apply_balance_delta_categories]
  | editRecord q inp =>
    rcases edit_record_cases q s inp with ⟨_, hs⟩ | ⟨orig, _, _, _, _, hs, _⟩
    · simp only [run, hs]
    · simp only [run, hs, edit_commit_store, apply_balance_delta_categories]
  | deleteRecord q id confirm =>
    rcases delete_record_cases q s id confirm with ⟨_, hs⟩ | ⟨row, _, _, _, _, _, _, hs, _⟩
    · simp only [run, hs]
    · simp only [run, hs, apply_balance_delta_categories]
  | addMember q name => exact (add_member_frame q s name).2.2
  | editMember q id new_name => exact (edit_member_frame q s id new_name).2.2
  | deleteMember q id => exact (delete_member_frame q s id).2.2
  | addAccount q name balance => exact (add_account_shape q s name balance).2.1
  | editAccount q id new_name new_balance =>
    exact (edit_account_shape q s id new_name new_balance).2.1
  | deleteAccount q id confirm =>
    rcases delete_account_shape q s id confirm with e | ⟨_, e⟩
    · simp only [run, e]
    · simp only [run, e]
  | addCategory q inp => simp [Op.isCategoryOp] at hop
  | editCategory q id line => simp [Op.isCategoryOp] at hop
  | deleteCategory q id confirm => simp [Op.isCategoryOp] at hop

/-- Two rows of a table with distinct keys that have the same key are the same row. -/
theorem eq_of_key_eq {α : Type} (key : α → Int) (l : List α) (a b : α)
    (hnd : (l.map key).Nodup) (ha : a ∈ l) (hb : b ∈ l) (h : key a = key b) : a = b := by
  have h1 := find_unique key l a (key b) hnd ha h
  have h2 := find_unique key l b (key b) hnd hb rfl
  rw [h1] at h2
  exact Option.some.inj h2

theorem add_category_kind (q : Sql) (s : Store) (inp : CategoryInput)
    (h : (s.categories.map fun c => c.id).Nodup ∧ DepthInv s) (hk : KindInv s) :
    KindInv (add_category q s inp).store := by
  rcases add_category_shape q s inp with e | ⟨row, e, hid, hpar⟩
  · rw [e]; exact hk
  · rw [e]
    have hfresh : ∀ k ∈ s.categories, k.id ≠ row.id := by
      intro k hkm hkid
      have h1 := next_rowid_gt s.seq_categories (s.categories.map fun c => c.id) k.id
        (List.mem_map_of_mem _ hkm)
      rw [hid] at hkid
      omega
    intro c hc p hp k hkm hkid
    simp only [List.mem_append, List.mem_singleton] at hc hkm
    rcases hc with hc | hc <;> rcases hkm with hkm | hkm
    · exact hk c hc p hp k hkm hkid
    · obtain ⟨k', hk', hk'id, _⟩ := h.2 c hc p hp
      subst hkm
      exact absurd (hk'id.trans hkid.symm) (hfresh k' hk')
    · subst hc
      obtain ⟨k', hk', hk'id, _, hty⟩ := hpar p hp
      have : k = k' := eq_of_key_eq (fun x : Category => x.id) s.categories k k' h.1 hkm hk'
        (hkid.trans hk'id.symm)
      rw [this]; exact hty
    · subst hc; subst hkm; rfl

theorem edit_category_kind (q : Sql) (s : Store) (id : Int) (line : String)
    (hk : KindInv s) : KindInv (edit_category q s id line).store := by
  obtain ⟨_, _, f, hf, hc⟩ := edit_category_shape q s id line
  intro c hcm p hp k hkm hkid
  rw [hc] at hcm hkm
  obtain ⟨c0, hc0, rfl⟩ := List.mem_map.mp hcm
  obtain ⟨k0, hk0, rfl⟩ := List.mem_map.mp hkm
  rw [(hf c0).2.1] at hp
  rw [(hf k0).1] at hkid
  rw [(hf c0).2.2, (hf k0).2.2]
  exact hk c0 hc0 p hp k0 hk0 hkid

theorem delete_category_kind (q : Sql) (s : Store) (id : Int) (confirm : String)
    (hk : KindInv s) : KindInv (delete_category q s id confirm).store := by
  rcases delete_category_shape q s id confirm with e | ⟨row, _, _, _, e⟩
  · rw [e]; exact hk
  · rw [e]
    intro c hc p hp k hkm hkid
    exact hk c (List.mem_filter.mp hc).1 p hp k (List.mem_filter.mp hkm).1 hkid

theorem run_kind (s : Store) (op : Op)
    (h : (s.categories.map fun c => c.id).Nodup ∧ DepthInv s) (hk : KindInv s) :
    KindInv (run s op).store := by
  by_cases hop : op.isCategoryOp = false
  · have e := run_categories_frame s op hop
    unfold KindInv at hk ⊢
    rw [e]; exact hk
  · cases op with
    | addCategory q inp => exact add_category_kind q s inp h hk
    | editCategory q id line => exact edit_category_kind q s id line hk
    | deleteCategory q id confirm => exact delete_category_kind q s id confirm hk
    | _ => simp [Op.isCategoryOp] at hop

theorem run_all_kind (ops : List Op) (s : Store)
    (h : (s.categories.map fun c => c.id).Nodup ∧ DepthInv s) (hk : KindInv s) :
    KindInv (run_all s ops) := by
  induction ops generalizing s with
  | nil => exact hk
  | cons op ops ih =>
    rw [run_all_cons]
    exact ih _ (run_depth s op h) (run_kind s op h hk)

/-- A menu action keeps the `type` of every category that stays in the table: the
`INSERT` of `add_category` takes a fresh key, the `UPDATE` of `edit_category` sets the
name only, and no other statement writes the table apart from the `DELETE`. -/
theorem run_type_stable (s : Store) (op : Op) (hnd : (s.categories.map fun c => c.id).Nodup)
    (c : Category) (hc : c ∈ s.categories) (c' : Category)
    (hc' : c' ∈ (run s op).store.categories) (hid : c'.id = c.id) : c'.type = c.type := by
  have hsame : ∀ x ∈ s.categories, x.id = c.id → x.type = c.type := by
    intro x hx hxid
    rw [eq_of_key_eq (fun x : Category => x.id) s.categories x c hnd hx hc hxid]
  by_cases hop : op.isCategoryOp = false
  · rw [run_categories_frame s op hop] at hc'
    exact hsame c' hc' hid
  · cases op with
    | addCategory q inp =>
      simp only [run] at hc'
      rcases add_category_shape q s inp with e | ⟨row, e, hrow, _⟩
      · rw [e] at hc'; exact hsame c' hc' hid
      · rw [e] at hc'
        simp only [List.mem_append, List.mem_singleton] at hc'
        rcases hc' with h1 | h1
        · exact hsame c' h1 hid
        · subst h1
          have h1 := next_rowid_gt s.seq_categories (s.categories.map fun c => c.id) c.id
            (List.mem_map_of_mem _ hc)
          rw [hrow] at hid
          omega
    | editCategory q id line =>
      simp only [run] at hc'
      obtain ⟨_, _, f, hf, e⟩ := edit_category_shape q s id line
      rw [e] at hc'
      obtain ⟨c0, hc0, rfl⟩ := List.mem_map.mp hc'
      rw [(hf c0).1] at hid
      rw [(hf c0).2.2]
      exact hsame c0 hc0 hid
    | deleteCategory q id confirm =>
      simp only [run] at hc'
      rcases delete_category_shape q s id confirm with e | ⟨row, _, _, _, e⟩
      · rw [e] at hc'; exact hsame c' hc' hid
      · rw [e] at hc'
        exact hsame c' (List.mem_filter.mp hc').1 hid
    | _ => simp [Op.isCategoryOp] at hop

/-- C22 (kind along the hierarchy): in every state reached from a store with an
empty categories table by any sequence of menu actions (`add_category`,
`edit_category`, `delete_category`, and the others, whatever their inputs and
whichever of their writes fail), every category that has a parent has its parent in
the table, a root, of the same kind; and no menu action run in such a state changes
the kind of a category that is in the table. -/
theorem kind_shared (s0 : Store) (h0 : s0.categories = []) (ops : List Op) :
    (∀ c ∈ (run_all s0 ops).categories, ∀ p, c.parent_id = some p →
      ∃ k ∈ (run_all s0 ops).categories, k.id = p ∧ k.parent_id = none ∧ k.type = c.type) ∧
    (∀ op : Op, ∀ c ∈ (run_all s0 ops).categories,
      ∀ c' ∈ (run (run_all s0 ops) op).store.categories, c'.id = c.id → c'.type = c.type) := by
  have hinit : (s0.categories.map fun c => c.id).Nodup ∧ DepthInv s0 := by
    unfold DepthInv
    rw [h0]
    exact ⟨List.nodup_nil, fun c hc => by simp at hc⟩
  have hkind : KindInv s0 := by
    unfold KindInv
    rw [h0]
    intro c hc
    simp at hc
  have hd := run_all_depth ops s0 hinit
  have hk := run_all_kind ops s0 hinit hkind
  constructor
  · intro c hc p hp
    obtain ⟨k, hkm, hkid, hkp⟩ := hd.2 c hc p hp
    exact ⟨k, hkm, hkid, hkp, hk c hc p hp k hkm hkid⟩
  · intro op c hc c' hc' hid
    exact run_type_stable _ op hd.1 c hc c' hc' hid

theorem kind_shared_witness :
    ∃ k ∈ (run_all Store.empty demo_kinds).categories,
      k.id = 1 ∧ k.parent_id = none ∧ k.type = Kind.income :=
  (kind_shared Store.empty rfl demo_kinds).1
    { id := 3, name := "Premium", parent_id := some 1, type := Kind.income } (by decide!) 1 rfl

/-! ## Category path -/

theorem c_str_append (a b : String) : c_str (a ++ b) = c_str a ++ c_str b := by
  unfold c_str String.toUTF8
  simp [String.data_append, List.flatMap_append]

theorem utf8EncodeChar_ne_nil (c : Char) : String.utf8EncodeChar c ≠ [] := by
  unfold String.utf8EncodeChar
  simp only
  split_ifs <;> simp

theorem c_str_pos (a : String) (h : a ≠ "") : (c_str a).length > 0 := by
  unfold c_str String.toUTF8
  have hd : a.data ≠ [] := by
    intro e
    apply h
    exact String.ext e
  cases hl : a.data with
  | nil => exact absurd hl hd
  | cons c cs =>
    have := utf8EncodeChar_ne_nil c
    cases he : String.utf8EncodeChar c with
    | nil => exact absurd he this
    | cons b bs => simp [hl, he]

theorem insert_category_names (q : Sql) (s : Store) (name : String) (parent_id : Int)
    (type : Kind) :
    ∀ c ∈ (insert_category q s name parent_id type).store.categories,
      c ∈ s.categories ∨ c.name = name := by
  intro c hc
  rcases insert_category_shape q s name parent_id type with e | e
  · rw [e] at hc; exact Or.inl hc
  · rw [e] at hc
    simp only [List.mem_append, List.mem_singleton] at hc
    rcases hc with h | h
    · exact Or.inl h
    · right; rw [h]

theorem add_category_names (q : Sql) (s : Store) (inp : CategoryInput) (h : NameInv s) :
    NameInv (add_category q s inp).store := by
  unfold add_category
  cases hty : inp.type_str with
  | none => exact h
  | some type_str =>
    simp only
    by_cases h1 : inp.name = ""
    · simp only [h1, if_true]; exact h
    have key : ∀ p, NameInv (insert_category q s inp.name p type_str).store := by
      intro p c hc
      rcases insert_category_names q s inp.name p type_str c hc with hm | hn
      · exact h c hm
      · rw [hn]; exact h1
    simp only [h1, if_false]
    split_ifs
    · exact h
    · exact h
    · exact key _
    · exact key _

/-- With a name typed, or a blank line over a buffer that does not read as the empty
string, `edit_category` stores no empty name. -/
theorem edit_category_names (q : Sql) (s : Store) (id : Int) (line : String)
    (hq : line = "" → q.released_name ≠ some "") (h : NameInv s) :
    NameInv (edit_category q s id line).store := by
  unfold edit_category
  by_cases h0 : id ≤ 0
  · rw [if_pos h0]; exact h
  rw [if_neg h0]
  cases hf : s.categories.find? (fun c => c.id = id) with
  | none => exact h
  | some old =>
    have hold : old.name ≠ "" := h old (List.mem_of_find?_eq_some hf)
    have hkept : line = "" → q.released_name.getD old.name ≠ "" := by
      intro hl
      cases hrel : q.released_name with
      | none => exact hold
      | some g =>
        intro hg
        apply hq hl
        rw [hrel]
        exact congrArg some hg
    have fin : ∀ new_name : String, new_name ≠ "" →
        NameInv { s with categories := s.categories.map fun c =>
          if c.id = id then { c with name := new_name } else c } := by
      intro new_name hnew c hc
      simp only [List.mem_map] at hc
      obtain ⟨c0, hc0, rfl⟩ := hc
      by_cases hid : c0.id = id
      · simp only [hid, if_true]; exact hnew
      · simp only [hid, if_false]; exact h c0 hc0
    by_cases hl : line = ""
    · simp only [hl, if_true]
      split_ifs
      all_goals first | exact h | exact fin _ (hkept hl)
    · simp only [hl, if_false]
      split_ifs
      all_goals first | exact h | exact fin _ hl

theorem run_names (s : Store) (op : Op) (hop : op.storesName = true) (h : NameInv s) :
    NameInv (run s op).store := by
  by_cases hcat : op.isCategoryOp = false
  · have e := run_categories_frame s op hcat
    unfold NameInv at h ⊢
    rw [e]; exact h
  · cases op with
    | addCategory q inp => exact add_category_names q s inp h
    | editCategory q id line =>
      have hq : line = "" → q.released_name ≠ some "" := by
        unfold Op.storesName at hop
        exact of_decide_eq_true hop
      exact edit_category_names q s id line hq h
    | deleteCategory q id confirm =>
      rcases delete_category_shape q s id confirm with e | ⟨row, _, _, _, e⟩
      · simp only [run, e]; exact h
      · simp only [run, e]
        intro c hc
        exact h c (List.mem_filter.mp hc).1
    | _ => simp [Op.isCategoryOp] at hcat

theorem run_all_names (ops : List Op) (s : Store) (hops : ∀ op ∈ ops, op.storesName = true)
    (h : NameInv s) : NameInv (run_all s ops) := by
  induction ops generalizing s with
  | nil => exact h
  | cons op ops ih =>
    rw [run_all_cons]
    exact ih _ (fun o ho => hops o (List.mem_cons_of_mem _ ho))
      (run_names s op (hops op (List.mem_cons_self _ _)) h)

/-- With distinct category keys and parents in the table, the two displays resolve the
category `c` of a record with an existing account as follows: `show_category_report`
shows the path, and `list_records` shows its first 59 bytes when there is no parent
or the parent's name is not empty. -/
theorem listed_path_eq (s : Store) (hnd : (s.categories.map fun c => c.id).Nodup)
    (hd : DepthInv s) (r : Record) (c : Category) (hc : c ∈ s.categories)
    (hcid : c.id = r.category_id) (ha : ∃ a ∈ s.accounts, a.id = r.account_id) :
    (c.parent_id = none →
      listed_path s r = some ((c_str c.name).take 59) ∧ report_path s r = some c.name) ∧
    (∀ p, c.parent_id = some p → ∃ k ∈ s.categories, k.id = p ∧
      report_path s r = some (k.name ++ " > " ++ c.name) ∧
      (k.name ≠ "" →
        listed_path s r = some ((c_str (k.name ++ " > " ++ c.name)).take 59))) := by
  have hfind : s.categories.find? (fun x => x.id = r.category_id) = some c :=
    find_unique (fun x : Category => x.id) s.categories c r.category_id hnd hc hcid
  have hacc : (s.accounts.any fun a => decide (a.id = r.account_id)) = true := by
    obtain ⟨a, ham, haid⟩ := ha
    simp only [List.any_eq_true, decide_eq_true_eq]
    exact ⟨a, ham, haid⟩
  constructor
  · intro hp
    simp [listed_path, report_path, category_names, hacc, hfind, hp, category_path]
  · intro p hp
    obtain ⟨k, hk, hkid, _⟩ := hd c hc p hp
    have hfk : s.categories.find? (fun x => x.id = p) = some k :=
      find_unique (fun x : Category => x.id) s.categories k p hnd hk hkid
    refine ⟨k, hk, hkid, ?_, ?_⟩
    · simp [report_path, category_names, hfind, hp, hfk]
    · intro hname
      have hpos := c_str_pos k.name hname
      simp [listed_path, category_names, hacc, hfind, hp, hfk, category_path, hpos,
        c_str_append]

/-- C23 (category path), as the code has it by design: in every state reached from a
store with no category and no record by any sequence of menu actions, every record
has its category `c` in the table. When `c` has no parent, the record list shows the
first 59 bytes of the name of `c`, which is the name itself when it has at most 59
bytes, and the category report shows the name. When `c` has a parent, the parent `k`
is in the table, the category report shows `Parent > Child` (the name of `k`, the
three characters ` > `, the name of `c`), and if the name of `k` is not empty the
record list shows the first 59 bytes of that text, which is the text itself when it
has at most 59 bytes. No name is empty as long as no `edit_category` left blank copies
an empty string through the released `old_name`. -/
theorem category_path_shown (s0 : Store) (h0 : s0.categories = []) (hr : s0.records = [])
    (ops : List Op) :
    (∀ r ∈ (run_all s0 ops).records, ∃ c ∈ (run_all s0 ops).categories,
      c.id = r.category_id ∧
      (c.parent_id = none →
        listed_path (run_all s0 ops) r = some ((c_str c.name).take 59) ∧
        ((c_str c.name).length ≤ 59 → listed_path (run_all s0 ops) r = some (c_str c.name)) ∧
        report_path (run_all s0 ops) r = some c.name) ∧
      (∀ p, c.parent_id = some p → ∃ k ∈ (run_all s0 ops).categories, k.id = p ∧
        report_path (run_all s0 ops) r = some (k.name ++ " > " ++ c.name) ∧
        (k.name ≠ "" →
          listed_path (run_all s0 ops) r =
            some ((c_str (k.name ++ " > " ++ c.name)).take 59) ∧
          ((c_str (k.name ++ " > " ++ c.name)).length ≤ 59 →
            listed_path (run_all s0 ops) r = some (c_str (k.name ++ " > " ++ c.name)))))) ∧
    ((∀ op ∈ ops, op.storesName = true) →
      ∀ c ∈ (run_all s0 ops).categories, c.name ≠ "") := by
  have hinit : (s0.categories.map fun c => c.id).Nodup ∧ DepthInv s0 := by
    unfold DepthInv
    rw [h0]
    exact ⟨List.nodup_nil, fun c hc => by simp at hc⟩
  have hname : NameInv s0 := by
    unfold NameInv
    rw [h0]
    intro c hc
    simp at hc
  have href : RefInv s0 := by
    unfold RefInv
    rw [hr]
    intro r hrm
    simp at hrm
  have hd := run_all_depth ops s0 hinit
  have hf := run_all_ref ops s0 href
  refine ⟨?_, fun hops => run_all_names ops s0 hops hname⟩
  intro r hrm
  obtain ⟨ha, c, hc, hcid⟩ := hf r hrm
  have key := listed_path_eq (run_all s0 ops) hd.1 hd.2 r c hc hcid ha
  refine ⟨c, hc, hcid, ?_, ?_⟩
  · intro hp
    obtain ⟨h1, h2⟩ := key.1 hp
    refine ⟨h1, ?_, h2⟩
    intro hlen
    rw [h1, List.take_of_length_le hlen]
  · intro p hp
    obtain ⟨k, hk, hkid, h2, h1⟩ := key.2 p hp
    refine ⟨k, hk, hkid, h2, ?_⟩
    intro hne
    refine ⟨h1 hne, ?_⟩
    intro hlen
    rw [h1 hne, List.take_of_length_le hlen]

set_option maxRecDepth 20000 in
theorem category_path_shown_witness :
    ∃ c ∈ (run_all Store.empty demo_setup).categories,
      c.id = demo_child_record.category_id ∧
      (c.parent_id = none →
        listed_path (run_all Store.empty demo_setup) demo_child_record =
          some ((c_str c.name).take 59) ∧
        ((c_str c.name).length ≤ 59 →
          listed_path (run_all Store.empty demo_setup) demo_child_record =
            some (c_str c.name)) ∧
        report_path (run_all Store.empty demo_setup) demo_child_record = some c.name) ∧
      (∀ p, c.parent_id = some p → ∃ k ∈ (run_all Store.empty demo_setup).categories,
        k.id = p ∧
        report_path (run_all Store.empty demo_setup) demo_child_record =
          some (k.name ++ " > " ++ c.name) ∧
        (k.name ≠ "" →
          listed_path (run_all Store.empty demo_setup) demo_child_record =
            some ((c_str (k.name ++ " > " ++ c.name)).take 59) ∧
          ((c_str (k.name ++ " > " ++ c.name)).length ≤ 59 →
            listed_path (run_all Store.empty demo_setup) demo_child_record =
              some (c_str (k.name ++ " > " ++ c.name))))) :=
  (category_path_shown Store.empty rfl rfl demo_setup).1 demo_child_record (by decide!)

/-- The session `demo_setup` evaluated: the record under `Bonus`, child of `Salary`,
is listed and reported with the path `Salary > Bonus`. -/
theorem short_path_whole :
    (run_all Store.empty demo_setup).records = [demo_child_record] ∧
    listed_path (run_all Store.empty demo_setup) demo_child_record =
      some (c_str "Salary > Bonus") ∧
    report_path (run_all Store.empty demo_setup) demo_child_record =
      some "Salary > Bonus" := by
  decide!

/-- The session `demo_long_names` evaluated: the root name has 26 bytes and the
child name 34, both taken by `add_category`, so `Parent > Child` has 63 bytes, and the
record list shows its first 59 bytes, not the path; the category report shows the
path. -/
theorem long_path_cut :
    (run_all Store.empty demo_long_names).categories.map (fun c => (c.id, c.name, c.parent_id)) =
      [(1, "Household and daily living", none),
       (2, "Groceries and supermarket shopping", some 1)] ∧
    (run_all Store.empty demo_long_names).records.map (fun r => (r.id, r.category_id)) =
      [(1, 2)] ∧
    (run_all Store.empty demo_long_names).records.map
        (listed_path (run_all Store.empty demo_long_names)) =
      [some (c_str "Household and daily living > Groceries and supermarket shop")] ∧
    (run_all Store.empty demo_long_names).records.map
        (listed_path (run_all Store.empty demo_long_names)) ≠
      [some (c_str "Household and daily living > Groceries and supermarket shopping")] ∧
    (run_all Store.empty demo_long_names).records.map
        (report_path (run_all Store.empty demo_long_names)) =
      [some "Household and daily living > Groceries and supermarket shopping"] := by
  decide!

/-- The session `demo_blank_rename` evaluated: `edit_category` on the root `Salary`
with the line left blank, the released `old_name` reading as the empty string, stores
an empty name; the record under its child `Bonus` is then listed as `Bonus` and
reported as ` > Bonus`. -/
theorem empty_parent_name :
    (run_all Store.empty demo_blank_rename).categories.map
        (fun c => (c.id, c.name, c.parent_id)) =
      [(1, "", none), (2, "Bonus", some 1)] ∧
    (run_all Store.empty demo_blank_rename).records = [demo_child_record] ∧
    listed_path (run_all Store.empty demo_blank_rename) demo_child_record =
      some (c_str "Bonus") ∧
    report_path (run_all Store.empty demo_blank_rename) demo_child_record =
      some " > Bonus" := by
  decide!

/-! ## CSV field escaping -/

theorem size_add_eq (a b : Nat) (h : a + b < SIZE_RANGE) : size_add a b = a + b := by
  unfold size_add
  exact Nat.mod_eq_of_lt h

theorem size_sub_eq (a b : Nat) (hb : b ≤ a) (ha : a < SIZE_RANGE) : size_sub a b = a - b := by
  unfold size_sub
  have hb' : b % SIZE_RANGE = b := Nat.mod_eq_of_lt (by omega)
  rw [hb']
  have : a + SIZE_RANGE - b = (a - b) + SIZE_RANGE := by omega
  rw [this, Nat.add_mod_right]
  exact Nat.mod_eq_of_lt (by omega)

/-- Stores of the quoting loop stay two bytes inside the buffer and leave `j` inside
it. -/
theorem quote_loop_bounds (out_size : Nat) (h3 : 3 ≤ out_size) (hmax : out_size < SIZE_RANGE)
    (inp : List Nat) :
    ∀ j : Nat, j + 1 ≤ out_size →
      (quote_loop out_size inp j).1 + 1 ≤ out_size ∧
      ∀ w ∈ (quote_loop out_size inp j).2, w.1 + 1 < out_size := by
  have h2 : size_sub out_size 2 = out_size - 2 := size_sub_eq out_size 2 (by omega) hmax
  induction inp with
  | nil =>
    intro j hj
    simp only [quote_loop]
    exact ⟨hj, fun w hw => absurd hw (List.not_mem_nil w)⟩
  | cons b rest ih =>
    intro j hj
    rw [quote_loop]
    rw [h2]
    by_cases hc : j < out_size - 2
    · rw [if_pos hc]
      have e1 : size_add j 1 = j + 1 := size_add_eq j 1 (by omega)
      have e2 : size_add j 2 = j + 2 := size_add_eq j 2 (by omega)
      have e3 : size_add (j + 1) 1 = j + 2 := size_add_eq (j + 1) 1 (by omega)
      by_cases hq : b = 34
      · rw [if_pos hq, e2, if_neg (by omega), e1, e3]
        obtain ⟨ih1, ih2⟩ := ih (j + 2) (by omega)
        refine ⟨ih1, ?_⟩
        intro w hw
        simp only [List.mem_cons] at hw
        rcases hw with hw | hw | hw
        · rw [hw]; simp only; omega
        · rw [hw]; simp only; omega
        · exact ih2 w hw
      · rw [if_neg hq, e1]
        obtain ⟨ih1, ih2⟩ := ih (j + 1) (by omega)
        refine ⟨ih1, ?_⟩
        intro w hw
        simp only [List.mem_cons] at hw
        rcases hw with hw | hw
        · rw [hw]; simp only; omega
        · exact ih2 w hw
    · rw [if_neg hc]
      exact ⟨hj, fun w hw => by simp at hw⟩

theorem mem_enum_lt {α : Type} (l : List α) (w : Nat × α) (h : w ∈ l.enum) : w.1 < l.length := by
  obtain ⟨i, a⟩ := w
  have := List.mem_enum h
  exact this.1

theorem strncpy_bytes_length (src : List Nat) (n : Nat) : (strncpy_bytes src n).length = n := by
  unfold strncpy_bytes
  simp only [List.length_append, List.length_take, List.length_replicate]
  omega

theorem csv_escape_cons (b : Nat) (rest : List Nat) (out_size : Nat) :
    csv_escape (some (b :: rest)) out_size =
      if needs_quotes out_size (b :: rest) then
        (0, 34) :: (quote_loop out_size (b :: rest) 1).2 ++
          (if (quote_loop out_size (b :: rest) 1).1 < size_sub out_size 1 then
            [((quote_loop out_size (b :: rest) 1).1, 34)] else [])
      else
        (strncpy_bytes (b :: rest) (size_sub out_size 1)).enum ++ [(size_sub out_size 1, 0)] :=
  rfl

/-- The stores of `csv_escape` on a non-empty input, put together from the value `nq`
of `needs_quotes`, the result `r` of the quoting loop and the bytes of `strncpy`. -/
theorem assemble_bounds (out_size : Nat) (h3 : 3 ≤ out_size) (r : Nat × List (Nat × Nat))
    (nq : Bool) (bytes : List Nat) (hb : bytes.length = out_size - 1)
    (hj : r.1 + 1 ≤ out_size) (hws : ∀ w ∈ r.2, w.1 + 1 < out_size) :
    ∀ w ∈ (if nq = true then
             (0, 34) :: r.2 ++ (if r.1 < out_size - 1 then [(r.1, 34)] else [])
           else bytes.enum ++ [(out_size - 1, 0)]),
      w.1 < out_size := by
  intro w hw
  cases nq with
  | true =>
    rw [if_pos rfl] at hw
    by_cases hc : r.1 < out_size - 1
    · rw [if_pos hc] at hw
      simp only [List.mem_cons, List.mem_append, List.not_mem_nil, or_false] at hw
      rcases hw with (hw | hw) | hw
      · have e : w.1 = 0 := congrArg Prod.fst hw
        omega
      · have := hws w hw
        omega
      · have e : w.1 = r.1 := congrArg Prod.fst hw
        omega
    · rw [if_neg hc] at hw
      simp only [List.mem_cons, List.append_nil] at hw
      rcases hw with hw | hw
      · have e : w.1 = 0 := congrArg Prod.fst hw
        omega
      · have := hws w hw
        omega
  | false =>
    rw [if_neg (by simp)] at hw
    simp only [List.mem_append, List.mem_singleton] at hw
    rcases hw with hw | hw
    · have := mem_enum_lt _ w hw
      omega
    · have e : w.1 = out_size - 1 := congrArg Prod.fst hw
      omega

/-- Every store of `csv_escape` is inside a buffer of at least three bytes. -/
theorem csv_escape_bounds (input : Option (List Nat)) (out_size : Nat) (h3 : 3 ≤ out_size)
    (hmax : out_size < SIZE_RANGE) : ∀ w ∈ csv_escape input out_size, w.1 < out_size := by
  have h1 : size_sub out_size 1 = out_size - 1 := size_sub_eq out_size 1 (by omega) hmax
  have h0 : ∀ w : Nat × Nat, w ∈ [((0 : Nat), (0 : Nat))] → w.1 < out_size := by
    intro w hw
    simp only [List.mem_singleton] at hw
    have e : w.1 = 0 := congrArg Prod.fst hw
    omega
  intro w hw
  cases input with
  | none => exact h0 w hw
  | some l =>
    cases l with
    | nil => exact h0 w hw
    | cons b rest =>
      rw [csv_escape_cons, h1] at hw
      obtain ⟨hj, hws⟩ := quote_loop_bounds out_size h3 hmax (b :: rest) 1 (by omega)
      exact assemble_bounds out_size h3 _ _ _ (strncpy_bytes_length (b :: rest) (out_size - 1))
        hj hws w hw

theorem needs_quotes_plain (out_size : Nat) (inp : List Nat)
    (h : inp.any csv_special = false) : needs_quotes out_size inp = false := by
  induction inp with
  | nil => rfl
  | cons b rest ih =>
    rw [List.any_cons, Bool.or_eq_false_iff] at h
    rw [needs_quotes]
    split_ifs with h1 h2
    · rw [h.1] at h2; exact absurd h2 (by simp)
    · exact ih h.2
    · rfl

theorem needs_quotes_eq (out_size : Nat) (h4 : 4 ≤ out_size) (hmax : out_size < SIZE_RANGE)
    (inp : List Nat) : needs_quotes out_size inp = inp.any csv_special := by
  have h1 : size_sub out_size 1 = out_size - 1 := size_sub_eq out_size 1 (by omega) hmax
  have h2 : size_add 0 2 = 2 := size_add_eq 0 2 (by unfold SIZE_RANGE; omega)
  induction inp with
  | nil => rfl
  | cons b rest ih =>
    rw [needs_quotes, h1, h2, if_pos (by omega), List.any_cons, ih]
    cases csv_special b <;> rfl

theorem doubled_cons (b : Nat) (rest : List Nat) :
    doubled (b :: rest) = (if b = 34 then [34, 34] else [b]) ++ doubled rest := by
  unfold doubled
  rw [List.flatMap_cons]

/-- With room for it, the quoting loop stores the input with its double-quotes doubled
at consecutive indices from `j`. -/
theorem quote_loop_eq (out_size : Nat) (hmax : out_size < SIZE_RANGE) (inp : List Nat) :
    ∀ j : Nat, j + (doubled inp).length + 2 ≤ out_size →
      quote_loop out_size inp j = (j + (doubled inp).length, List.enumFrom j (doubled inp)) := by
  induction inp with
  | nil =>
    intro j _
    rfl
  | cons b rest ih =>
    intro j hj
    have h2 : size_sub out_size 2 = out_size - 2 :=
      size_sub_eq out_size 2 (by omega) hmax
    rw [doubled_cons] at hj ⊢
    rw [quote_loop, h2]
    by_cases hq : b = 34
    · rw [if_pos hq] at hj ⊢
      simp only [List.length_append, List.length_cons, List.length_nil] at hj
      have e1 : size_add j 1 = j + 1 := size_add_eq j 1 (by omega)
      have e2 : size_add j 2 = j + 2 := size_add_eq j 2 (by omega)
      have e3 : size_add (j + 1) 1 = j + 2 := size_add_eq (j + 1) 1 (by omega)
      rw [if_pos (by omega), if_pos hq, e2, if_neg (by omega), e1, e3, ih (j + 2) (by omega)]
      simp only [List.length_append, List.length_cons, List.length_nil, List.cons_append,
        List.nil_append, List.enumFrom_cons]
      refine Prod.ext ?_ rfl
      dsimp only
      omega
    · rw [if_neg hq] at hj ⊢
      simp only [List.length_append, List.length_cons, List.length_nil] at hj
      have e1 : size_add j 1 = j + 1 := size_add_eq j 1 (by omega)
      rw [if_pos (by omega), if_neg hq, e1, ih (j + 1) (by omega)]
      simp only [List.length_append, List.length_cons, List.length_nil, List.cons_append,
        List.nil_append, List.enumFrom_cons]
      refine Prod.ext ?_ rfl
      dsimp only
      omega

theorem poke_enumFrom (bytes : List Nat) :
    ∀ pre mid post : List Nat, mid.length = bytes.length →
      poke (pre ++ mid ++ post) (List.enumFrom pre.length bytes) = pre ++ bytes ++ post := by
  induction bytes with
  | nil =>
    intro pre mid post h
    have : mid = [] := List.length_eq_zero.mp h
    rw [this]
    rfl
  | cons b bs ih =>
    intro pre mid post h
    cases mid with
    | nil => simp at h
    | cons m ms =>
      have hl : ms.length = bs.length := by simpa using h
      rw [List.enumFrom_cons]
      unfold poke
      rw [List.foldl_cons]
      have hset : (pre ++ (m :: ms) ++ post).set pre.length b = (pre ++ [b]) ++ ms ++ post := by
        rw [List.append_assoc, List.set_append_right _ _ (Nat.le_refl _), Nat.sub_self]
        simp
      simp only
      rw [hset]
      have := ih (pre ++ [b]) ms post hl
      unfold poke at this
      rw [List.length_append, List.length_singleton] at this
      rw [this]
      simp

theorem poke_enum (bytes buf : List Nat) (h : bytes.length ≤ buf.length) :
    poke buf bytes.enum = bytes ++ buf.drop bytes.length := by
  have := poke_enumFrom bytes [] (buf.take bytes.length) (buf.drop bytes.length)
    (by rw [List.length_take]; omega)
  rw [List.nil_append, List.take_append_drop] at this
  exact this

theorem c_string_terminated (input tail : List Nat) (h : ∀ b ∈ input, b ≠ 0) :
    c_string (input ++ 0 :: tail) = some input := by
  unfold c_string
  rw [if_pos (by simp)]
  rw [List.takeWhile_append_of_pos (by simpa using h)]
  simp

theorem replicate_zero_snoc (k : Nat) : List.replicate k 0 ++ [0] = 0 :: List.replicate k 0 := by
  induction k with
  | zero => rfl
  | succ k ih => rw [List.replicate_succ, List.cons_append, ih]

/-- In the quoting branch with room for the field and a terminator, the stores of
`csv_escape` are the bytes of the quoted field at the indices 0, 1, 2, … -/
theorem csv_escape_quoted (input : List Nat) (out_size : Nat) (hmax : out_size < SIZE_RANGE)
    (hsp : input.any csv_special = true) (hroom : (doubled input).length + 3 ≤ out_size) :
    csv_escape (some input) out_size = ([34] ++ doubled input ++ [34]).enum := by
  cases input with
  | nil => simp at hsp
  | cons b rest =>
    have hpos : 1 ≤ (doubled (b :: rest)).length := by
      rw [doubled_cons]
      split_ifs <;> simp
    have h1 : size_sub out_size 1 = out_size - 1 := size_sub_eq out_size 1 (by omega) hmax
    rw [csv_escape_cons, needs_quotes_eq out_size (by omega) hmax, hsp, if_pos rfl,
      quote_loop_eq out_size hmax (b :: rest) 1 (by omega), h1]
    dsimp only
    rw [if_pos (by omega)]
    simp only [List.enum, List.singleton_append, List.cons_append, List.enumFrom_cons,
      List.enumFrom_append, List.enumFrom_singleton, List.cons.injEq, true_and,
      List.append_cancel_left_eq, List.length_cons, zero_add, List.enumFrom_nil,
      List.nil_append, List.length_nil, Nat.add_zero]

/-- In the copying branch, the stores of `csv_escape` are the bytes of `strncpy` and
the zero byte at the end of the buffer. -/
theorem csv_escape_plain (b : Nat) (rest : List Nat) (out_size : Nat) (h1 : 1 ≤ out_size)
    (hmax : out_size < SIZE_RANGE) (hsp : (b :: rest).any csv_special = false) :
    csv_escape (some (b :: rest)) out_size =
      (strncpy_bytes (b :: rest) (out_size - 1) ++ [0]).enum := by
  have e1 : size_sub out_size 1 = out_size - 1 := size_sub_eq out_size 1 h1 hmax
  rw [csv_escape_cons, needs_quotes_plain out_size _ hsp, if_neg (by simp), e1,
    List.enum_append, List.enumFrom_singleton, strncpy_bytes_length]

theorem csv_escape_empty (input : Option (List Nat)) (h : input = none ∨ input = some [])
    (buf : List Nat) (hbuf : 1 ≤ buf.length) (out_size : Nat) :
    c_string (poke buf (csv_escape input out_size)) = some [] := by
  have hw : csv_escape input out_size = [(0, 0)] := by
    rcases h with h | h <;> rw [h] <;> rfl
  rw [hw]
  cases buf with
  | nil => simp at hbuf
  | cons x tail => exact c_string_terminated [] tail (by simp)

/-- C24 (CSV field quoting): for an input string (no zero byte inside) and a buffer
with room for the quoted field and a terminator, whatever the buffer held before: if
the input contains none of double-quote, comma, line feed, carriage return, the
buffer read as a C string is the input unchanged; otherwise the bytes stored are, at
the indices 0, 1, 2, … in this order, a double-quote, the input with every
double-quote doubled, and a closing double-quote, so the buffer starts with them; and
for a `NULL` or empty input the buffer reads as the empty string. -/
theorem csv_escape_quotes (input : List Nat) (out_size : Nat) (buf : List Nat)
    (hin : ∀ b ∈ input, b ≠ 0) (hbuf : buf.length = out_size) (hmax : out_size < SIZE_RANGE)
    (hroom : (csv_field input).length + 1 ≤ out_size) :
    (input.any csv_special = false →
      csv_field input = input ∧
      c_string (poke buf (csv_escape (some input) out_size)) = some input) ∧
    (input.any csv_special = true →
      csv_field input = [34] ++ doubled input ++ [34] ∧
      (csv_escape (some input) out_size).map Prod.snd = csv_field input ∧
      (csv_escape (some input) out_size).map Prod.fst = List.range (csv_field input).length ∧
      (poke buf (csv_escape (some input) out_size)).take (csv_field input).length =
        csv_field input) ∧
    c_string (poke buf (csv_escape none out_size)) = some [] ∧
    c_string (poke buf (csv_escape (some []) out_size)) = some [] := by
  refine ⟨?_, ?_, csv_escape_empty none (Or.inl rfl) buf (by omega) out_size,
    csv_escape_empty (some []) (Or.inr rfl) buf (by omega) out_size⟩
  · intro hsp
    have hf : csv_field input = input := by
      unfold csv_field
      rw [hsp]
      rfl
    refine ⟨hf, ?_⟩
    rw [hf] at hroom
    cases input with
    | nil => exact csv_escape_empty (some []) (Or.inr rfl) buf (by omega) out_size
    | cons b rest =>
      rw [csv_escape_plain b rest out_size (by omega) hmax hsp,
        poke_enum _ buf (by rw [List.length_append, strncpy_bytes_length, hbuf,
          List.length_singleton]; omega)]
      unfold strncpy_bytes
      rw [List.take_of_length_le (by omega), List.append_assoc, List.append_assoc,
        ← List.append_assoc (List.replicate _ 0), replicate_zero_snoc, List.cons_append]
      exact c_string_terminated _ _ hin
  · intro hsp
    have hf : csv_field input = [34] ++ doubled input ++ [34] := by
      unfold csv_field
      rw [hsp]
      rfl
    have hlen : (csv_field input).length = (doubled input).length + 2 := by
      rw [hf]
      simp only [List.length_append, List.length_singleton]
      omega
    have hw := csv_escape_quoted input out_size hmax hsp (by omega)
    rw [← hf] at hw
    refine ⟨hf, ?_, ?_, ?_⟩
    · rw [hw, List.enum_map_snd]
    · rw [hw, List.enum_map_fst]
    · rw [hw, poke_enum _ buf (by omega), List.take_left]

set_option maxRecDepth 20000 in
theorem csv_escape_quotes_witness :
    csv_field (c_str "a,b") = [34] ++ doubled (c_str "a,b") ++ [34] ∧
    (csv_escape (some (c_str "a,b")) 8).map Prod.snd = csv_field (c_str "a,b") ∧
    (csv_escape (some (c_str "a,b")) 8).map Prod.fst =
      List.range (csv_field (c_str "a,b")).length ∧
    (poke (List.replicate 8 88) (csv_escape (some (c_str "a,b")) 8)).take
        (csv_field (c_str "a,b")).length =
      csv_field (c_str "a,b") :=
  (csv_escape_quotes (c_str "a,b") 8 (List.replicate 8 88) (by decide) rfl (by decide)
    (by decide)).2.1 (by decide)

/-- In the quoting branch the bytes of the buffer after the closing double-quote are
the ones it held before the call: no terminator is stored. -/
theorem csv_escape_quoted_tail (input : List Nat) (out_size : Nat) (buf : List Nat)
    (hbuf : buf.length = out_size) (hmax : out_size < SIZE_RANGE)
    (hsp : input.any csv_special = true) (hroom : (doubled input).length + 3 ≤ out_size) :
    poke buf (csv_escape (some input) out_size) =
      [34] ++ doubled input ++ [34] ++ buf.drop ((doubled input).length + 2) := by
  rw [csv_escape_quoted input out_size hmax hsp hroom, poke_enum _ buf (by
    simp only [List.length_append, List.length_singleton]; omega)]
  simp only [List.length_append, List.length_singleton]
  rw [show 1 + (doubled input).length + 1 = (doubled input).length + 2 by omega]

/-- C28 (stores stay inside the buffer): for every input, `NULL` included, and every
`out_size` of at least 3 that a `size_t` holds, with the size arithmetic of the code
taken modulo 2^64, every index `csv_escape` stores at is below `out_size`. -/
theorem csv_escape_in_buffer (input : Option (List Nat)) (out_size : Nat) (h3 : 3 ≤ out_size)
    (hmax : out_size < SIZE_RANGE) : ∀ w ∈ csv_escape input out_size, w.1 < out_size :=
  csv_escape_bounds input out_size h3 hmax

theorem csv_escape_in_buffer_witness :
    ((3, 34) : Nat × Nat) ∈ csv_escape (some [34, 34, 34, 34, 34, 34]) 5 ∧
    ((3, 34) : Nat × Nat).1 < 5 :=
  ⟨by decide,
   csv_escape_in_buffer (some [34, 34, 34, 34, 34, 34]) 5 (by decide) (by decide) (3, 34)
     (by decide)⟩

/-- Six double-quotes into a buffer of five bytes: the stores made. -/
theorem csv_escape_only_quotes :
    csv_escape (some [34, 34, 34, 34, 34, 34]) 5 = [(0, 34), (1, 34), (2, 34), (3, 34)] ∧
    csv_escape (some (c_str "abcdefgh")) 4 = [(0, 97), (1, 98), (2, 99), (3, 0)] ∧
    csv_escape (some (c_str "a,bcdefgh")) 4 = [(0, 34), (1, 97), (2, 34)] := by
  decide

/-- A quoted field into a buffer that holds no zero byte: the field is stored, the
bytes after it stay, and the buffer read as a C string has no end inside the buffer. -/
theorem csv_escape_unterminated :
    poke (List.replicate 8 88) (csv_escape (some (c_str "a,b")) 8) =
      [34] ++ c_str "a,b" ++ [34] ++ c_str "XXX" ∧
    c_string (poke (List.replicate 8 88) (csv_escape (some (c_str "a,b")) 8)) = none ∧
    c_string (poke (List.replicate 8 0) (csv_escape (some (c_str "a,b")) 8)) =
      some ([34] ++ c_str "a,b" ++ [34]) ∧
    c_string (poke (c_str "XXXXXXX" ++ [0]) (csv_escape (some (c_str "a,b")) 8)) =
      some ([34] ++ c_str "a,b" ++ [34] ++ c_str "XX") := by
  decide

/-- Three calls of `export_to_csv` on its buffer `escaped` for one record: parent
category `Food`, category `Food, drinks`, account `a,b`. What is read after the third
call is the quoted account name followed by what the second call left. -/
theorem csv_escape_stale_tail :
    c_string (escaped_after (escaped_after (escaped_after (List.replicate 1024 88)
        (some (c_str "Food"))) (some (c_str "Food, drinks"))) (some (c_str "a,b"))) =
      some ([34] ++ c_str "a,b" ++ [34] ++ c_str ", drinks" ++ [34]) ∧
    csv_field (c_str "a,b") = [34] ++ c_str "a,b" ++ [34] := by
  decide!

/-! ## Date validation -/

/-- The range tests of `is_valid_date` on natural numbers are the calendar test. -/
theorem date_in_range_iff (y m d : Nat) :
    date_in_range (y : Int) (m : Int) (d : Int) = true ↔ calendar_date y m d := by
  unfold date_in_range calendar_date
  by_cases hy : (y : Int) < 1900 ∨ (y : Int) > 2100
  · rw [if_pos hy]
    constructor
    · intro h; exact absurd h (by simp)
    · intro h; omega
  rw [if_neg hy]
  by_cases hm : (m : Int) < 1 ∨ (m : Int) > 12
  · rw [if_pos hm]
    constructor
    · intro h; exact absurd h (by simp)
    · intro h; omega
  rw [if_neg hm]
  have hm1 : 1 ≤ m := by omega
  have hm2 : m ≤ 12 := by omega
  have hy1 : 1900 ≤ y := by omega
  have hy2 : y ≤ 2100 := by omega
  have hleap : ((y : Int) % 4 = 0 ∧ (y : Int) % 100 ≠ 0 ∨ (y : Int) % 400 = 0) ↔
      leap_year y = true := by
    unfold leap_year
    simp only [Bool.or_eq_true, Bool.and_eq_true, decide_eq_true_eq, ne_eq]
    omega
  by_cases hd : (d : Int) < 1 ∨ (d : Int) > 31
  · rw [if_pos hd]
    constructor
    · intro h; exact absurd h (by simp)
    · intro h
      have : month_days y m ≤ 31 := by
        unfold month_days
        split_ifs <;> omega
      omega
  rw [if_neg hd]
  have hd1 : 1 ≤ d := by omega
  simp only [decide_eq_true_eq, hy1, hy2, hm1, hm2, hd1, true_and]
  have hfeb : (28 + (if ((y : Int) % 4 = 0 ∧ (y : Int) % 100 ≠ 0) ∨ (y : Int) % 400 = 0
      then 1 else 0) : Int) = ((month_days y 2 : Nat) : Int) := by
    unfold month_days
    by_cases hl : leap_year y = true
    · rw [if_pos (hleap.mpr hl)]; simp [hl]
    · rw [if_neg (fun h => hl (hleap.mp h))]; simp [hl]
  unfold days_in_month
  rw [hfeb]
  interval_cases m
  · simp [month_days]
  · simp
  · simp [month_days]
  · simp [month_days]
  · simp [month_days]
  · simp [month_days]
  · simp [month_days]
  · simp [month_days]
  · simp [month_days]
  · simp [month_days]
  · simp [month_days]
  · simp [month_days]

theorem digit_not_space (a : Nat) (h : isdigit a = true) :
    isspace a = false ∧ ¬ a = 45 ∧ ¬ a = 43 := by
  unfold isdigit at h
  unfold isspace
  simp only [Bool.and_eq_true, decide_eq_true_eq] at h
  simp only [Bool.or_eq_false_iff, Bool.and_eq_false_iff, decide_eq_false_iff_not]
  omega

theorem scan_int_two (a b : Nat) (rest : List Nat) (ha : isdigit a = true)
    (hb : isdigit b = true) (hr : ∀ c ∈ rest.head?, isdigit c = false) :
    scan_int (a :: b :: rest) = some (((decimal [a, b] : Nat) : Int), rest) := by
  obtain ⟨hs, hn, hp⟩ := digit_not_space a ha
  have hrest : scan_digits rest ((0 * 10 + (a - 48)) * 10 + (b - 48)) =
      ((0 * 10 + (a - 48)) * 10 + (b - 48), rest) := by
    cases rest with
    | nil => rfl
    | cons c cs =>
      have := hr c (by simp)
      rw [scan_digits, this]
      rfl
  unfold scan_int
  rw [List.dropWhile_cons_of_neg (by rw [hs]; exact Bool.false_ne_true)]
  simp only [hn, hp, ha, if_false, if_true]
  rw [scan_digits, ha, if_pos rfl, scan_digits, hb, if_pos rfl, hrest]
  rfl

theorem scan_int_four (a b c d : Nat) (rest : List Nat) (ha : isdigit a = true)
    (hb : isdigit b = true) (hc : isdigit c = true) (hd : isdigit d = true)
    (hr : ∀ x ∈ rest.head?, isdigit x = false) :
    scan_int (a :: b :: c :: d :: rest) = some (((decimal [a, b, c, d] : Nat) : Int), rest) := by
  obtain ⟨hs, hn, hp⟩ := digit_not_space a ha
  have hrest : scan_digits rest ((((0 * 10 + (a - 48)) * 10 + (b - 48)) * 10 + (c - 48)) * 10 +
      (d - 48)) =
      ((((0 * 10 + (a - 48)) * 10 + (b - 48)) * 10 + (c - 48)) * 10 + (d - 48), rest) := by
    cases rest with
    | nil => rfl
    | cons x xs =>
      have := hr x (by simp)
      rw [scan_digits, this]
      rfl
  unfold scan_int
  rw [List.dropWhile_cons_of_neg (by rw [hs]; exact Bool.false_ne_true)]
  simp only [hn, hp, ha, if_false, if_true]
  rw [scan_digits, ha, if_pos rfl, scan_digits, hb, if_pos rfl, scan_digits, hc, if_pos rfl,
    scan_digits, hd, if_pos rfl, hrest]
  rfl

/-- On a string of the form `DDDD-DD-DD` the call of `sscanf` returns 3 with the values
of the three digit groups. -/
theorem sscanf_well_formed (a0 a1 a2 a3 a5 a6 a8 a9 : Nat) (h0 : isdigit a0 = true)
    (h1 : isdigit a1 = true) (h2 : isdigit a2 = true) (h3 : isdigit a3 = true)
    (h5 : isdigit a5 = true) (h6 : isdigit a6 = true) (h8 : isdigit a8 = true)
    (h9 : isdigit a9 = true) :
    sscanf_date [a0, a1, a2, a3, 45, a5, a6, 45, a8, a9] =
      some (((decimal [a0, a1, a2, a3] : Nat) : Int), ((decimal [a5, a6] : Nat) : Int),
        ((decimal [a8, a9] : Nat) : Int)) := by
  have hdash : ∀ l : List Nat, ∀ c ∈ (45 :: l).head?, isdigit c = false := by
    intro l c hc
    simp only [List.head?_cons, Option.mem_def, Option.some.injEq] at hc
    rw [← hc]
    rfl
  unfold sscanf_date
  rw [scan_int_four a0 a1 a2 a3 _ h0 h1 h2 h3 (hdash _)]
  simp only [scan_dash, if_true]
  rw [scan_int_two a5 a6 _ h5 h6 (hdash _)]
  simp only [scan_dash, if_true]
  rw [scan_int_two a8 a9 [] h8 h9 (by simp)]

theorem well_formed_date_cases (s : List Nat) (h : well_formed_date s = true) :
    ∃ a0 a1 a2 a3 a5 a6 a8 a9 : Nat, s = [a0, a1, a2, a3, 45, a5, a6, 45, a8, a9] ∧
      isdigit a0 = true ∧ isdigit a1 = true ∧ isdigit a2 = true ∧ isdigit a3 = true ∧
      isdigit a5 = true ∧ isdigit a6 = true ∧ isdigit a8 = true ∧ isdigit a9 = true := by
  unfold well_formed_date at h
  simp only [Bool.and_eq_true, decide_eq_true_eq, List.all_eq_true, List.mem_range] at h
  obtain ⟨hlen, hall⟩ := h
  rcases s with _ | ⟨a0, s⟩
  · simp at hlen
  rcases s with _ | ⟨a1, s⟩
  · simp at hlen
  rcases s with _ | ⟨a2, s⟩
  · simp at hlen
  rcases s with _ | ⟨a3, s⟩
  · simp at hlen
  rcases s with _ | ⟨a4, s⟩
  · simp at hlen
  rcases s with _ | ⟨a5, s⟩
  · simp at hlen
  rcases s with _ | ⟨a6, s⟩
  · simp at hlen
  rcases s with _ | ⟨a7, s⟩
  · simp at hlen
  rcases s with _ | ⟨a8, s⟩
  · simp at hlen
  rcases s with _ | ⟨a9, s⟩
  · simp at hlen
  rcases s with _ | ⟨a10, s⟩
  swap
  · simp at hlen
  have e0 := hall 0 (by omega)
  have e1 := hall 1 (by omega)
  have e2 := hall 2 (by omega)
  have e3 := hall 3 (by omega)
  have e4 := hall 4 (by omega)
  have e5 := hall 5 (by omega)
  have e6 := hall 6 (by omega)
  have e7 := hall 7 (by omega)
  have e8 := hall 8 (by omega)
  have e9 := hall 9 (by omega)
  simp at e0 e1 e2 e3 e4 e5 e6 e7 e8 e9
  subst e4
  subst e7
  exact ⟨a0, a1, a2, a3, a5, a6, a8, a9, rfl, e0, e1, e2, e3, e5, e6, e8, e9⟩

/-- C26 (calendar dates): on every string of the form `DDDD-DD-DD` made of decimal
digits, `is_valid_date` returns true exactly when the year, the month and the day
written (the values of the digit groups) are a date of the Gregorian calendar with
1900 ≤ year ≤ 2100: 1 ≤ month ≤ 12 and 1 ≤ day ≤ the number of days of that month
in that year. -/
theorem is_valid_date_calendar (s : List Nat) (h : well_formed_date s = true) :
    is_valid_date s = true ↔
      calendar_date (decimal (s.take 4)) (decimal ((s.drop 5).take 2)) (decimal (s.drop 8)) := by
  obtain ⟨a0, a1, a2, a3, a5, a6, a8, a9, rfl, h0, h1, h2, h3, h5, h6, h8, h9⟩ :=
    well_formed_date_cases s h
  unfold is_valid_date
  rw [if_neg (by simp), sscanf_well_formed a0 a1 a2 a3 a5 a6 a8 a9 h0 h1 h2 h3 h5 h6 h8 h9]
  exact date_in_range_iff _ _ _

theorem is_valid_date_calendar_witness :
    is_valid_date (c_str "2000-02-29") = true ↔
      calendar_date (decimal ((c_str "2000-02-29").take 4))
        (decimal (((c_str "2000-02-29").drop 5).take 2))
        (decimal ((c_str "2000-02-29").drop 8)) :=
  is_valid_date_calendar (c_str "2000-02-29") (by decide)

/-- Three dates of 29 February (2000 is a leap year, 1900 and 2100 are not), and the
year, month and day read from the first. -/
theorem leap_day_examples :
    is_valid_date (c_str "2000-02-29") = true ∧
    is_valid_date (c_str "1900-02-29") = false ∧
    is_valid_date (c_str "2100-02-29") = false ∧
    sscanf_date (c_str "2000-02-29") = some (2000, 2, 29) ∧
    calendar_date 2000 2 29 ∧ ¬ calendar_date 1900 2 29 ∧ ¬ calendar_date 2100 2 29 := by
  decide

/-- C25 (only well-formed dates), evaluated on the code: `is_valid_date` accepts
strings of ten bytes with `-` at the positions 4 and 7 that are not of the form
`YYYY-MM-DD`. The conversion `%d` of `sscanf` skips white space, takes a sign, and
stops at the first byte that is no digit, and nothing checks what follows the day:
a sign in the month and day fields, a space in them, a letter or a space after a
one-digit day. -/
theorem is_valid_date_accepts_malformed :
    (is_valid_date (c_str "2020-+1-+1") = true ∧ well_formed_date (c_str "2020-+1-+1") = false) ∧
    (is_valid_date (c_str "2020- 1- 1") = true ∧ well_formed_date (c_str "2020- 1- 1") = false) ∧
    (is_valid_date (c_str "2020-01-1x") = true ∧ well_formed_date (c_str "2020-01-1x") = false) ∧
    (is_valid_date (c_str "2020-01-1 ") = true ∧ well_formed_date (c_str "2020-01-1 ") = false) ∧
    sscanf_date (c_str "2020-+1-+1") = some (2020, 1, 1) ∧
    sscanf_date (c_str "2020-01-1x") = some (2020, 1, 1) := by
  decide

/-! ## Login at startup -/

theorem login_attempts_iff (hash_password : String → String → String) (env : AuthEnv)
    (db : AuthDb) (n : Nat) :
    ∀ pwds : List (Option String),
      (login_attempts hash_password env db n pwds = 1 ↔
        verified_within hash_password env db n pwds) ∧
      (login_attempts hash_password env db n pwds = 0 ∨
        login_attempts hash_password env db n pwds = 1) := by
  unfold verified_within
  induction n with
  | zero =>
    intro pwds
    simp [login_attempts]
  | succ n ih =>
    intro pwds
    rw [login_attempts]
    cases pwds with
    | nil =>
      have hno : authenticate_user hash_password env db none = false := rfl
      simp only [List.head?_nil, Option.getD_none, hno, List.tail_nil, List.take_nil,
        List.not_mem_nil, false_and, exists_false, iff_false]
      have := ih []
      simp only [List.take_nil, List.not_mem_nil, false_and, exists_false, iff_false] at this
      rcases this.2 with h | h
      · simp [h]
      · exact absurd h this.1
    | cons p ps =>
      simp only [List.head?_cons, Option.getD_some, List.tail_cons, List.take_succ_cons,
        List.mem_cons]
      by_cases hp : authenticate_user hash_password env db p = true
      · rw [if_pos hp]
        exact ⟨⟨fun _ => ⟨p, Or.inl rfl, hp⟩, fun _ => rfl⟩, Or.inr rfl⟩
      · rw [if_neg hp]
        refine ⟨?_, (ih ps).2⟩
        rw [(ih ps).1]
        constructor
        · rintro ⟨x, hx, hxa⟩
          exact ⟨x, Or.inr hx, hxa⟩
        · rintro ⟨x, hx | hx, hxa⟩
          · rw [hx] at hxa; exact absurd hxa hp
          · exact ⟨x, hx, hxa⟩

/-- With the database open and an admin row that `is_first_run` sees, the call
returns 1 exactly when one of the first three answers authenticates, 0 otherwise, and
leaves the table as it is. -/
theorem login_existing_admin (hash_password : String → String → String) (env : AuthEnv)
    (db : AuthDb) (pwds : List (Option String)) (hopen : env.open_ok = true)
    (hcount : env.count_ok = true) (hrow : db.admin.isSome = true) :
    (login_at_startup hash_password env db pwds).2 = db ∧
    ((login_at_startup hash_password env db pwds).1 = 1 ↔
      verified_within hash_password env db 3 pwds) ∧
    (¬ verified_within hash_password env db 3 pwds →
      (login_at_startup hash_password env db pwds).1 = 0) := by
  have hfirst : is_first_run env db = false := by
    unfold is_first_run
    rw [hcount]
    cases h : db.admin with
    | none => rw [h] at hrow; exact absurd hrow (by simp)
    | some row => rfl
  have hrun : login_at_startup hash_password env db pwds =
      (login_attempts hash_password env db 3 pwds, db) := by
    unfold login_at_startup
    rw [hopen, hfirst]
    rfl
  rw [hrun]
  obtain ⟨hiff, hval⟩ := login_attempts_iff hash_password env db 3 pwds
  refine ⟨rfl, hiff, ?_⟩
  intro hno
  rcases hval with h | h
  · exact h
  · exact absurd (hiff.mp h) hno

/-- Whenever the call returns 1, it took the first-run branch or one of the first
three answers authenticated. -/
theorem login_granted (hash_password : String → String → String) (env : AuthEnv)
    (db : AuthDb) (pwds : List (Option String))
    (h : (login_at_startup hash_password env db pwds).1 = 1) :
    env.open_ok = true ∧
    (is_first_run env db = true ∨ verified_within hash_password env db 3 pwds) := by
  unfold login_at_startup at h
  by_cases hopen : env.open_ok = false
  · rw [if_pos hopen] at h
    have h0 : (0 : Int) = 1 := h
    omega
  rw [if_neg hopen] at h
  refine ⟨by simpa using hopen, ?_⟩
  by_cases hfirst : is_first_run env db = true
  · exact Or.inl hfirst
  · rw [if_neg hfirst] at h
    exact Or.inr ((login_attempts_iff hash_password env db 3 pwds).1.mp h)

/-- C29 (access only with a password), evaluated on the code, for any hash function:
on a first run with the Enter key alone at the password prompt, with `getpass`
returning `NULL`, or with the `INSERT` failing, `login_at_startup` returns 1 and the
admin table is still empty; and with an admin row in the table and the count query
of `is_first_run` failing, it returns 1 on any answer, the stored password neither
checked nor replaced. -/
theorem login_without_stored_password :
    ∀ hash_password : String → String → String,
      login_at_startup hash_password (AuthEnv.ok "salt") { admin := none } [some ""] =
        (1, { admin := none }) ∧
      login_at_startup hash_password (AuthEnv.ok "salt") { admin := none } [none] =
        (1, { admin := none }) ∧
      login_at_startup hash_password { AuthEnv.ok "salt" with insert_step_ok := false }
          { admin := none } [some "secret"] =
        (1, { admin := none }) ∧
      login_at_startup hash_password { AuthEnv.ok "salt" with count_ok := false }
          { admin := some (hash_password "secret" "pepper", "pepper") } [some "guess"] =
        (1, { admin := some (hash_password "secret" "pepper", "pepper") }) := by
  intro hash_password
  exact ⟨rfl, rfl, rfl, rfl⟩

/-- The part of C29 that holds, on an example with concatenation standing for the
hash: with an admin row that the count query sees, three wrong answers give 0, and a
right answer at the third try gives 1. -/
theorem login_three_answers :
    login_at_startup (fun p s => p ++ s) (AuthEnv.ok "salt")
        { admin := some ("secretpepper", "pepper") }
        [some "guess", some "", none, some "secret"] =
      (0, { admin := some ("secretpepper", "pepper") }) ∧
    login_at_startup (fun p s => p ++ s) (AuthEnv.ok "salt")
        { admin := some ("secretpepper", "pepper") }
        [some "guess", some "", some "secret"] =
      (1, { admin := some ("secretpepper", "pepper") }) ∧
    login_at_startup (fun p s => p ++ s) (AuthEnv.ok "salt") { admin := none }
        [some "secret"] =
      (1, { admin := some ("secretsalt", "salt") }) := by
  decide
/-! ## Paging of the record list -/

theorem wrap_int_eq (x : Int) (h1 : -2147483648 ≤ x) (h2 : x ≤ 2147483647) : wrap_int x = x := by
  unfold wrap_int
  omega

/-- The page stays in range over one pass of the loop, no `int` expression wrapping. -/
theorem page_step_range (total_records current_page next : Int) (input : Option String)
    (hmax : total_records ≤ 2147483640) (h0 : 0 ≤ current_page)
    (h1 : current_page * 8 < total_records)
    (h : page_step total_records current_page input = some next) :
    0 ≤ next ∧ next * 8 < total_records := by
  have e1 : wrap_int (current_page + 1) = current_page + 1 := wrap_int_eq _ (by omega) (by omega)
  have e2 : wrap_int ((current_page + 1) * PAGE_SIZE) = (current_page + 1) * 8 := by
    unfold PAGE_SIZE
    exact wrap_int_eq _ (by omega) (by omega)
  have e3 : wrap_int (current_page - 1) = current_page - 1 := wrap_int_eq _ (by omega) (by omega)
  unfold page_step at h
  cases input with
  | none => exact absurd h (by simp)
  | some line =>
    simp only [e1, e2, e3] at h
    split_ifs at h with hq hn hlt hp hgt
    all_goals
      have := Option.some.inj h
      omega

theorem pages_shown_range (total_records : Int) (hmax : total_records ≤ 2147483640)
    (inputs : List (Option String)) :
    ∀ current_page : Int, 0 ≤ current_page → current_page * 8 < total_records →
      ∀ p ∈ pages_shown total_records current_page inputs, 0 ≤ p ∧ p * 8 < total_records := by
  induction inputs with
  | nil =>
    intro current_page h0 h1 p hp
    rw [pages_shown, List.mem_singleton] at hp
    rw [hp]
    exact ⟨h0, h1⟩
  | cons input rest ih =>
    intro current_page h0 h1 p hp
    rw [pages_shown] at hp
    cases hstep : page_step total_records current_page input with
    | none =>
      rw [hstep] at hp
      simp only [List.mem_singleton] at hp
      rw [hp]
      exact ⟨h0, h1⟩
    | some next =>
      rw [hstep] at hp
      simp only [List.mem_cons] at hp
      rcases hp with hp | hp
      · rw [hp]
        exact ⟨h0, h1⟩
      · obtain ⟨hn0, hn1⟩ :=
          page_step_range total_records current_page next input hmax h0 h1 hstep
        exact ih next hn0 hn1 p hp

/-- The page count printed is the number of pages, up to 2147483640 records. At that
count `total_records + PAGE_SIZE` wraps and the subtraction of 1 wraps back. -/
theorem total_pages_eq (total_records : Int) (h0 : 0 < total_records)
    (hmax : total_records ≤ 2147483640) : total_pages total_records = (total_records + 7) / 8 := by
  by_cases htop : total_records = 2147483640
  · rw [htop]
    decide
  · unfold total_pages PAGE_SIZE
    rw [wrap_int_eq (total_records + 8) (by omega) (by omega),
      wrap_int_eq (total_records + 8 - 1) (by omega) (by omega),
      Int.tdiv_eq_ediv (by omega) (by omega)]
    congr 1
    omega

/-- C30 as amended (pagination stays in range): in `list_records` with a record count
0 < `total_records` ≤ 2147483640 (`INT_MAX - 7`), for every sequence of lines typed,
every page index `p` the loop shows satisfies 0 ≤ p and p * 8 < total_records; the
page number printed, p + 1, is at most the page count printed; and the `OFFSET` of the
query is p * 8, the position of an existing record. -/
theorem pagination_in_range (total_records : Int) (inputs : List (Option String))
    (h0 : 0 < total_records) (hmax : total_records ≤ 2147483640) :
    ∀ p ∈ list_records total_records inputs,
      0 ≤ p ∧ p * 8 < total_records ∧ p + 1 ≤ total_pages total_records ∧
      page_offset p = p * 8 ∧ 0 ≤ page_offset p ∧ page_offset p < total_records := by
  intro p hp
  unfold list_records at hp
  rw [if_neg (by omega)] at hp
  obtain ⟨h1, h2⟩ := pages_shown_range total_records hmax inputs 0 (by omega) (by omega) p hp
  have hoff : page_offset p = p * 8 := by
    unfold page_offset PAGE_SIZE
    exact wrap_int_eq _ (by omega) (by omega)
  rw [total_pages_eq total_records h0 hmax, hoff]
  refine ⟨h1, h2, ?_, rfl, ?_, h2⟩
  · omega
  · omega

theorem pagination_in_range_witness :
    (2 : Int) ∈ list_records 17 [some "N", some "n", some "N", some "x", some "P", some "Q"] ∧
    (0 ≤ (2 : Int) ∧ (2 : Int) * 8 < 17 ∧ (2 : Int) + 1 ≤ total_pages 17 ∧
      page_offset 2 = 2 * 8 ∧ 0 ≤ page_offset 2 ∧ page_offset 2 < 17) :=
  ⟨by decide,
   pagination_in_range 17 [some "N", some "n", some "N", some "x", some "P", some "Q"]
     (by decide) (by decide) 2 (by decide)⟩

/-- C30 as stated fails at the top of the `int` range: with 2147483641 records in the
table, a count that is > 0, the expression `total_records + PAGE_SIZE - 1` wraps, the
page count printed is -268435456, and on the first page shown, before any key is
pressed, the page number 1 exceeds it. -/
theorem pagination_count_overflows :
    list_records 2147483641 [] = [0] ∧
    total_pages 2147483641 = -268435456 ∧
    ¬ ((0 : Int) + 1 ≤ total_pages 2147483641) ∧
    total_pages 2147483640 = 268435455 := by
  decide

/-- Seventeen records, three pages: `N` moves forward up to the last page, `P` back
down to the first, any other line stays, `Q` ends the loop. -/
theorem pagination_example :
    list_records 17 [some "N", some "n", some "N", some "x", some "P", some "p", some "P",
      some "Q", some "N"] = [0, 1, 2, 2, 2, 1, 0, 0] ∧
    total_pages 17 = 3 ∧ total_pages 16 = 2 ∧
    list_records 16 [some "N", some "N", none] = [0, 1, 1] ∧
    list_records 0 [some "N"] = [] := by
  decide

/-! ## REAL arithmetic in doubles -/

theorem add_record_with_exact (q : Sql) (s : Store) (inp : AddInput) :
    add_record_with apply_balance_delta q s inp = add_record q s inp := rfl

theorem edit_record_with_exact (q : Sql) (s : Store) (inp : EditInput) :
    edit_record_with apply_balance_delta q s inp = edit_record q s inp := rfl

theorem delete_record_with_exact (q : Sql) (s : Store) (id : Int) (confirm : String) :
    delete_record_with apply_balance_delta q s id confirm = delete_record q s id confirm := rfl

/-- Values of `to_double`: 0.1, 0.2 and 0.7 are no doubles; 0.5, 0.25 and the
integers below 2^53 are; 10^16 + 1 rounds to 10^16; a number half-way between two
doubles goes to the one with an even last bit, also among the subnormal numbers. -/
theorem to_double_values :
    to_double (9007199254740992 + 1) = 9007199254740992 ∧
    to_double (9007199254740992 + 3) = 9007199254740996 ∧
    to_double (1 / 3) = 6004799503160661 / 18014398509481984 ∧
    to_double (-1 / 3) = -6004799503160661 / 18014398509481984 ∧
    to_double (123456789 / 1000) = 8483885939586761 / 68719476736 ∧
    to_double (3 / 2 ^ 1075) = 2 / 2 ^ 1074 ∧
    to_double (1 / 2 ^ 1075) = 0 ∧
    to_double (DBL_MAX + 2 ^ 969) = DBL_MAX ∧
    to_double (1 / 10) = 3602879701896397 / 36028797018963968 ∧
    to_double (1 / 5) = 3602879701896397 / 18014398509481984 ∧
    to_double (7 / 10) = 3152519739159347 / 4503599627370496 ∧
    to_double (1 / 2) = 1 / 2 ∧ to_double (1 / 4) = 1 / 4 ∧
    to_double 1000 = 1000 ∧ to_double (-200) = -200 ∧
    to_double (to_double (1 / 10)) = to_double (1 / 10) ∧
    to_double (10000000000000000 + 1) = 10000000000000000 ∧
    is_double 1000 = true ∧ is_double (1 / 10) = false ∧ is_double DBL_MAX = true ∧
    is_double (2 * DBL_MAX) = false := by
  decide!

theorem is_double_eq (x : ℚ) (h : is_double x = true) : to_double x = x := by
  unfold is_double at h
  simp only [Bool.and_eq_true, decide_eq_true_eq] at h
  exact h.2

theorem apply_balance_delta_double_exact (ok : Bool) (s : Store) (account_id : Int) (delta : ℚ)
    (hx : 0 < account_id → ∀ a ∈ s.accounts, a.id = account_id →
      to_double (a.balance + delta) = a.balance + delta) :
    apply_balance_delta_double ok s account_id delta =
      apply_balance_delta ok s account_id delta := by
  unfold apply_balance_delta_double apply_balance_delta
  by_cases h : account_id ≤ 0
  · simp [h]
  · have hp : 0 < account_id := not_le.mp h
    cases ok
    · simp [h]
    · have hmap : (s.accounts.map fun a =>
          if a.id = account_id then { a with balance := to_double (a.balance + delta) } else a) =
          s.accounts.map fun a =>
            if a.id = account_id then { a with balance := a.balance + delta } else a := by
        apply List.map_congr_left
        intro a ha
        by_cases hid : a.id = account_id
        · simp only [hid, if_true, hx hp a ha hid]
        · simp only [hid, if_false]
      simp only [h, if_false, Bool.true_eq_false, hmap]

theorem add_record_double_exact (q : Sql) (s : Store) (inp : AddInput)
    (hx : 0 < select_account s inp.acc_choice → ∀ a ∈ s.accounts,
      a.id = select_account s inp.acc_choice →
      to_double (a.balance + signed inp.type_str inp.amount) =
        a.balance + signed inp.type_str inp.amount) :
    add_record_double q s inp = add_record q s inp := by
  have e := apply_balance_delta_double_exact q.delta1_ok
    { s with records := s.records ++ [added_row s inp], seq_records := (added_row s inp).id }
    (select_account s inp.acc_choice) (signed inp.type_str inp.amount) hx
  unfold signed at e
  unfold add_record_double add_record_with add_record
  simp only [e]

theorem delete_record_double_exact (q : Sql) (s : Store) (id : Int) (confirm : String)
    (hx : ∀ row, find_record s id = some row → 0 < row.account_id → ∀ a ∈ s.accounts,
      a.id = row.account_id →
      to_double (a.balance + -signed row.type row.amount) =
        a.balance + -signed row.type row.amount) :
    delete_record_double q s id confirm = delete_record q s id confirm := by
  unfold delete_record_double delete_record_with delete_record
  cases hf : find_record s id with
  | none => rfl
  | some row =>
    have e := apply_balance_delta_double_exact q.delta1_ok s row.account_id
      (-signed row.type row.amount) (hx row hf)
    rw [← old_delta_eq] at e
    simp only [e]

theorem edit_record_double_exact (q : Sql) (s : Store) (inp : EditInput)
    (hq1 : q.delta1_ok = true)
    (hx : ∀ orig, find_record s inp.id = some orig →
      (0 < orig.account_id → ∀ a ∈ s.accounts, a.id = orig.account_id →
        to_double (a.balance + -signed orig.type orig.amount) =
          a.balance + -signed orig.type orig.amount) ∧
      (0 < (edited_row s inp orig).account_id → ∀ a ∈ s.accounts,
        a.id = (edited_row s inp orig).account_id →
        to_double ((if 0 < orig.account_id ∧ a.id = orig.account_id then
            a.balance + -signed orig.type orig.amount else a.balance) +
            signed (edited_row s inp orig).type (edited_row s inp orig).amount) =
          (if 0 < orig.account_id ∧ a.id = orig.account_id then
            a.balance + -signed orig.type orig.amount else a.balance) +
            signed (edited_row s inp orig).type (edited_row s inp orig).amount)) :
    edit_record_double q s inp = edit_record q s inp := by
  unfold edit_record_double edit_record_with edit_record
  cases hf : find_record s inp.id with
  | none => rfl
  | some orig =>
    have e1 := apply_balance_delta_double_exact q.delta1_ok
      { s with records := s.records.map fun r =>
          if r.id = inp.id then overwrite (edited_row s inp orig) r else r }
      orig.account_id (-signed orig.type orig.amount) (hx orig hf).1
    have e2 := apply_balance_delta_double_exact q.delta2_ok
      (apply_balance_delta q.delta1_ok
        { s with records := s.records.map fun r =>
            if r.id = inp.id then overwrite (edited_row s inp orig) r else r }
        orig.account_id (-signed orig.type orig.amount)).1
      (edited_row s inp orig).account_id
      (signed (edited_row s inp orig).type (edited_row s inp orig).amount)
      (by
        intro hp a ha hid
        rw [apply_balance_delta_store, hq1] at ha
        by_cases hpo : 0 < orig.account_id
        · simp only [hpo, and_self, if_true] at ha
          obtain ⟨a0, h0, rfl⟩ := List.mem_map.mp ha
          rw [bump_id] at hid
          have := (hx orig hf).2 hp a0 h0 hid
          rw [bump_balance]
          by_cases hA : a0.id = orig.account_id
          · simpa [hpo, hA] using this
          · simpa [hpo, hA] using this
        · simp only [hpo, false_and, if_false] at ha
          have := (hx orig hf).2 hp a ha hid
          simpa [hpo] using this)
    rw [← old_delta_eq] at e1 e2
    unfold signed at e2
    simp only [e1, e2]

/-- C5 as amended: on an existing account with a positive id, when its `UPDATE`
completes, `apply_balance_delta` reports success and sets that account's balance to
the double nearest to the old balance plus `delta` (for a sum within `DBL_MAX`),
which is the old balance plus `delta` itself when that sum is a finite double; it
leaves every other balance, all account ids and names, and the records, categories
and members as they were. -/
theorem apply_balance_delta_double_spec (s : Store) (account_id : Int) (delta b : ℚ)
    (hpos : 0 < account_id) (hex : balance_of s account_id = some b) :
    (apply_balance_delta_double true s account_id delta).2 = true ∧
    (|b + delta| ≤ DBL_MAX →
      balance_of (apply_balance_delta_double true s account_id delta).1 account_id =
        some (to_double (b + delta))) ∧
    (is_double (b + delta) = true →
      balance_of (apply_balance_delta_double true s account_id delta).1 account_id =
        some (b + delta)) ∧
    (∀ id, id ≠ account_id →
      balance_of (apply_balance_delta_double true s account_id delta).1 id = balance_of s id) ∧
    ((apply_balance_delta_double true s account_id delta).1.accounts.map
        fun a => (a.id, a.name)) = (s.accounts.map fun a => (a.id, a.name)) ∧
    (apply_balance_delta_double true s account_id delta).1.records = s.records ∧
    (apply_balance_delta_double true s account_id delta).1.categories = s.categories ∧
    (apply_balance_delta_double true s account_id delta).1.members = s.members := by
  have hn : ¬ account_id ≤ 0 := not_le.mpr hpos
  have hs : apply_balance_delta_double true s account_id delta =
      ({ s with accounts := s.accounts.map fun a =>
          if a.id = account_id then { a with balance := to_double (a.balance + delta) }
          else a }, true) := by
    unfold apply_balance_delta_double
    simp only [hn, if_false, Bool.true_eq_false]
  have hfind : ∀ id, ((s.accounts.map fun a =>
      if a.id = account_id then { a with balance := to_double (a.balance + delta) }
      else a).find? fun a => a.id = id) =
      (s.accounts.find? fun a => a.id = id).map fun a =>
        if a.id = account_id then { a with balance := to_double (a.balance + delta) }
        else a := by
    intro id
    apply find_map_id
    intro a
    split <;> rfl
  have hround : balance_of (apply_balance_delta_double true s account_id delta).1 account_id =
      some (to_double (b + delta)) := by
    rw [hs]
    unfold balance_of at hex ⊢
    simp only [hfind]
    cases hf : s.accounts.find? (fun a => a.id = account_id) with
    | none => simp [hf] at hex
    | some a =>
      have hid : a.id = account_id := by
        have := List.find?_some hf
        simpa using this
      simp only [hf, Option.map_some', Option.some.injEq] at hex
      simp [hid, hex]
  refine ⟨by rw [hs], fun _ => hround, ?_, ?_, ?_, by rw [hs], by rw [hs], by rw [hs]⟩
  · intro hx
    rw [hround, is_double_eq _ hx]
  · intro id hne
    rw [hs]
    unfold balance_of
    simp only [hfind]
    cases hf : s.accounts.find? (fun a => a.id = id) with
    | none => rfl
    | some a =>
      have hid : a.id = id := by
        have := List.find?_some hf
        simpa using this
      have : a.id ≠ account_id := by rw [hid]; exact hne
      simp [this]
  · rw [hs]
    simp only [List.map_map]
    apply List.map_congr_left
    intro a _
    simp only [Function.comp]
    split <;> rfl

set_option maxRecDepth 20000 in
theorem apply_balance_delta_double_spec_witness :
    (apply_balance_delta_double true demo_tenth 1 (1 / 2)).2 = true ∧
    balance_of (apply_balance_delta_double true demo_tenth 1 (1 / 2)).1 1 =
      some (to_double (3602879701896397 / 36028797018963968 + 1 / 2)) ∧
    balance_of (apply_balance_delta_double true demo 1 1000).1 1 = some (0 + 1000) ∧
    (∀ id, id ≠ 1 →
      balance_of (apply_balance_delta_double true demo 1 1000).1 id = balance_of demo id) ∧
    (apply_balance_delta_double true demo 1 1000).1.records = demo.records :=
  ⟨(apply_balance_delta_double_spec demo_tenth 1 (1 / 2) (3602879701896397 / 36028797018963968)
      (by decide) (by decide!)).1,
   (apply_balance_delta_double_spec demo_tenth 1 (1 / 2) (3602879701896397 / 36028797018963968)
      (by decide) (by decide!)).2.1 (by decide!),
   (apply_balance_delta_double_spec demo 1 1000 0 (by decide) (by decide!)).2.2.1 (by decide!),
   (apply_balance_delta_double_spec demo 1 1000 0 (by decide) (by decide!)).2.2.2.1,
   (apply_balance_delta_double_spec demo 1 1000 0 (by decide) (by decide!)).2.2.2.2.2.1⟩

/-- C5, the sum as the code makes it: on the balance 10^16 the update by 1 reports
success and leaves 10^16, the double nearest to 10^16 + 1. -/
theorem apply_balance_delta_rounds :
    (apply_balance_delta_double true demo_large 1 1).2 = true ∧
    balance_of demo_large 1 = some 10000000000000000 ∧
    balance_of (apply_balance_delta_double true demo_large 1 1).1 1 =
      some 10000000000000000 ∧
    balance_of (apply_balance_delta_double true demo_large 1 1).1 1 ≠
      some (10000000000000000 + 1) := by
  decide!

/-- C2 as amended: in every store, when `add_record` commits a record and
`delete_record` is then committed on that new record, the balance updates of both
completing, and the prior balance of the account and its sum with the signed amount
are finite doubles (no sum rounds), the accounts table (hence every balance) and the
records table are what they were before the add; categories and members too. -/
theorem add_then_delete_double (q1 q2 : Sql) (s : Store) (inp : AddInput) (confirm : String)
    (hq1 : q1.delta1_ok = true) (hq2 : q2.delta1_ok = true)
    (hx : ∀ a ∈ s.accounts, a.id = select_account s inp.acc_choice →
      is_double a.balance = true ∧
      is_double (a.balance + signed inp.type_str inp.amount) = true)
    (h1 : (add_record_double q1 s inp).committed = true)
    (h2 : (delete_record_double q2 (add_record_double q1 s inp).store (added_row s inp).id
      confirm).committed = true) :
    (delete_record_double q2 (add_record_double q1 s inp).store (added_row s inp).id
      confirm).store.accounts = s.accounts ∧
    (delete_record_double q2 (add_record_double q1 s inp).store (added_row s inp).id
      confirm).store.records = s.records ∧
    (delete_record_double q2 (add_record_double q1 s inp).store (added_row s inp).id
      confirm).store.categories = s.categories ∧
    (delete_record_double q2 (add_record_double q1 s inp).store (added_row s inp).id
      confirm).store.members = s.members := by
  have e1 : add_record_double q1 s inp = add_record q1 s inp :=
    add_record_double_exact q1 s inp fun _ a ha hid => is_double_eq _ (hx a ha hid).2
  rw [e1] at h1 h2 ⊢
  have e2 : delete_record_double q2 (add_record q1 s inp).store (added_row s inp).id confirm =
      delete_record q2 (add_record q1 s inp).store (added_row s inp).id confirm := by
    apply delete_record_double_exact
    intro row hf hp a ha hid
    rcases add_record_cases q1 s inp with ⟨hc, _⟩ | ⟨_, _, _, _, _, hs1, _⟩
    · rw [hc] at h1; cases h1
    have hrec : (add_record q1 s inp).store.records = s.records ++ [added_row s inp] := by
      rw [hs1, apply_balance_delta_records]
    have hfind : find_record (add_record q1 s inp).store (added_row s inp).id =
        some (added_row s inp) := by
      unfold find_record
      rw [hrec]
      exact find_append_fresh _ _ (added_row_fresh s inp)
    have hrow : row = added_row s inp := by
      rw [hfind] at hf; exact (Option.some.inj hf).symm
    subst hrow
    rw [hs1, hq1, apply_balance_delta_accounts _ _ _ hp] at ha
    obtain ⟨a0, h0, rfl⟩ := List.mem_map.mp ha
    rw [bump_id] at hid
    have hb := (hx a0 h0 hid).1
    have hsum : (bump (added_row s inp).account_id (signed inp.type_str inp.amount) a0).balance +
        -signed (added_row s inp).type (added_row s inp).amount = a0.balance := by
      rw [bump_balance]
      simp only [hid, if_true]
      show a0.balance + signed inp.type_str inp.amount + -signed inp.type_str inp.amount = _
      ring
    rw [hsum]
    exact is_double_eq _ hb
  rw [e2] at h2 ⊢
  exact add_then_delete q1 q2 s inp confirm hq1 hq2 h1 h2

set_option maxRecDepth 20000 in
theorem add_then_delete_double_witness :
    (delete_record_double Sql.ok (add_record_double Sql.ok demo demo_add).store
      (added_row demo demo_add).id "y").store.accounts = demo.accounts ∧
    (delete_record_double Sql.ok (add_record_double Sql.ok demo demo_add).store
      (added_row demo demo_add).id "y").store.records = demo.records ∧
    (delete_record_double Sql.ok (add_record_double Sql.ok demo demo_add).store
      (added_row demo demo_add).id "y").store.categories = demo.categories ∧
    (delete_record_double Sql.ok (add_record_double Sql.ok demo demo_add).store
      (added_row demo demo_add).id "y").store.members = demo.members :=
  add_then_delete_double Sql.ok Sql.ok demo demo_add "y" rfl rfl (by decide!) (by decide!)
    (by decide!)

/-- C2, the sums as the code makes them: on the balance 0.1 an income record of 0.2
is added and at once deleted, both committed with their balance updates; the records
table is as before and the balance is 0.10000000000000003, not the prior 0.1. -/
theorem add_then_delete_rounds :
    (add_record_double Sql.ok demo_tenth demo_add_fifth).committed = true ∧
    (add_record_double Sql.ok demo_tenth demo_add_fifth).balance_ok = true ∧
    (delete_record_double Sql.ok (add_record_double Sql.ok demo_tenth demo_add_fifth).store
      (added_row demo_tenth demo_add_fifth).id "y").committed = true ∧
    (delete_record_double Sql.ok (add_record_double Sql.ok demo_tenth demo_add_fifth).store
      (added_row demo_tenth demo_add_fifth).id "y").balance_ok = true ∧
    (delete_record_double Sql.ok (add_record_double Sql.ok demo_tenth demo_add_fifth).store
      (added_row demo_tenth demo_add_fifth).id "y").store.records = demo_tenth.records ∧
    balance_of demo_tenth 1 = some (3602879701896397 / 36028797018963968) ∧
    balance_of (add_record_double Sql.ok demo_tenth demo_add_fifth).store 1 =
      some (1351079888211149 / 4503599627370496) ∧
    balance_of (delete_record_double Sql.ok
      (add_record_double Sql.ok demo_tenth demo_add_fifth).store
      (added_row demo_tenth demo_add_fifth).id "y").store 1 =
      some (1801439850948199 / 18014398509481984) ∧
    (delete_record_double Sql.ok (add_record_double Sql.ok demo_tenth demo_add_fifth).store
      (added_row demo_tenth demo_add_fifth).id "y").store.accounts ≠ demo_tenth.accounts := by
  decide!

/-- C3 as amended: when `edit_record`, all its writes completing, rewrites a record of
account A with another account B and the same kind and amount (account ids distinct
and positive, as the schema's key is), and A's balance less the signed amount and
B's balance plus it are finite doubles (no sum rounds), then for an income record
A's balance goes down by the amount and B's goes up by it, for an expense record
A's goes up and B's goes down, and the sum of all balances is unchanged. -/
theorem edit_moves_contribution_double (q : Sql) (s : Store) (inp : EditInput) (orig : Record)
    (bA bB : ℚ)
    (hq : q.row_ok = true ∧ q.delta1_ok = true ∧ q.delta2_ok = true)
    (hnd : (s.accounts.map fun a => a.id).Nodup) (hpos : ∀ a ∈ s.accounts, 0 < a.id)
    (hid : inp.id ≠ 0) (hfind : find_record s inp.id = some orig)
    (hacc : (edited_row s inp orig).account_id ≠ orig.account_id)
    (htype : (edited_row s inp orig).type = orig.type)
    (hamt : (edited_row s inp orig).amount = orig.amount)
    (hA : balance_of s orig.account_id = some bA)
    (hB : balance_of s (edited_row s inp orig).account_id = some bB)
    (hxA : ∀ a ∈ s.accounts, a.id = orig.account_id →
      is_double (a.balance - signed orig.type orig.amount) = true)
    (hxB : ∀ a ∈ s.accounts, a.id = (edited_row s inp orig).account_id →
      is_double (a.balance + signed orig.type orig.amount) = true) :
    (orig.type = Kind.income →
      balance_of (edit_record_double q s inp).store orig.account_id = some (bA - orig.amount) ∧
      balance_of (edit_record_double q s inp).store (edited_row s inp orig).account_id =
        some (bB + orig.amount)) ∧
    (orig.type = Kind.expense →
      balance_of (edit_record_double q s inp).store orig.account_id = some (bA + orig.amount) ∧
      balance_of (edit_record_double q s inp).store (edited_row s inp orig).account_id =
        some (bB - orig.amount)) ∧
    total_balance (edit_record_double q s inp).store = total_balance s := by
  have e : edit_record_double q s inp = edit_record q s inp := by
    apply edit_record_double_exact q s inp hq.2.1
    intro o ho
    have ho' : o = orig := by
      rw [hfind] at ho; exact (Option.some.inj ho).symm
    subst ho'
    refine ⟨fun _ a ha hia => ?_, fun _ a ha hia => ?_⟩
    · have := is_double_eq _ (hxA a ha hia)
      rw [sub_eq_add_neg] at this
      exact this
    · have hne : ¬ a.id = o.account_id := by rw [hia]; exact hacc
      have := is_double_eq _ (hxB a ha hia)
      simpa [hne, htype, hamt] using this
  rw [e]
  exact edit_moves_contribution q s inp orig bA bB hq hnd hpos hid hfind hacc htype hamt hA hB

set_option maxRecDepth 20000 in
theorem edit_moves_contribution_double_witness :
    (Kind.income = Kind.income →
      balance_of (edit_record_double Sql.ok demo_ledger_double demo_edit_account).store 1 =
        some (1000 - 1000) ∧
      balance_of (edit_record_double Sql.ok demo_ledger_double demo_edit_account).store 2 =
        some (0 + 1000)) ∧
    (Kind.income = Kind.expense →
      balance_of (edit_record_double Sql.ok demo_ledger_double demo_edit_account).store 1 =
        some (1000 + 1000) ∧
      balance_of (edit_record_double Sql.ok demo_ledger_double demo_edit_account).store 2 =
        some (0 - 1000)) ∧
    total_balance (edit_record_double Sql.ok demo_ledger_double demo_edit_account).store =
      total_balance demo_ledger_double :=
  edit_moves_contribution_double Sql.ok demo_ledger_double demo_edit_account
    (added_row demo demo_add) 1000 0 (by decide) (by decide!) (by decide!) (by decide)
    (by decide!) (by decide!)
    (by decide!) (by decide!) (by decide!) (by decide!) (by decide!) (by decide!)

/-- C3, the sums as the code makes them: the income record of 0.2 is moved from the
account with 0.7 to the account with 0.1, kind and amount kept; the first balance
becomes 0.49999999999999994 and the second 0.30000000000000004, which is not its
old balance plus the amount, and the sum of all balances changes. -/
theorem edit_moves_contribution_rounds :
    (edit_record_double Sql.ok demo_move demo_edit_account).committed = true ∧
    (edit_record_double Sql.ok demo_move demo_edit_account).balance_ok = true ∧
    ((find_record demo_move 1).map fun r => (r.type, r.amount, r.account_id)) =
      some (Kind.income, 3602879701896397 / 18014398509481984, 1) ∧
    ((find_record (edit_record_double Sql.ok demo_move demo_edit_account).store 1).map
        fun r => (r.type, r.amount, r.account_id)) =
      some (Kind.income, 3602879701896397 / 18014398509481984, 2) ∧
    balance_of demo_move 1 = some (3152519739159347 / 4503599627370496) ∧
    balance_of demo_move 2 = some (3602879701896397 / 36028797018963968) ∧
    balance_of (edit_record_double Sql.ok demo_move demo_edit_account).store 1 =
      some (9007199254740991 / 18014398509481984) ∧
    balance_of (edit_record_double Sql.ok demo_move demo_edit_account).store 2 =
      some (1351079888211149 / 4503599627370496) ∧
    balance_of (edit_record_double Sql.ok demo_move demo_edit_account).store 2 ≠
      some (3602879701896397 / 36028797018963968 + 3602879701896397 / 18014398509481984) ∧
    total_balance demo_move = 28823037615171173 / 36028797018963968 ∧
    total_balance (edit_record_double Sql.ok demo_move demo_edit_account).store =
      14411518807585587 / 18014398509481984 ∧
    total_balance (edit_record_double Sql.ok demo_move demo_edit_account).store ≠
      total_balance demo_move := by
  decide!

/-- C4 as amended: when `edit_record`, all its writes completing, rewrites a record of
account A (kind k, amount a) keeping the account, with kind k' and amount a', and
A's balance less signed(k, a) and that difference plus signed(k', a') are finite
doubles (no sum rounds), A's balance changes by exactly signed(k', a') - signed(k, a)
and no other account's balance changes. On the account "Cash" with balance 0: adding
an income record of 1000 gives balance 1000, editing its amount to 800 gives 800,
deleting it gives 0. -/
theorem edit_same_account_double (q : Sql) (s : Store) (inp : EditInput) (orig : Record)
    (bA : ℚ)
    (hq : q.row_ok = true ∧ q.delta1_ok = true ∧ q.delta2_ok = true)
    (hpos : ∀ a ∈ s.accounts, 0 < a.id)
    (hid : inp.id ≠ 0) (hfind : find_record s inp.id = some orig)
    (hacc : (edited_row s inp orig).account_id = orig.account_id)
    (hA : balance_of s orig.account_id = some bA)
    (hx : ∀ a ∈ s.accounts, a.id = orig.account_id →
      is_double (a.balance - signed orig.type orig.amount) = true ∧
      is_double (a.balance - signed orig.type orig.amount +
        signed (edited_row s inp orig).type (edited_row s inp orig).amount) = true) :
    (balance_of (edit_record_double q s inp).store orig.account_id =
      some (bA + (signed (edited_row s inp orig).type (edited_row s inp orig).amount -
        signed orig.type orig.amount)) ∧
     ∀ id, id ≠ orig.account_id →
      balance_of (edit_record_double q s inp).store id = balance_of s id) ∧
    (balance_of demo 1 = some 0 ∧
     (add_record_double Sql.ok demo demo_add).committed = true ∧
     balance_of demo_ledger_double 1 = some 1000 ∧
     (edit_record_double Sql.ok demo_ledger_double demo_edit_amount).committed = true ∧
     (find_record demo_edited_double 1).map (fun r => r.amount) = some 800 ∧
     balance_of demo_edited_double 1 = some 800 ∧
     (delete_record_double Sql.ok demo_edited_double 1 "y").committed = true ∧
     demo_deleted_double.records = [] ∧
     balance_of demo_deleted_double 1 = some 0) := by
  have e : edit_record_double q s inp = edit_record q s inp := by
    apply edit_record_double_exact q s inp hq.2.1
    intro o ho
    have ho' : o = orig := by
      rw [hfind] at ho; exact (Option.some.inj ho).symm
    subst ho'
    refine ⟨fun _ a ha hia => ?_, fun _ a ha hia => ?_⟩
    · have := is_double_eq _ (hx a ha hia).1
      rw [sub_eq_add_neg] at this
      exact this
    · have hia' : a.id = o.account_id := by rw [hia, hacc]
      have hp : 0 < o.account_id := by rw [← hia']; exact hpos a ha
      have := is_double_eq _ (hx a ha hia').2
      rw [sub_eq_add_neg] at this
      simpa [hp, hia'] using this
  rw [e]
  exact ⟨(edit_same_account q s inp orig bA hq hpos hid hfind hacc hA).1, by decide!⟩

set_option maxRecDepth 20000 in
theorem edit_same_account_double_witness :
    (balance_of (edit_record_double Sql.ok demo_ledger_double demo_edit_amount).store
        (added_row demo demo_add).account_id =
      some (1000 +
        (signed (edited_row demo_ledger_double demo_edit_amount (added_row demo demo_add)).type
          (edited_row demo_ledger_double demo_edit_amount (added_row demo demo_add)).amount -
        signed (added_row demo demo_add).type (added_row demo demo_add).amount)) ∧
     ∀ id, id ≠ (added_row demo demo_add).account_id →
      balance_of (edit_record_double Sql.ok demo_ledger_double demo_edit_amount).store id =
        balance_of demo_ledger_double id) ∧
    (balance_of demo 1 = some 0 ∧
     (add_record_double Sql.ok demo demo_add).committed = true ∧
     balance_of demo_ledger_double 1 = some 1000 ∧
     (edit_record_double Sql.ok demo_ledger_double demo_edit_amount).committed = true ∧
     (find_record demo_edited_double 1).map (fun r => r.amount) = some 800 ∧
     balance_of demo_edited_double 1 = some 800 ∧
     (delete_record_double Sql.ok demo_edited_double 1 "y").committed = true ∧
     demo_deleted_double.records = [] ∧
     balance_of demo_deleted_double 1 = some 0) :=
  edit_same_account_double Sql.ok demo_ledger_double demo_edit_amount (added_row demo demo_add)
    1000 (by decide) (by decide!) (by decide) (by decide!) (by decide!) (by decide!) (by decide!)

/-- C4, the sums as the code makes them: on the balance 0.7 the income record of 0.1
is edited to the amount 0.3, the account kept; the balance becomes
0.8999999999999999, not the old balance plus the difference of the amounts. -/
theorem edit_same_account_rounds :
    (edit_record_double Sql.ok demo_small demo_edit_small).committed = true ∧
    (edit_record_double Sql.ok demo_small demo_edit_small).balance_ok = true ∧
    ((find_record demo_small 1).map fun r => (r.type, r.amount, r.account_id)) =
      some (Kind.income, 3602879701896397 / 36028797018963968, 1) ∧
    ((find_record (edit_record_double Sql.ok demo_small demo_edit_small).store 1).map
        fun r => (r.type, r.amount, r.account_id)) =
      some (Kind.income, 5404319552844595 / 18014398509481984, 1) ∧
    balance_of demo_small 1 = some (3152519739159347 / 4503599627370496) ∧
    balance_of (edit_record_double Sql.ok demo_small demo_edit_small).store 1 =
      some (2026619832316723 / 2251799813685248) ∧
    balance_of (edit_record_double Sql.ok demo_small demo_edit_small).store 1 ≠
      some (3152519739159347 / 4503599627370496 +
        (signed Kind.income (5404319552844595 / 18014398509481984) -
          signed Kind.income (3602879701896397 / 36028797018963968))) := by
  decide!

end FManager
